import Mathlib

/-!
# Poly1305 (three 44/44/42-bit limbs) and bit-sliced AES-128-CTR

A shallow embedding of `snapshots/hacl-c/Poly1305_64.c` and
`snapshots/aes-bslice/aes_bslice8.c`, followed by theorems about the embedded code.

Conventions of the embedding.

* A byte is a `Fin 256`; a buffer is a `List Byte`; a pointer into a buffer is the
  list of bytes from that position on, so `m + k` in C is `m.drop k` here.
* `uint64_t` and `FStar_UInt128_t` values are natural numbers; every operation that
  can leave the machine range is followed by an explicit `% 2^64` or `% 2^128`.
* The three-element arrays `uint64_t[3]` and `FStar_UInt128_t[3]` are the structure
  `Arr3`; the loops over them have constant bounds (2 or 3) and are unrolled in the
  order in which the C code runs them.
* Functions that write through a pointer return the new contents.
-/

/-- A byte. -/
abbrev Byte := Fin 256

/-- The byte with value `x % 256`. -/
def Byte.ofNat (x : Nat) : Byte := ⟨x % 256, Nat.mod_lt x (by decide)⟩

/-- Little-endian value of a byte string. -/
def int_le : List Byte → Nat
  | [] => 0
  | b :: bs => b.val + 256 * int_le bs

/-- The `n` low bytes of `x`, least significant first. -/
def bytes_le : Nat → Nat → List Byte
  | 0, _ => []
  | n + 1, x => Byte.ofNat x :: bytes_le n (x / 256)

/-- Modelled from the spec: `load128_le` of section 4.U (declared in a header that is not
part of the sources): the little-endian 128-bit word held by the 16 bytes at the pointer. -/
def load128_le (b : List Byte) : Nat := int_le (b.take 16)

/-- Modelled from the spec: `store128_le` of section 4.U (declared in a header that is not
part of the sources): the 16 bytes written, least significant first. -/
def store128_le (x : Nat) : List Byte := bytes_le 16 x

namespace Poly1305_64

/-! ## Machine arithmetic -/

/-- Wrapping `uint64_t` addition. -/
def add64 (a b : Nat) : Nat := (a + b) % 2 ^ 64

/-- Wrapping `uint64_t` subtraction. -/
def sub64 (a b : Nat) : Nat := (a + 2 ^ 64 - b % 2 ^ 64) % 2 ^ 64

/-- Left shift of a `uint64_t`. -/
def shl64 (a s : Nat) : Nat := (a <<< s) % 2 ^ 64

/-- Modelled from the spec: `FStar_UInt128_add` (section 4.U, `add`); the C library function
requires that the sum fits, the model wraps at `2^128`. -/
def FStar_UInt128_add (a b : Nat) : Nat := (a + b) % 2 ^ 128

/-- Modelled from the spec: `FStar_UInt128_add_mod` (section 4.U, `add_mod`, wrap at `2^128`). -/
def FStar_UInt128_add_mod (a b : Nat) : Nat := (a + b) % 2 ^ 128

/-- Modelled from the spec: `FStar_UInt128_mul_wide` (section 4.U, `mul_wide(u64,u64)`). -/
def FStar_UInt128_mul_wide (a b : Nat) : Nat := a * b

/-- Modelled from the spec: `FStar_UInt128_shift_left` (section 4.U). -/
def FStar_UInt128_shift_left (a s : Nat) : Nat := (a <<< s) % 2 ^ 128

/-- Modelled from the spec: `FStar_UInt128_shift_right` (section 4.U). -/
def FStar_UInt128_shift_right (a s : Nat) : Nat := a >>> s

/-- Modelled from the spec: `FStar_UInt128_logand` (section 4.U). -/
def FStar_UInt128_logand (a b : Nat) : Nat := a &&& b

/-- Modelled from the spec: `FStar_UInt128_logor` (section 4.U). -/
def FStar_UInt128_logor (a b : Nat) : Nat := a ||| b

/-- Modelled from the spec: `FStar_Int_Cast_Full_uint64_to_uint128` (zero extension). -/
def FStar_Int_Cast_Full_uint64_to_uint128 (a : Nat) : Nat := a

/-- Modelled from the spec: `FStar_Int_Cast_Full_uint128_to_uint64` (section 4.U,
truncation to `u64`). -/
def FStar_Int_Cast_Full_uint128_to_uint64 (a : Nat) : Nat := a % 2 ^ 64

/-- Modelled from the spec: `FStar_UInt64_gte_mask` (section 4.P.2: all-ones if the relation
holds, else zero). -/
def FStar_UInt64_gte_mask (a b : Nat) : Nat := if b ≤ a then 2 ^ 64 - 1 else 0

/-- Modelled from the spec: `FStar_UInt64_eq_mask` (section 4.P.2: all-ones if the relation
holds, else zero). -/
def FStar_UInt64_eq_mask (a b : Nat) : Nat := if a = b then 2 ^ 64 - 1 else 0

/-! ## Data model -/

/-- A three-element array of limbs: `uint64_t[3]` or `FStar_UInt128_t[3]`. -/
structure Arr3 where
  /-- Element 0. -/
  a0 : Nat
  /-- Element 1. -/
  a1 : Nat
  /-- Element 2. -/
  a2 : Nat
deriving DecidableEq, Repr

/-- The state `Hacl_Impl_Poly1305_64_State_poly1305_state`: the multiplier `r` and the
accumulator `h`. -/
structure poly1305_state where
  /-- The multiplier limbs. -/
  r : Arr3
  /-- The accumulator limbs. -/
  h : Arr3
deriving DecidableEq, Repr

/-- The integer `x0 + x1*2^44 + x2*2^88` represented by three limbs. -/
def val (x : Arr3) : Nat := x.a0 + x.a1 * 2 ^ 44 + x.a2 * 2 ^ 88

/-- The prime `2^130 - 5`. -/
def prime : Nat := 2 ^ 130 - 5

/-! ## The field arithmetic of `Poly1305_64.c` -/

/-- `Hacl_Bignum_Modulo_reduce`: `b[0] = (b0 << 4) + (b0 << 2)`. -/
def Hacl_Bignum_Modulo_reduce (b : Arr3) : Arr3 :=
  Arr3.mk (add64 (shl64 b.a0 4) (shl64 b.a0 2)) b.a1 b.a2

/-- `Hacl_Bignum_Modulo_carry_top`. -/
def Hacl_Bignum_Modulo_carry_top (b : Arr3) : Arr3 :=
  let b2 := b.a2
  let b0 := b.a0
  let b2_42 := b2 >>> 42
  Arr3.mk (add64 (add64 (shl64 b2_42 2) b2_42) b0) b.a1 (b2 &&& 0x3ffffffffff)

/-- `Hacl_Bignum_Modulo_carry_top_wide` on an array of 128-bit limbs. -/
def Hacl_Bignum_Modulo_carry_top_wide (b : Arr3) : Arr3 :=
  let b2 := b.a2
  let b0 := b.a0
  let b2_ := FStar_UInt128_logand b2 (FStar_Int_Cast_Full_uint64_to_uint128 0x3ffffffffff)
  let b2_42 := FStar_Int_Cast_Full_uint128_to_uint64 (FStar_UInt128_shift_right b2 42)
  let b0_ := FStar_UInt128_add b0
    (FStar_Int_Cast_Full_uint64_to_uint128 (add64 (shl64 b2_42 2) b2_42))
  Arr3.mk b0_ b.a1 b2_

/-- `Hacl_Bignum_Fproduct_copy_from_wide_`: truncate each 128-bit limb to 64 bits. -/
def Hacl_Bignum_Fproduct_copy_from_wide_ (input : Arr3) : Arr3 :=
  Arr3.mk (FStar_Int_Cast_Full_uint128_to_uint64 input.a0)
    (FStar_Int_Cast_Full_uint128_to_uint64 input.a1)
    (FStar_Int_Cast_Full_uint128_to_uint64 input.a2)

/-- `Hacl_Bignum_Fproduct_shift`: `tmp = o[2]; o[2] = o[1]; o[1] = o[0]; o[0] = tmp`. -/
def Hacl_Bignum_Fproduct_shift (output : Arr3) : Arr3 :=
  Arr3.mk output.a2 output.a0 output.a1

/-- `Hacl_Bignum_Fproduct_sum_scalar_multiplication_`:
`output[i] = output[i] + input[i] * s` for `i = 0, 1, 2`. -/
def Hacl_Bignum_Fproduct_sum_scalar_multiplication_ (output input : Arr3) (s : Nat) : Arr3 :=
  Arr3.mk (FStar_UInt128_add_mod output.a0 (FStar_UInt128_mul_wide input.a0 s))
    (FStar_UInt128_add_mod output.a1 (FStar_UInt128_mul_wide input.a1 s))
    (FStar_UInt128_add_mod output.a2 (FStar_UInt128_mul_wide input.a2 s))

/-- One iteration of the loop of `Hacl_Bignum_Fproduct_carry_wide_` at `ctr = 0`. -/
def carry_wide_step0 (tmp : Arr3) : Arr3 :=
  let tctr := tmp.a0
  let tctrp1 := tmp.a1
  let r0 := FStar_Int_Cast_Full_uint128_to_uint64 tctr &&& (sub64 (shl64 1 44) 1)
  let c := FStar_UInt128_shift_right tctr 44
  Arr3.mk (FStar_Int_Cast_Full_uint64_to_uint128 r0) (FStar_UInt128_add tctrp1 c) tmp.a2

/-- One iteration of the loop of `Hacl_Bignum_Fproduct_carry_wide_` at `ctr = 1`. -/
def carry_wide_step1 (tmp : Arr3) : Arr3 :=
  let tctr := tmp.a1
  let tctrp1 := tmp.a2
  let r0 := FStar_Int_Cast_Full_uint128_to_uint64 tctr &&& (sub64 (shl64 1 44) 1)
  let c := FStar_UInt128_shift_right tctr 44
  Arr3.mk tmp.a0 (FStar_Int_Cast_Full_uint64_to_uint128 r0) (FStar_UInt128_add tctrp1 c)

/-- `Hacl_Bignum_Fproduct_carry_wide_`: the loop body at `i = 0`, then at `i = 1`. -/
def Hacl_Bignum_Fproduct_carry_wide_ (tmp : Arr3) : Arr3 :=
  carry_wide_step1 (carry_wide_step0 tmp)

/-- One iteration of the loop of `Hacl_Bignum_Fproduct_carry_limb_` at `ctr = 0`. -/
def carry_limb_step0 (tmp : Arr3) : Arr3 :=
  let tctr := tmp.a0
  let tctrp1 := tmp.a1
  let r0 := tctr &&& (sub64 (shl64 1 44) 1)
  let c := tctr >>> 44
  Arr3.mk r0 (add64 tctrp1 c) tmp.a2

/-- One iteration of the loop of `Hacl_Bignum_Fproduct_carry_limb_` at `ctr = 1`. -/
def carry_limb_step1 (tmp : Arr3) : Arr3 :=
  let tctr := tmp.a1
  let tctrp1 := tmp.a2
  let r0 := tctr &&& (sub64 (shl64 1 44) 1)
  let c := tctr >>> 44
  Arr3.mk tmp.a0 r0 (add64 tctrp1 c)

/-- `Hacl_Bignum_Fproduct_carry_limb_`: the loop body at `i = 0`, then at `i = 1`. -/
def Hacl_Bignum_Fproduct_carry_limb_ (tmp : Arr3) : Arr3 :=
  carry_limb_step1 (carry_limb_step0 tmp)

/-- `Hacl_Bignum_Fmul_shift_reduce`. -/
def Hacl_Bignum_Fmul_shift_reduce (output : Arr3) : Arr3 :=
  Hacl_Bignum_Modulo_reduce (Hacl_Bignum_Fproduct_shift output)

/-- `Hacl_Bignum_Fmul_mul_shift_reduce_`: the loop runs `i = 0, 1, 2` with `ctr = 2 - i` and
`j = 2 - ctr = i`; it adds `input * input2[i]` to `output` and, while `ctr > 0`, replaces
`input` by its shift-reduce.  Returns the final `output` (the changed `input` is a scratch
copy that the caller drops). -/
def Hacl_Bignum_Fmul_mul_shift_reduce_ (output input input2 : Arr3) : Arr3 :=
  let output := Hacl_Bignum_Fproduct_sum_scalar_multiplication_ output input input2.a0
  let input := Hacl_Bignum_Fmul_shift_reduce input
  let output := Hacl_Bignum_Fproduct_sum_scalar_multiplication_ output input input2.a1
  let input := Hacl_Bignum_Fmul_shift_reduce input
  Hacl_Bignum_Fproduct_sum_scalar_multiplication_ output input input2.a2

/-- `Hacl_Bignum_Fmul_fmul_`. -/
def Hacl_Bignum_Fmul_fmul_ (input input2 : Arr3) : Arr3 :=
  let t := Arr3.mk (FStar_Int_Cast_Full_uint64_to_uint128 0)
    (FStar_Int_Cast_Full_uint64_to_uint128 0) (FStar_Int_Cast_Full_uint64_to_uint128 0)
  let t := Hacl_Bignum_Fmul_mul_shift_reduce_ t input input2
  let t := Hacl_Bignum_Fproduct_carry_wide_ t
  let t := Hacl_Bignum_Modulo_carry_top_wide t
  let output := Hacl_Bignum_Fproduct_copy_from_wide_ t
  let i0 := output.a0
  let i1 := output.a1
  let i0_ := i0 &&& (sub64 (shl64 1 44) 1)
  let i1_ := add64 i1 (i0 >>> 44)
  Arr3.mk i0_ i1_ output.a2

/-- `Hacl_Bignum_Fmul_fmul`: multiply a copy of `input` by `input2`. -/
def Hacl_Bignum_Fmul_fmul (input input2 : Arr3) : Arr3 :=
  let tmp := input
  Hacl_Bignum_Fmul_fmul_ tmp input2

/-- `Hacl_Bignum_AddAndMultiply_add_and_multiply`: limb-wise `acc[i] += block[i]`, then
`acc = acc * r`. -/
def Hacl_Bignum_AddAndMultiply_add_and_multiply (acc block r : Arr3) : Arr3 :=
  let acc := Arr3.mk (add64 acc.a0 block.a0) (add64 acc.a1 block.a1) (add64 acc.a2 block.a2)
  Hacl_Bignum_Fmul_fmul acc r

/-- `Hacl_Impl_Poly1305_64_poly1305_update`: absorb the 16-byte block at `m`. -/
def Hacl_Impl_Poly1305_64_poly1305_update (st : poly1305_state) (m : List Byte) :
    poly1305_state :=
  let acc := st.h
  let r := st.r
  let m0 := load128_le m
  let r0 := FStar_Int_Cast_Full_uint128_to_uint64 m0 &&& 0xfffffffffff
  let r1 := FStar_Int_Cast_Full_uint128_to_uint64 (FStar_UInt128_shift_right m0 44)
    &&& 0xfffffffffff
  let r2 := FStar_Int_Cast_Full_uint128_to_uint64 (FStar_UInt128_shift_right m0 88)
  let b2 := r2
  let b2_ := 0x10000000000 ||| b2
  let tmp := Arr3.mk r0 r1 b2_
  poly1305_state.mk r (Hacl_Bignum_AddAndMultiply_add_and_multiply acc tmp r)

/-- `Hacl_Impl_Poly1305_64_poly1305_process_last_block_`. -/
def Hacl_Impl_Poly1305_64_poly1305_process_last_block_ (block : List Byte)
    (st : poly1305_state) : poly1305_state :=
  let m0 := load128_le block
  let r0 := FStar_Int_Cast_Full_uint128_to_uint64 m0 &&& 0xfffffffffff
  let r1 := FStar_Int_Cast_Full_uint128_to_uint64 (FStar_UInt128_shift_right m0 44)
    &&& 0xfffffffffff
  let r2 := FStar_Int_Cast_Full_uint128_to_uint64 (FStar_UInt128_shift_right m0 88)
  let tmp := Arr3.mk r0 r1 r2
  poly1305_state.mk st.r (Hacl_Bignum_AddAndMultiply_add_and_multiply st.h tmp st.r)

/-- `Hacl_Impl_Poly1305_64_poly1305_process_last_block`: a zeroed 16-byte block receives
the first `rem_` bytes of `m` (`memcpy`) and the byte 1 at index `rem_`. -/
def Hacl_Impl_Poly1305_64_poly1305_process_last_block (st : poly1305_state)
    (m : List Byte) (rem_ : Nat) : poly1305_state :=
  let zero1 : Byte := 0
  let block := List.replicate 16 zero1
  let i0 := rem_ % 2 ^ 32
  let i := rem_ % 2 ^ 32
  let block := m.take i ++ block.drop i
  let block := block.set i0 1
  Hacl_Impl_Poly1305_64_poly1305_process_last_block_ block st

/-- `Hacl_Impl_Poly1305_64_poly1305_last_pass`. -/
def Hacl_Impl_Poly1305_64_poly1305_last_pass (acc : Arr3) : Arr3 :=
  let acc := Hacl_Bignum_Fproduct_carry_limb_ acc
  let acc := Hacl_Bignum_Modulo_carry_top acc
  let a0 := acc.a0
  let a10 := acc.a1
  let a20 := acc.a2
  let a0_ := a0 &&& 0xfffffffffff
  let r0 := a0 >>> 44
  let a1_ := (add64 a10 r0) &&& 0xfffffffffff
  let r1 := (add64 a10 r0) >>> 44
  let a2_ := add64 a20 r1
  let acc := Arr3.mk a0_ a1_ a2_
  let acc := Hacl_Bignum_Modulo_carry_top acc
  let i0 := acc.a0
  let i1 := acc.a1
  let i0_ := i0 &&& (sub64 (shl64 1 44) 1)
  let i1_ := add64 i1 (i0 >>> 44)
  let acc := Arr3.mk i0_ i1_ acc.a2
  let a00 := acc.a0
  let a1 := acc.a1
  let a2 := acc.a2
  let mask0 := FStar_UInt64_gte_mask a00 0xffffffffffb
  let mask1 := FStar_UInt64_eq_mask a1 0xfffffffffff
  let mask2 := FStar_UInt64_eq_mask a2 0x3ffffffffff
  let mask := mask0 &&& mask1 &&& mask2
  let a0_0 := sub64 a00 (0xffffffffffb &&& mask)
  let a1_0 := sub64 a1 (0xfffffffffff &&& mask)
  let a2_0 := sub64 a2 (0x3ffffffffff &&& mask)
  Arr3.mk a0_0 a1_0 a2_0

/-- `Hacl_Standalone_Poly1305_64_poly1305_blocks`: absorb `len1` consecutive 16-byte blocks
(the C function recurses on `len1 - 1` with the pointer advanced by 16). -/
def Hacl_Standalone_Poly1305_64_poly1305_blocks :
    poly1305_state → List Byte → Nat → poly1305_state
  | st, _, 0 => st
  | st, m, len2 + 1 =>
    Hacl_Standalone_Poly1305_64_poly1305_blocks
      (Hacl_Impl_Poly1305_64_poly1305_update st m) (m.drop 16) len2

/-- `Hacl_Standalone_Poly1305_64_poly1305_partial`: set `r` from the key, zero the
accumulator, absorb `len1` blocks. -/
def Hacl_Standalone_Poly1305_64_poly1305_partial (_st : poly1305_state) (input : List Byte)
    (len1 : Nat) (kr : List Byte) : poly1305_state :=
  let k1 := load128_le kr
  let k_clamped := FStar_UInt128_logand k1
    (FStar_UInt128_logor
      (FStar_UInt128_shift_left (FStar_Int_Cast_Full_uint64_to_uint128 0x0ffffffc0ffffffc) 64)
      (FStar_Int_Cast_Full_uint64_to_uint128 0x0ffffffc0fffffff))
  let r0 := FStar_Int_Cast_Full_uint128_to_uint64 k_clamped &&& 0xfffffffffff
  let r1 := FStar_Int_Cast_Full_uint128_to_uint64 (FStar_UInt128_shift_right k_clamped 44)
    &&& 0xfffffffffff
  let r2 := FStar_Int_Cast_Full_uint128_to_uint64 (FStar_UInt128_shift_right k_clamped 88)
  let st := poly1305_state.mk (Arr3.mk r0 r1 r2) (Arr3.mk 0 0 0)
  Hacl_Standalone_Poly1305_64_poly1305_blocks st input len1

/-- `Hacl_Standalone_Poly1305_64_poly1305_complete`.  The pointer to the last block is
`m + (uint32_t)(16 * len16)`: the offset is cut to 32 bits. -/
def Hacl_Standalone_Poly1305_64_poly1305_complete (st : poly1305_state) (m : List Byte)
    (len1 : Nat) (k1 : List Byte) : poly1305_state :=
  let kr := k1
  let len16 := len1 >>> 4
  let rem16 := len1 &&& 0xf
  let part_input := m
  let last_block := m.drop (((16 * len16) % 2 ^ 64) % 2 ^ 32)
  let st := ( Hacl_Standalone_Poly1305_64_poly1305_partial st part_input len16 kr)
  let st := if rem16 = 0 then st
    else Hacl_Impl_Poly1305_64_poly1305_process_last_block st last_block rem16
  poly1305_state.mk st.r (Hacl_Impl_Poly1305_64_poly1305_last_pass st.h)

/-- `Hacl_Standalone_Poly1305_64_crypto_onetimeauth_`: returns the 16 bytes written to
`output`.  `len1` is the `uint64_t` length argument. -/
def Hacl_Standalone_Poly1305_64_crypto_onetimeauth_ (input : List Byte) (len1 : Nat)
    (k1 : List Byte) : List Byte :=
  let st := poly1305_state.mk (Arr3.mk 0 0 0) (Arr3.mk 0 0 0)
  let key_s := k1.drop 16
  let st := Hacl_Standalone_Poly1305_64_poly1305_complete st input len1 k1
  let acc := st.h
  let k_ := load128_le key_s
  let h0 := acc.a0
  let h1 := acc.a1
  let h2 := acc.a2
  let acc_ := FStar_UInt128_logor
    (FStar_UInt128_shift_left
      (FStar_Int_Cast_Full_uint64_to_uint128 (shl64 h2 24 ||| h1 >>> 20)) 64)
    (FStar_Int_Cast_Full_uint64_to_uint128 (shl64 h1 44 ||| h0))
  let mac_ := FStar_UInt128_add_mod acc_ k_
  store128_le mac_

/-- `Hacl_Standalone_Poly1305_64_crypto_onetimeauth`. -/
def Hacl_Standalone_Poly1305_64_crypto_onetimeauth (input : List Byte) (len1 : Nat)
    (k1 : List Byte) : List Byte :=
  Hacl_Standalone_Poly1305_64_crypto_onetimeauth_ input len1 k1

/-! ## The incremental interface -/

/-- `Poly1305_64_init`. -/
def Poly1305_64_init (_st : poly1305_state) (k1 : List Byte) : poly1305_state :=
  let k10 := load128_le k1
  let k_clamped := FStar_UInt128_logand k10
    (FStar_UInt128_logor
      (FStar_UInt128_shift_left (FStar_Int_Cast_Full_uint64_to_uint128 0x0ffffffc0ffffffc) 64)
      (FStar_Int_Cast_Full_uint64_to_uint128 0x0ffffffc0fffffff))
  let r0 := FStar_Int_Cast_Full_uint128_to_uint64 k_clamped &&& 0xfffffffffff
  let r1 := FStar_Int_Cast_Full_uint128_to_uint64 (FStar_UInt128_shift_right k_clamped 44)
    &&& 0xfffffffffff
  let r2 := FStar_Int_Cast_Full_uint128_to_uint64 (FStar_UInt128_shift_right k_clamped 88)
  poly1305_state.mk (Arr3.mk r0 r1 r2) (Arr3.mk 0 0 0)

/-- `Poly1305_64_update_block`. -/
def Poly1305_64_update_block (st : poly1305_state) (m : List Byte) : poly1305_state :=
  Hacl_Impl_Poly1305_64_poly1305_update st m

/-- `Poly1305_64_update`: absorb `len1` consecutive blocks. -/
def Poly1305_64_update : poly1305_state → List Byte → Nat → poly1305_state
  | st, _, 0 => st
  | st, m, len2 + 1 => Poly1305_64_update (Poly1305_64_update_block st m) (m.drop 16) len2

/-- `Poly1305_64_update_last`: absorb the short block when `len1` is not 0, then run
`last_pass` in every case. -/
def Poly1305_64_update_last (st : poly1305_state) (m : List Byte) (len1 : Nat) :
    poly1305_state :=
  let st := if len1 = 0 then st
    else Hacl_Impl_Poly1305_64_poly1305_process_last_block st m len1
  poly1305_state.mk st.r (Hacl_Impl_Poly1305_64_poly1305_last_pass st.h)

/-- `Poly1305_64_finish`: returns the 16 bytes written to `mac`; the 128-bit word added to
the accumulator is loaded from the first 16 bytes at `k1`. -/
def Poly1305_64_finish (st : poly1305_state) (k1 : List Byte) : List Byte :=
  let acc := st.h
  let k_ := load128_le k1
  let h0 := acc.a0
  let h1 := acc.a1
  let h2 := acc.a2
  let acc_ := FStar_UInt128_logor
    (FStar_UInt128_shift_left
      (FStar_Int_Cast_Full_uint64_to_uint128 (shl64 h2 24 ||| h1 >>> 20)) 64)
    (FStar_Int_Cast_Full_uint64_to_uint128 (shl64 h1 44 ||| h0))
  let mac_ := FStar_UInt128_add_mod acc_ k_
  store128_le mac_

/-- `Poly1305_64_crypto_onetimeauth`. -/
def Poly1305_64_crypto_onetimeauth (input : List Byte) (len1 : Nat) (k1 : List Byte) :
    List Byte :=
  Hacl_Standalone_Poly1305_64_crypto_onetimeauth input len1 k1

/-! ## Auxiliary definitions used by the proofs -/

/-- The clamped multiplier limbs that `Poly1305_64_init` and `poly1305_partial` both
compute from the 16 bytes at `kr`. -/
def clamp_limbs (kr : List Byte) : Arr3 :=
  let k1 := load128_le kr
  let k_clamped := FStar_UInt128_logand k1
    (FStar_UInt128_logor
      (FStar_UInt128_shift_left (FStar_Int_Cast_Full_uint64_to_uint128 0x0ffffffc0ffffffc) 64)
      (FStar_Int_Cast_Full_uint64_to_uint128 0x0ffffffc0fffffff))
  let r0 := FStar_Int_Cast_Full_uint128_to_uint64 k_clamped &&& 0xfffffffffff
  let r1 := FStar_Int_Cast_Full_uint128_to_uint64 (FStar_UInt128_shift_right k_clamped 44)
    &&& 0xfffffffffff
  let r2 := FStar_Int_Cast_Full_uint128_to_uint64 (FStar_UInt128_shift_right k_clamped 88)
  Arr3.mk r0 r1 r2

/-- The 128-bit word that `crypto_onetimeauth_` and `Poly1305_64_finish` both pack from
the three accumulator limbs. -/
def pack128 (acc : Arr3) : Nat :=
  let h0 := acc.a0
  let h1 := acc.a1
  let h2 := acc.a2
  FStar_UInt128_logor
    (FStar_UInt128_shift_left
      (FStar_Int_Cast_Full_uint64_to_uint128 (shl64 h2 24 ||| h1 >>> 20)) 64)
    (FStar_Int_Cast_Full_uint64_to_uint128 (shl64 h1 44 ||| h0))

/-- The tail shared by `crypto_onetimeauth_` and `Poly1305_64_finish`: pack the three
limbs into a 128-bit word, add the 128-bit word loaded at `key_s`, store the sum. -/
def pack_and_add (acc : Arr3) (key_s : List Byte) : List Byte :=
  store128_le (FStar_UInt128_add_mod (pack128 acc) (load128_le key_s))

/-! ## The reference: RFC 8439, section 2.5, as the specification words it -/

/-- The multiplier `r = int_le(K[0..16]) AND 0x0ffffffc0ffffffc0ffffffc0fffffff`. -/
def rfc_r (K : List Byte) : Nat := int_le (K.take 16) &&& 0x0ffffffc0ffffffc0ffffffc0fffffff

/-- The pad `s = int_le(K[16..32])`. -/
def rfc_s (K : List Byte) : Nat := int_le ((K.drop 16).take 16)

/-- Horner evaluation over the next `n` chunks of at most 16 bytes: each chunk `c` is read
as `int_le(c) + 2^(8*|c|)`, added to the running value, and the sum is multiplied by `r`. -/
def rfc_horner (r : Nat) : Nat → Nat → List Byte → Nat
  | 0, acc, _ => acc
  | n + 1, acc, m =>
    rfc_horner r n ((acc + (int_le (m.take 16) + 2 ^ (8 * (m.take 16).length))) * r)
      (m.drop 16)

/-- The tag of RFC 8439: the message is cut into `ceil(|M|/16)` chunks, the Horner value is
reduced modulo `2^130 - 5`, the pad is added modulo `2^128`, and the result is written as
16 little-endian bytes. -/
def rfc8439_tag (K M : List Byte) : List Byte :=
  bytes_le 16 ((rfc_horner (rfc_r K) ((M.length + 15) / 16) 0 M % prime + rfc_s K) % 2 ^ 128)

/-- The incremental sequence `init; update; update_last; finish` on a message `M`, with
the pad pointer `K + 16` handed to `finish`. -/
def incremental_tag (st0 : poly1305_state) (K M : List Byte) : List Byte :=
  let st := Poly1305_64_init st0 K
  let st := Poly1305_64_update st M (M.length / 16)
  let st := Poly1305_64_update_last st (M.drop (16 * (M.length / 16))) (M.length % 16)
  Poly1305_64_finish st (K.drop 16)

/-- The state after `Poly1305_64_init` and one `Poly1305_64_update_block` per block. -/
def after_blocks (st0 : poly1305_state) (K : List Byte) (blocks : List (List Byte)) :
    poly1305_state :=
  blocks.foldl Poly1305_64_update_block (Poly1305_64_init st0 K)

/-- The three wide sums that the schoolbook multiplication accumulates. -/
def mulT (x r : Arr3) : Arr3 :=
  Arr3.mk (x.a0 * r.a0 + 20 * x.a2 * r.a1 + 20 * x.a1 * r.a2)
    (x.a1 * r.a0 + x.a0 * r.a1 + 20 * x.a2 * r.a2)
    (x.a2 * r.a0 + x.a1 * r.a1 + x.a0 * r.a2)

/-- The carry chain that follows the schoolbook multiplication in `fmul_`. -/
def fmul_carry (t : Arr3) : Arr3 :=
  let t := Hacl_Bignum_Fproduct_carry_wide_ t
  let t := Hacl_Bignum_Modulo_carry_top_wide t
  let output := Hacl_Bignum_Fproduct_copy_from_wide_ t
  let i0 := output.a0
  let i1 := output.a1
  let i0_ := i0 &&& (sub64 (shl64 1 44) 1)
  let i1_ := add64 i1 (i0 >>> 44)
  Arr3.mk i0_ i1_ output.a2

/-- Bounds that hold for the accumulator between blocks. -/
def acc_ok (a : Arr3) : Prop := a.a0 < 2 ^ 45 ∧ a.a1 < 2 ^ 45 ∧ a.a2 < 2 ^ 43

/-- Bounds of a clamped multiplier. -/
def r_ok (r : Arr3) : Prop := r.a0 < 2 ^ 44 ∧ r.a1 < 2 ^ 44 ∧ r.a2 < 2 ^ 42

/-- Bounds of the limbs of a loaded block. -/
def block_ok (b : Arr3) : Prop := b.a0 < 2 ^ 44 ∧ b.a1 < 2 ^ 44 ∧ b.a2 < 2 ^ 41

/-- The three limbs of a 128-bit word, as the block loader computes them. -/
def limbs_of (m0 : Nat) : Arr3 := Arr3.mk (m0 % 2 ^ 44) (m0 / 2 ^ 44 % 2 ^ 44) (m0 / 2 ^ 88)

/-- The limbs just before the conditional subtraction of `last_pass`. -/
def last_pass_normalized (acc : Arr3) : Arr3 :=
  let acc := Hacl_Bignum_Fproduct_carry_limb_ acc
  let acc := Hacl_Bignum_Modulo_carry_top acc
  let a0 := acc.a0
  let a10 := acc.a1
  let a20 := acc.a2
  let a0_ := a0 &&& 0xfffffffffff
  let r0 := a0 >>> 44
  let a1_ := (add64 a10 r0) &&& 0xfffffffffff
  let r1 := (add64 a10 r0) >>> 44
  let a2_ := add64 a20 r1
  let acc := Arr3.mk a0_ a1_ a2_
  let acc := Hacl_Bignum_Modulo_carry_top acc
  let i0 := acc.a0
  let i1 := acc.a1
  let i0_ := i0 &&& (sub64 (shl64 1 44) 1)
  let i1_ := add64 i1 (i0 >>> 44)
  Arr3.mk i0_ i1_ acc.a2

/-- The conditional subtraction of `2^130 - 5` at the end of `last_pass`. -/
def last_pass_subtract (acc : Arr3) : Arr3 :=
  let a00 := acc.a0
  let a1 := acc.a1
  let a2 := acc.a2
  let mask0 := FStar_UInt64_gte_mask a00 0xffffffffffb
  let mask1 := FStar_UInt64_eq_mask a1 0xfffffffffff
  let mask2 := FStar_UInt64_eq_mask a2 0x3ffffffffff
  let mask := mask0 &&& mask1 &&& mask2
  let a0_0 := sub64 a00 (0xffffffffffb &&& mask)
  let a1_0 := sub64 a1 (0xfffffffffff &&& mask)
  let a2_0 := sub64 a2 (0x3ffffffffff &&& mask)
  Arr3.mk a0_0 a1_0 a2_0

/-- The padded block that `process_last_block` builds from the first `rem_` bytes of `m`. -/
def last_block_bytes (m : List Byte) (rem_ : Nat) : List Byte :=
  (m.take (rem_ % 2 ^ 32) ++ (List.replicate 16 (0 : Byte)).drop (rem_ % 2 ^ 32)).set
    (rem_ % 2 ^ 32) 1

/-- The value after the optional short last block: `H` when `rem_ = 0`, otherwise
`(H + int_le(lb[0..rem_]) + 2^(8*rem_)) * r`. -/
def last_value (r H : Nat) (lb : List Byte) (rem_ : Nat) : Nat :=
  if rem_ = 0 then H else (H + (int_le (lb.take rem_) + 2 ^ (8 * rem_))) * r

/-- The 16 bytes that follow from a state after the blocks of `M`, a last block read at
`lb`, and the pad of `K`. -/
def tag_of (K M lb : List Byte) : List Byte :=
  store128_le ((last_value (rfc_r K) (rfc_horner (rfc_r K) (M.length / 16) 0 M) lb
    (M.length % 16) % prime + rfc_s K) % 2 ^ 128)

/-- The all-zero state that the callers allocate before `init`. -/
def zero_state : poly1305_state := poly1305_state.mk (Arr3.mk 0 0 0) (Arr3.mk 0 0 0)

/-- The key of RFC 8439, section 2.5.2. -/
def rfc_key : List Byte :=
  [0x85, 0xd6, 0xbe, 0x78, 0x57, 0x55, 0x6d, 0x33, 0x7f, 0x44, 0x52, 0xfe, 0x42, 0xd5, 0x06, 0xa8,
   0x01, 0x03, 0x80, 0x8a, 0xfb, 0x0d, 0xb2, 0xfd, 0x4a, 0xbf, 0xf6, 0xaf, 0x41, 0x49, 0xf5, 0x1b]

/-- The message of RFC 8439, section 2.5.2: the ASCII bytes of
"Cryptographic Forum Research Group". -/
def rfc_msg : List Byte :=
  [0x43, 0x72, 0x79, 0x70, 0x74, 0x6f, 0x67, 0x72, 0x61, 0x70, 0x68, 0x69, 0x63, 0x20, 0x46, 0x6f,
   0x72, 0x75, 0x6d, 0x20, 0x52, 0x65, 0x73, 0x65, 0x61, 0x72, 0x63, 0x68, 0x20, 0x47, 0x72, 0x6f,
   0x75, 0x70]

/-- The tag of RFC 8439, section 2.5.2. -/
def rfc_tag : List Byte :=
  [0xa8, 0x06, 0x1d, 0xc1, 0x30, 0x51, 0x36, 0xc6, 0xc2, 0x2b, 0x8b, 0xaf, 0x0c, 0x01, 0x27, 0xa9]

/-- A key whose clamped multiplier is `c` (one byte) and whose pad is zero. -/
def small_key (c : Byte) : List Byte := c :: List.replicate 31 0

/-- A message of `16 * n` zero bytes followed by the single byte `b`. -/
def zeros_then (n : Nat) (b : Byte) : List Byte := List.replicate (16 * n) 0 ++ [b]

end Poly1305_64

/-- Bitwise exclusive or of two bytes. -/
def Byte.xor (a b : Byte) : Byte := Byte.ofNat (a.val ^^^ b.val)

/-- Modelled from the spec: `store64_le` of section 4.U (declared in `endianness.h`, which is
not part of the sources): the 8 bytes written, least significant first. -/
def store64_le (x : Nat) : List Byte := bytes_le 8 x

/-- Modelled from the spec: `store32_be` of section 4.U (declared in `endianness.h`, which is
not part of the sources): the 4 bytes written, most significant first. -/
def store32_be (x : Nat) : List Byte := (bytes_le 4 x).reverse

namespace aes_bslice8

/-! ## The bit-sliced AES-128 of `aes_bslice8.c`

The sources declare `transpose_t` as a pointer to `uint128_t`: a state is eight elements of
16 bytes.  Every function that takes a `transpose_t` reads an element into a `uint64_t`
(`subBytes`, `shiftRows`, `mixColumns`, `key_expansion_step`) or combines it bit by bit with
another element (`addRoundKey`, the `^=` of `mixColumns`), so the low 64 bits of the
elements after a call depend only on the low 64 bits before it; a `transpose_t` argument is
modelled by the list of the low 64 bits of its eight elements.

The key schedule is an array of `uint64_t`, which the code addresses in steps of eight
words (`key + 8*i`, `out + 8*i`) before it hands the pointer to a function that takes a
`transpose_t`; it is modelled as a list of 64-bit words, and element `j` of the
`transpose_t` at word `p` lies in the words `p + 2j` (low half) and `p + 2j + 1` (high
half).  A write past the end of the list has no effect and a read past the end gives 0.

The arrays `st` and `nt` of `aes128_block` are listed by the eight values that its loop
indexes. -/

/-- Left shift of a `uint64_t`. -/
def shl64 (a s : Nat) : Nat := (a <<< s) % 2 ^ 64

/-- Left shift of a `uint128_t`. -/
def shl128 (a s : Nat) : Nat := (a <<< s) % 2 ^ 128

/-- Bitwise complement of a `uint64_t`. -/
def not64 (a : Nat) : Nat := (a ^^^ 0xffffffffffffffff) % 2 ^ 64

/-- The constant table `trans_mask`. -/
def trans_mask : List Nat :=
  [0x8040201008040201, 0x4020100804020100, 0x2010080402010000, 0x1008040201000000,
   0x0804020100000000, 0x0402010000000000, 0x0201000000000000, 0x0100000000000000]

/-- `transpose128`: the function is declared with return type `uint64_t`, so the 128-bit
value `y` is cut to its low 64 bits on return. -/
def transpose128 (x : Nat) : Nat :=
  let tm0 := shl128 (trans_mask.getD 0 0) 64 ||| trans_mask.getD 0 0
  let tm1 := shl128 (trans_mask.getD 1 0) 64 ||| trans_mask.getD 1 0
  let tm2 := shl128 (trans_mask.getD 2 0) 64 ||| trans_mask.getD 2 0
  let tm3 := shl128 (trans_mask.getD 3 0) 64 ||| trans_mask.getD 3 0
  let tm4 := shl128 (trans_mask.getD 4 0) 64 ||| trans_mask.getD 4 0
  let tm5 := shl128 (trans_mask.getD 5 0) 64 ||| trans_mask.getD 5 0
  let tm6 := shl128 (trans_mask.getD 6 0) 64 ||| trans_mask.getD 6 0
  let tm7 := shl128 (trans_mask.getD 7 0) 64 ||| trans_mask.getD 7 0
  let y := (x &&& tm0) |||
    ((x &&& tm1) >>> 7) |||
    ((x &&& tm2) >>> 14) |||
    ((x &&& tm3) >>> 21) |||
    ((x &&& tm4) >>> 28) |||
    ((x &&& tm5) >>> 35) |||
    ((x &&& tm6) >>> 42) |||
    ((x &&& tm7) >>> 49) |||
    (shl128 x 7 &&& tm1) |||
    (shl128 x 14 &&& tm2) |||
    (shl128 x 21 &&& tm3) |||
    (shl128 x 28 &&& tm4) |||
    (shl128 x 35 &&& tm5) |||
    (shl128 x 42 &&& tm6) |||
    (shl128 x 49 &&& tm7)
  y % 2 ^ 64

/-- Modelled from the spec: `transpose64`, which `from_transpose` calls and the sources do
not define; section 4.B.6 makes it the same bit-matrix transpose as `transpose128`, on one
64-bit word. -/
def transpose64 (x : Nat) : Nat :=
  let tm0 := trans_mask.getD 0 0
  let tm1 := trans_mask.getD 1 0
  let tm2 := trans_mask.getD 2 0
  let tm3 := trans_mask.getD 3 0
  let tm4 := trans_mask.getD 4 0
  let tm5 := trans_mask.getD 5 0
  let tm6 := trans_mask.getD 6 0
  let tm7 := trans_mask.getD 7 0
  (x &&& tm0) |||
    ((x &&& tm1) >>> 7) |||
    ((x &&& tm2) >>> 14) |||
    ((x &&& tm3) >>> 21) |||
    ((x &&& tm4) >>> 28) |||
    ((x &&& tm5) >>> 35) |||
    ((x &&& tm6) >>> 42) |||
    ((x &&& tm7) >>> 49) |||
    (shl64 x 7 &&& tm1) |||
    (shl64 x 14 &&& tm2) |||
    (shl64 x 21 &&& tm3) |||
    (shl64 x 28 &&& tm4) |||
    (shl64 x 35 &&& tm5) |||
    (shl64 x 42 &&& tm6) |||
    (shl64 x 49 &&& tm7)

/-- The value `u` that iteration `i` of the loop of `to_transpose_block_copy` stores into
`out[i]`, a `uint128_t`: the 16-bit slice `i` of the transposed block `st`, repeated in every
16-bit field. -/
def copy_elem (st i : Nat) : Nat :=
  let u := (st >>> (16 * i)) &&& 0xffff
  let u := u ^^^ shl128 u 16
  let u := u ^^^ shl128 u 32
  let u := u ^^^ shl128 u 64
  u

/-- `to_transpose_block_copy`: the low 64 bits of the eight elements written; word `i` is
the 16-bit slice `i` of the transposed block, repeated in every 16-bit field. -/
def to_transpose_block_copy (inp : List Byte) : List Nat :=
  let st := load128_le inp
  let st := transpose128 st
  (List.range 8).map fun i => copy_elem st i % 2 ^ 64

/-- `to_transpose_block`: word `i` is the 16-bit slice `i` of the transposed block. -/
def to_transpose_block (inp : List Byte) : List Nat :=
  let st := load128_le inp
  let st := transpose128 st
  (List.range 8).map fun i =>
    let u := (st >>> (16 * i)) &&& 0xffff
    u % 2 ^ 64

/-- `from_transpose`: returns the 64 bytes written to `out` and the values of the variables
`t0 .. t7` on return.  The three loops at the head of the C function fill the local array
`tmp`, which is never read afterwards, and are left out.  The function then reads and
assigns the variables `t0 .. t7`, which the sources do not declare; their values on entry
are the parameter `t`, and the next call starts from the values that this call leaves.  The
first copy block is `t2_ = t3` in the sources.  The argument `inp` is not read by anything
that reaches the output. -/
def from_transpose (t : List Nat) (_inp : List Nat) : List Byte × List Nat :=
  let t0 := t.getD 0 0
  let t1 := t.getD 1 0
  let t2 := t.getD 2 0
  let t3 := t.getD 3 0
  let t4 := t.getD 4 0
  let t5 := t.getD 5 0
  let t6 := t.getD 6 0
  let t7 := t.getD 7 0
  let t0_ := t0
  let t1_ := t1
  let _t2_ := t3
  let _t3_ := t3
  let t4_ := t4
  let t5_ := t5
  let _t6_ := t6
  let _t7_ := t7
  let t0 := (t0 &&& 0x0000ffff0000ffff) ^^^ shl128 (t2 &&& 0x0000ffff0000ffff) 16
  let t1 := (t1 &&& 0x0000ffff0000ffff) ^^^ shl128 (t3 &&& 0x0000ffff0000ffff) 16
  let t2 := (t2 &&& 0xffff0000ffff0000) ^^^ ((t0_ &&& 0xffff0000ffff0000) >>> 16)
  let t3 := (t3 &&& 0xffff0000ffff0000) ^^^ ((t1_ &&& 0xffff0000ffff0000) >>> 16)
  let t4 := (t4 &&& 0x0000ffff0000ffff) ^^^ shl128 (t6 &&& 0x0000ffff0000ffff) 16
  let t5 := (t5 &&& 0x0000ffff0000ffff) ^^^ shl128 (t7 &&& 0x0000ffff0000ffff) 16
  let t6 := (t6 &&& 0xffff0000ffff0000) ^^^ ((t4_ &&& 0xffff0000ffff0000) >>> 16)
  let t7 := (t7 &&& 0xffff0000ffff0000) ^^^ ((t5_ &&& 0xffff0000ffff0000) >>> 16)
  let t0_ := t0
  let _t1_ := t1
  let t2_ := t2
  let _t3_ := t3
  let t4_ := t4
  let _t5_ := t5
  let t6_ := t6
  let _t7_ := t7
  let t0 := (t0 &&& 0x00ff00ff00ff00ff) ^^^ shl128 (t1 &&& 0x00ff00ff00ff00ff) 8
  let t1 := (t1 &&& 0xff00ff00ff00ff00) ^^^ ((t0_ &&& 0xff00ff00ff00ff00) >>> 8)
  let t2 := (t2 &&& 0x00ff00ff00ff00ff) ^^^ shl128 (t3 &&& 0x00ff00ff00ff00ff) 8
  let t3 := (t3 &&& 0xff00ff00ff00ff00) ^^^ ((t2_ &&& 0xff00ff00ff00ff00) >>> 8)
  let t4 := (t4 &&& 0x00ff00ff00ff00ff) ^^^ shl128 (t5 &&& 0x00ff00ff00ff00ff) 8
  let t5 := (t5 &&& 0xff00ff00ff00ff00) ^^^ ((t4_ &&& 0xff00ff00ff00ff00) >>> 8)
  let t6 := (t6 &&& 0x00ff00ff00ff00ff) ^^^ shl128 (t7 &&& 0x00ff00ff00ff00ff) 8
  let t7 := (t7 &&& 0xff00ff00ff00ff00) ^^^ ((t6_ &&& 0xff00ff00ff00ff00) >>> 8)
  let t0 := transpose64 t0
  let t1 := transpose64 t1
  let t2 := transpose64 t2
  let t3 := transpose64 t3
  let t4 := transpose64 t4
  let t5 := transpose64 t5
  let t6 := transpose64 t6
  let t7 := transpose64 t7
  (store64_le t0 ++ store64_le t1 ++ store64_le t2 ++ store64_le t3 ++ store64_le t4 ++
      store64_le t5 ++ store64_le t6 ++ store64_le t7,
    [t0, t1, t2, t3, t4, t5, t6, t7])

/-- `subBytes`: the gate list of the sources, in their order; the result lists the new
words `st[0] .. st[7]`. -/
def subBytes (st : List Nat) : List Nat :=
  let u0 := st.getD 7 0
  let u1 := st.getD 6 0
  let u2 := st.getD 5 0
  let u3 := st.getD 4 0
  let u4 := st.getD 3 0
  let u5 := st.getD 2 0
  let u6 := st.getD 1 0
  let u7 := st.getD 0 0
  let t1 := u6 ^^^ u4
  let t2 := u3 ^^^ u0
  let t3 := u1 ^^^ u2
  let t6 := u1 ^^^ u5
  let t7 := u0 ^^^ u6
  let t13 := u2 ^^^ u5
  let t16 := u0 ^^^ u5
  let t18 := u6 ^^^ u5
  let t4 := u7 ^^^ t3
  let t5 := t1 ^^^ t2
  let t8 := t1 ^^^ t6
  let t9 := u6 ^^^ t4
  let t10 := u3 ^^^ t4
  let t11 := u7 ^^^ t5
  let t12 := t5 ^^^ t6
  let t14 := t3 ^^^ t5
  let t15 := u5 ^^^ t7
  let t17 := u7 ^^^ t8
  let t19 := t2 ^^^ t18
  let t22 := u0 ^^^ t4
  let t54 := t2 &&& t8
  let t50 := t9 &&& t4
  let t20 := t4 ^^^ t15
  let t21 := t1 ^^^ t13
  let t39 := t21 ^^^ t5
  let t40 := t21 ^^^ t7
  let t41 := t7 ^^^ t19
  let t42 := t16 ^^^ t14
  let t43 := t22 ^^^ t17
  let t44 := t19 &&& t5
  let t45 := t20 &&& t11
  let t47 := t10 &&& u7
  let t57 := t16 &&& t14
  let t46 := t12 ^^^ t44
  let t48 := t47 ^^^ t44
  let t49 := t7 &&& t21
  let t51 := t40 ^^^ t49
  let t52 := t22 &&& t17
  let t53 := t52 ^^^ t49
  let t55 := t41 &&& t39
  let t56 := t55 ^^^ t54
  let t58 := t57 ^^^ t54
  let t59 := t46 ^^^ t45
  let t60 := t48 ^^^ t42
  let t61 := t51 ^^^ t50
  let t62 := t53 ^^^ t58
  let t63 := t59 ^^^ t56
  let t64 := t60 ^^^ t58
  let t65 := t61 ^^^ t56
  let t66 := t62 ^^^ t43
  let t67 := t65 ^^^ t66
  let t68 := t65 &&& t63
  let t69 := t64 ^^^ t68
  let t70 := t63 ^^^ t64
  let t71 := t66 ^^^ t68
  let t72 := t71 &&& t70
  let t73 := t69 &&& t67
  let t74 := t63 &&& t66
  let t75 := t70 &&& t74
  let t76 := t70 ^^^ t68
  let t77 := t64 &&& t65
  let t78 := t67 &&& t77
  let t79 := t67 ^^^ t68
  let t80 := t64 ^^^ t72
  let t81 := t75 ^^^ t76
  let t82 := t66 ^^^ t73
  let t83 := t78 ^^^ t79
  let t84 := t81 ^^^ t83
  let t85 := t80 ^^^ t82
  let t86 := t80 ^^^ t81
  let t87 := t82 ^^^ t83
  let t88 := t85 ^^^ t84
  let t89 := t87 &&& t5
  let t90 := t83 &&& t11
  let t91 := t82 &&& u7
  let t92 := t86 &&& t21
  let t93 := t81 &&& t4
  let t94 := t80 &&& t17
  let t95 := t85 &&& t8
  let t96 := t88 &&& t39
  let t97 := t84 &&& t14
  let t98 := t87 &&& t19
  let t99 := t83 &&& t20
  let t100 := t82 &&& t10
  let t101 := t86 &&& t7
  let t102 := t81 &&& t9
  let t103 := t80 &&& t22
  let t104 := t85 &&& t2
  let t105 := t88 &&& t41
  let t106 := t84 &&& t16
  let t107 := t104 ^^^ t105
  let t108 := t93 ^^^ t99
  let t109 := t96 ^^^ t107
  let t110 := t98 ^^^ t108
  let t111 := t91 ^^^ t101
  let t112 := t89 ^^^ t92
  let t113 := t107 ^^^ t112
  let t114 := t90 ^^^ t110
  let t115 := t89 ^^^ t95
  let t116 := t94 ^^^ t102
  let t117 := t97 ^^^ t103
  let t118 := t91 ^^^ t114
  let t119 := t111 ^^^ t117
  let t120 := t100 ^^^ t108
  let t121 := t92 ^^^ t95
  let t122 := t110 ^^^ t121
  let t123 := t106 ^^^ t119
  let t124 := t104 ^^^ t115
  let t125 := t111 ^^^ t116
  let st7 := t109 ^^^ t122
  let st5 := not64 (t123 ^^^ t124)
  let t128 := t94 ^^^ t107
  let st4 := t113 ^^^ t114
  let st3 := t118 ^^^ t128
  let t131 := t93 ^^^ t101
  let t132 := t112 ^^^ t120
  let st0 := not64 (t113 ^^^ t125)
  let t134 := t97 ^^^ t116
  let t135 := t131 ^^^ t134
  let t136 := t93 ^^^ t115
  let st1 := not64 (t109 ^^^ t135)
  let t138 := t119 ^^^ t132
  let st2 := t109 ^^^ t138
  let t140 := t114 ^^^ t136
  let st6 := not64 (t109 ^^^ t140)
  [st0, st1, st2, st3, st4, st5, st6, st7]

/-- The new value of one word in the loop of `shiftRows`. -/
def shiftRows_word (curr : Nat) : Nat :=
  (curr &&& 0x1111111111111111) |||
    ((curr &&& 0x2220222022202220) >>> 4) |||
    shl64 (curr &&& 0x0002000200020002) 12 |||
    ((curr &&& 0x4400440044004400) >>> 8) |||
    shl64 (curr &&& 0x0044004400440044) 8 |||
    ((curr &&& 0x8000800080008000) >>> 12) |||
    shl64 (curr &&& 0x0888088808880888) 4

/-- `shiftRows`: the loop over the eight words. -/
def shiftRows (st : List Nat) : List Nat :=
  (List.range 8).map fun i => shiftRows_word (st.getD i 0)

/-- The value `col01` computed from a word in the loop of `mixColumns`. -/
def mix_col01 (col : Nat) : Nat :=
  col ^^^ (((col &&& 0xeeeeeeeeeeeeeeee) >>> 1) ||| shl64 (col &&& 0x1111111111111111) 3)

/-- The value `col0123` computed from `col01` in the loop of `mixColumns`. -/
def mix_col0123 (col01 : Nat) : Nat :=
  col01 ^^^ (((col01 &&& 0xcccccccccccccccc) >>> 2) ||| shl64 (col01 &&& 0x3333333333333333) 2)

/-- The loop of `mixColumns` from word `i` on: returns the new words and the last
`rot_prev`. -/
def mixColumns_loop : List Nat → Nat → List Nat × Nat
  | [], rot_prev => ([], rot_prev)
  | col :: rest, rot_prev =>
    let col01 := mix_col01 col
    let col0123 := mix_col0123 col01
    let r := mixColumns_loop rest col01
    ((col ^^^ (col0123 ^^^ rot_prev)) :: r.1, r.2)

/-- `mixColumns`: the loop over the eight words, then the last `rot_prev` is folded into
the words 0, 1, 3 and 4. -/
def mixColumns (st : List Nat) : List Nat :=
  let r := mixColumns_loop ((List.range 8).map fun i => st.getD i 0) 0
  let st := r.1
  let rot_prev := r.2
  [st.getD 0 0 ^^^ rot_prev, st.getD 1 0 ^^^ rot_prev, st.getD 2 0, st.getD 3 0 ^^^ rot_prev,
    st.getD 4 0 ^^^ rot_prev, st.getD 5 0, st.getD 6 0, st.getD 7 0]

/-- `addRoundKey`. -/
def addRoundKey (st k : List Nat) : List Nat :=
  (List.range 8).map fun i => st.getD i 0 ^^^ k.getD i 0

/-- `aes_enc`. -/
def aes_enc (st k : List Nat) : List Nat :=
  addRoundKey (mixColumns (shiftRows (subBytes st))) k

/-- `aes_enc_last`. -/
def aes_enc_last (st k : List Nat) : List Nat :=
  addRoundKey (shiftRows (subBytes st)) k

/-- The `transpose_t` that a pointer to `uint64_t` becomes when it is handed to a function
that takes a `transpose_t`: the low 64 bits of the eight 16-byte elements at `w`, which are
the words `w[0], w[2], .., w[14]`. -/
def as_transpose (w : List Nat) : List Nat :=
  (List.range 8).map fun j => w.getD (2 * j) 0

/-- `rounds`: nine times `aes_enc` with the round key at `key + 8*i`, a pointer to
`uint64_t` that `aes_enc` takes as a `transpose_t`. -/
def rounds (st key : List Nat) : List Nat :=
  (List.range 9).foldl (fun s i => aes_enc s (as_transpose (key.drop (8 * i)))) st

/-- What a call of `block_cipher` leaves: the 64 bytes written to `out`, the state in `st`
and the values of the variables `t0 .. t7` of `from_transpose`. -/
structure cipher_result where
  out : List Byte
  st : List Nat
  t : List Nat

/-- `block_cipher`: `st` is the state as the round functions see it, `key` the words of the
key schedule. -/
def block_cipher (t : List Nat) (st key : List Nat) : cipher_result :=
  let k0 := key
  let k := key.drop 8
  let kn := key.drop (8 * 10)
  let st := addRoundKey st (as_transpose k0)
  let st := rounds st k
  let st := aes_enc_last st (as_transpose kn)
  let r := from_transpose t st
  cipher_result.mk r.1 st r.2

/-- The constant table `rcon`. -/
def rcon : List Nat := [0x8d, 0x01, 0x02, 0x04, 0x08, 0x10, 0x20, 0x40, 0x80, 0x1b, 0x36]

/-- The value assigned to `next[i]` in the loop of `key_expansion_step`: `nexti` is the low
half of element `i` of `next` after `subBytes`, `previ` the low half of element `i` of
`prev`. -/
def key_expansion_word (nexti previ rcon_ i : Nat) : Nat :=
  let n := (nexti &&& 0xf000f000f000f000) >>> 12
  let n := (n >>> 1 ||| shl64 n 3) &&& 0x000f000f000f000f
  let ri := (rcon_ >>> i) &&& 1
  let ri := ri ^^^ shl64 ri 16
  let ri := ri ^^^ shl64 ri 32
  let n := n ^^^ ri
  let n := n ^^^ shl64 n 4
  let n := n ^^^ shl64 n 8
  let p := previ
  let p := p ^^^ (shl64 (p &&& 0x0fff0fff0fff0fff) 4 ^^^ shl64 (p &&& 0x00ff00ff00ff00ff) 8
    ^^^ shl64 (p &&& 0x000f000f000f000f) 12)
  n ^^^ p

/-- The assignment `st[j] = v` of a `uint64_t` value to element `j` of the `transpose_t` at
word `p` of a `uint64_t` array: the low half of the element is `v`, the high half 0. -/
def set_elem (mem : List Nat) (p j v : Nat) : List Nat :=
  (mem.set (p + 2 * j) (v % 2 ^ 64)).set (p + 2 * j + 1) 0

/-- The assignment `out[j] = u` of a `uint128_t` value to element `j` of the `transpose_t`
at word `p` of a `uint64_t` array. -/
def set_elem128 (mem : List Nat) (p j u : Nat) : List Nat :=
  (mem.set (p + 2 * j) (u % 2 ^ 64)).set (p + 2 * j + 1) (u / 2 ^ 64 % 2 ^ 64)

/-- `key_expansion_step`: `mem` is the `uint64_t` array that holds the key schedule, `next`
and `prev` are the word offsets of the two pointers; returns the new contents of `mem`.
`memcpy` copies 64 bytes, which are eight words and four of the eight elements of `prev`;
`subBytes` then reads the eight elements of `next`, of which the elements `4 .. 7` still
hold what was in `mem` before the call; the loop reads element `i` of `prev` after the
elements `0 .. i - 1` of `next` have been assigned. -/
def key_expansion_step (mem : List Nat) (next prev rcon_ : Nat) : List Nat :=
  let mem := (List.range 8).foldl (fun m k => m.set (next + k) (mem.getD (prev + k) 0)) mem
  let sb := subBytes (as_transpose (mem.drop next))
  let mem := (List.range 8).foldl (fun m j => set_elem m next j (sb.getD j 0)) mem
  (List.range 8).foldl
    (fun m i =>
      set_elem m next i
        (key_expansion_word (m.getD (next + 2 * i) 0) (m.getD (prev + 2 * i) 0) rcon_ i))
    mem

/-- `key_expansion`: `out` holds the contents of the array before the call; returns its
contents after the call.  `to_transpose_block_copy (out, key)` assigns the eight elements at
`out`, which are the words `0 .. 15`; step `i` works at the word offsets `8*i` and
`8*i - 8`. -/
def key_expansion (out : List Nat) (key : List Byte) : List Nat :=
  let st := load128_le key
  let st := transpose128 st
  let out := (List.range 8).foldl (fun m i => set_elem128 m 0 i (copy_elem st i)) out
  (List.range 10).foldl
    (fun m j => key_expansion_step m (8 * (j + 1)) (8 * (j + 1) - 8) (rcon.getD (j + 1) 0))
    out

/-- `aes128_block`: returns the 64 bytes written to `out` and the values of the variables
`t0 .. t7` of `from_transpose` on return. -/
def aes128_block (t : List Nat) (kex nt : List Nat) (c : Nat) : List Byte × List Nat :=
  let ctr := store32_be ((c + 0) % 2 ^ 32) ++ store32_be ((c + 1) % 2 ^ 32) ++
    store32_be ((c + 2) % 2 ^ 32) ++ store32_be ((c + 3) % 2 ^ 32)
  let st := to_transpose_block ctr
  let st := (List.range 8).map fun i =>
    let ci := st.getD i 0
    let ci := shl64 ci 12 ||| shl64 ci 24 ||| shl64 ci 36 ||| shl64 ci 48
    let ci := ci &&& 0xf000f000f000f000
    ci ^^^ nt.getD i 0
  let r := block_cipher t st kex
  (r.out, r.t)

/-- The loop `for (j = 0; j < n; j++) out[base+j] = in[base+j] ^ kb[j]`. -/
def xor_loop (out inp kb : List Byte) (base : Nat) : Nat → List Byte
  | 0 => out
  | j + 1 =>
    (xor_loop out inp kb base j).set (base + j) ((inp.getD (base + j) 0).xor (kb.getD j 0))

/-- The loop over the full 64-byte groups of `aes128_ctr`, with the function that is called
for a keystream group as the parameter `blk`; returns the new contents of `out` and the
values of `t0 .. t7` after the last call. -/
def ctr_loop_with (blk : List Nat → List Nat → List Nat → Nat → List Byte × List Nat)
    (t : List Nat) (kex nt : List Nat) (c : Nat) (out inp : List Byte) :
    Nat → List Byte × List Nat
  | 0 => (out, t)
  | i + 1 =>
    let r := ctr_loop_with blk t kex nt c out inp i
    let kb := blk r.2 kex nt ((c + 4 * i) % 2 ^ 32)
    (xor_loop r.1 inp kb.1 (64 * i) 64, kb.2)

/-- The body of `aes128_ctr`, with the function that is called for a keystream group as the
parameter `blk`; returns the new contents of `out` and the values of `t0 .. t7` after the
last call.  The array `kex` is zero on entry to `key_expansion`. -/
def aes128_ctr_with (blk : List Nat → List Nat → List Nat → Nat → List Byte × List Nat)
    (t : List Nat) (out inp : List Byte) (in_len : Nat) (k n : List Byte) (c : Nat) :
    List Byte × List Nat :=
  let kex := key_expansion (List.replicate (8 * 11) 0) k
  let nb := n.take 12 ++ List.replicate 4 (0 : Byte)
  let nt := to_transpose_block_copy nb
  let blocks64 := in_len / 64
  let r := ctr_loop_with blk t kex nt c out inp blocks64
  let rem := in_len % 64
  if rem > 0 then
    let c := (c + 4 * blocks64) % 2 ^ 32
    let kb := blk r.2 kex nt c
    (xor_loop r.1 inp kb.1 (64 * blocks64) rem, kb.2)
  else r

/-- `aes128_ctr`: the body above with `aes128_block` as the function called. -/
def aes128_ctr (t : List Nat) (out inp : List Byte) (in_len : Nat) (k n : List Byte)
    (c : Nat) : List Byte × List Nat :=
  aes128_ctr_with aes128_block t out inp in_len k n c

/-- `aes128_encrypt`. -/
def aes128_encrypt (t : List Nat) (out inp : List Byte) (in_len : Nat) (k n : List Byte)
    (c : Nat) : List Byte × List Nat :=
  aes128_ctr t out inp in_len k n c

/-- `aes128_decrypt`. -/
def aes128_decrypt (t : List Nat) (out inp : List Byte) (in_len : Nat) (k n : List Byte)
    (c : Nat) : List Byte × List Nat :=
  aes128_ctr t out inp in_len k n c

end aes_bslice8

/-! ## The reference: AES-128 as FIPS-197 words it

The state is a list of 16 bytes (natural numbers below 256) in the order of the input
block: byte `4*c + r` is row `r` of column `c`. -/

namespace fips197

/-- The S-box table of FIPS-197, figure 7. -/
def sbox_table : List Nat :=
  [0x63, 0x7c, 0x77, 0x7b, 0xf2, 0x6b, 0x6f, 0xc5, 0x30, 0x01, 0x67, 0x2b, 0xfe, 0xd7, 0xab, 0x76,
   0xca, 0x82, 0xc9, 0x7d, 0xfa, 0x59, 0x47, 0xf0, 0xad, 0xd4, 0xa2, 0xaf, 0x9c, 0xa4, 0x72, 0xc0,
   0xb7, 0xfd, 0x93, 0x26, 0x36, 0x3f, 0xf7, 0xcc, 0x34, 0xa5, 0xe5, 0xf1, 0x71, 0xd8, 0x31, 0x15,
   0x04, 0xc7, 0x23, 0xc3, 0x18, 0x96, 0x05, 0x9a, 0x07, 0x12, 0x80, 0xe2, 0xeb, 0x27, 0xb2, 0x75,
   0x09, 0x83, 0x2c, 0x1a, 0x1b, 0x6e, 0x5a, 0xa0, 0x52, 0x3b, 0xd6, 0xb3, 0x29, 0xe3, 0x2f, 0x84,
   0x53, 0xd1, 0x00, 0xed, 0x20, 0xfc, 0xb1, 0x5b, 0x6a, 0xcb, 0xbe, 0x39, 0x4a, 0x4c, 0x58, 0xcf,
   0xd0, 0xef, 0xaa, 0xfb, 0x43, 0x4d, 0x33, 0x85, 0x45, 0xf9, 0x02, 0x7f, 0x50, 0x3c, 0x9f, 0xa8,
   0x51, 0xa3, 0x40, 0x8f, 0x92, 0x9d, 0x38, 0xf5, 0xbc, 0xb6, 0xda, 0x21, 0x10, 0xff, 0xf3, 0xd2,
   0xcd, 0x0c, 0x13, 0xec, 0x5f, 0x97, 0x44, 0x17, 0xc4, 0xa7, 0x7e, 0x3d, 0x64, 0x5d, 0x19, 0x73,
   0x60, 0x81, 0x4f, 0xdc, 0x22, 0x2a, 0x90, 0x88, 0x46, 0xee, 0xb8, 0x14, 0xde, 0x5e, 0x0b, 0xdb,
   0xe0, 0x32, 0x3a, 0x0a, 0x49, 0x06, 0x24, 0x5c, 0xc2, 0xd3, 0xac, 0x62, 0x91, 0x95, 0xe4, 0x79,
   0xe7, 0xc8, 0x37, 0x6d, 0x8d, 0xd5, 0x4e, 0xa9, 0x6c, 0x56, 0xf4, 0xea, 0x65, 0x7a, 0xae, 0x08,
   0xba, 0x78, 0x25, 0x2e, 0x1c, 0xa6, 0xb4, 0xc6, 0xe8, 0xdd, 0x74, 0x1f, 0x4b, 0xbd, 0x8b, 0x8a,
   0x70, 0x3e, 0xb5, 0x66, 0x48, 0x03, 0xf6, 0x0e, 0x61, 0x35, 0x57, 0xb9, 0x86, 0xc1, 0x1d, 0x9e,
   0xe1, 0xf8, 0x98, 0x11, 0x69, 0xd9, 0x8e, 0x94, 0x9b, 0x1e, 0x87, 0xe9, 0xce, 0x55, 0x28, 0xdf,
   0x8c, 0xa1, 0x89, 0x0d, 0xbf, 0xe6, 0x42, 0x68, 0x41, 0x99, 0x2d, 0x0f, 0xb0, 0x54, 0xbb, 0x16]

/-- `SubBytes` on one byte. -/
def sbox (b : Nat) : Nat := sbox_table.getD b 0

/-- Multiplication by `x` in GF(2^8) modulo `x^8 + x^4 + x^3 + x + 1`. -/
def xtime (a : Nat) : Nat := if a < 128 then 2 * a else (2 * a) ^^^ 0x11b

/-- `SubBytes`. -/
def sub_bytes (s : List Nat) : List Nat := s.map sbox

/-- `ShiftRows`: row `r` is rotated left by `r` columns. -/
def shift_rows (s : List Nat) : List Nat :=
  (List.range 16).map fun k => s.getD (4 * ((k / 4 + k % 4) % 4) + k % 4) 0

/-- `MixColumns` on one byte position: `2*a_r + 3*a_(r+1) + a_(r+2) + a_(r+3)` over the
column of `k`. -/
def mix_byte (s : List Nat) (k : Nat) : Nat :=
  let c := k / 4
  let r := k % 4
  let a0 := s.getD (4 * c + r) 0
  let a1 := s.getD (4 * c + (r + 1) % 4) 0
  let a2 := s.getD (4 * c + (r + 2) % 4) 0
  let a3 := s.getD (4 * c + (r + 3) % 4) 0
  xtime a0 ^^^ (xtime a1 ^^^ a1) ^^^ a2 ^^^ a3

/-- `MixColumns`. -/
def mix_columns (s : List Nat) : List Nat := (List.range 16).map (mix_byte s)

/-- `AddRoundKey`. -/
def add_round_key (s k : List Nat) : List Nat :=
  (List.range 16).map fun i => s.getD i 0 ^^^ k.getD i 0

/-- The round constants `Rcon[1] .. Rcon[10]` (index 0 is not used). -/
def rcon : List Nat := [0, 0x01, 0x02, 0x04, 0x08, 0x10, 0x20, 0x40, 0x80, 0x1b, 0x36]

/-- The next round key: with `w0 .. w3` the four words of `rk`,
`w0' = w0 + SubWord(RotWord(w3)) + (rc,0,0,0)` and `wj' = wj + w(j-1)'`. -/
def next_round_key (rk : List Nat) (rc : Nat) : List Nat :=
  let g := fun r => sbox (rk.getD (12 + (r + 1) % 4) 0) ^^^ (if r = 0 then rc else 0)
  let w0 := (List.range 4).map fun r => rk.getD r 0 ^^^ g r
  let w1 := (List.range 4).map fun r => rk.getD (4 + r) 0 ^^^ w0.getD r 0
  let w2 := (List.range 4).map fun r => rk.getD (8 + r) 0 ^^^ w1.getD r 0
  let w3 := (List.range 4).map fun r => rk.getD (12 + r) 0 ^^^ w2.getD r 0
  w0 ++ w1 ++ w2 ++ w3

/-- Round key `i` of the AES-128 key schedule. -/
def round_key (key : List Nat) : Nat → List Nat
  | 0 => key
  | i + 1 => next_round_key (round_key key i) (rcon.getD (i + 1) 0)

/-- One full round with round key `i`, after `n` earlier rounds. -/
def full_rounds (key : List Nat) : Nat → List Nat → List Nat
  | 0, s => s
  | n + 1, s =>
    let s := full_rounds key n s
    add_round_key (mix_columns (shift_rows (sub_bytes s))) (round_key key (n + 1))

/-- The cipher of FIPS-197 for a 128-bit key. -/
def cipher (key block : List Nat) : List Nat :=
  let s := add_round_key block (round_key key 0)
  let s := full_rounds key 9 s
  add_round_key (shift_rows (sub_bytes s)) (round_key key 10)

/-- AES-128 encryption of one 16-byte block under a 16-byte key. -/
def aes128_encrypt_block (K X : List Byte) : List Byte :=
  (cipher (K.map Fin.val) (X.map Fin.val)).map Byte.ofNat

end fips197

/-! ## Test vectors and auxiliary definitions used by the theorems -/

namespace aes_bslice8

/-- The values of `t0 .. t7` before call number `j` of the block function in `aes128_ctr`:
the values on entry for `j = 0`, then what the previous call left. -/
def call_state (blk : List Nat → List Nat → List Nat → Nat → List Byte × List Nat)
    (t : List Nat) (kex nt : List Nat) (c : Nat) : Nat → List Nat
  | 0 => t
  | j + 1 => (blk (call_state blk t kex nt c j) kex nt ((c + 4 * j) % 2 ^ 32)).2

/-- The 64 keystream bytes of group `j`: the output of call number `j` of the block
function, with the counter `(c + 4j) mod 2^32`. -/
def keystream_group (blk : List Nat → List Nat → List Nat → Nat → List Byte × List Nat)
    (t : List Nat) (kex nt : List Nat) (c j : Nat) : List Byte :=
  (blk (call_state blk t kex nt c j) kex nt ((c + 4 * j) % 2 ^ 32)).1

end aes_bslice8

namespace fips197

/-- Counter mode as the specification words it: output byte `i` is input byte `i` XOR
byte `i mod 16` of `AES-128-Encrypt(key, nonce || BE32(c + i / 16))`. -/
def ctr_reference (K N : List Byte) (c : Nat) (inp : List Byte) : List Byte :=
  (List.range inp.length).map fun i =>
    (inp.getD i 0).xor
      ((aes128_encrypt_block K (N.take 12 ++ store32_be ((c + i / 16) % 2 ^ 32))).getD (i % 16) 0)

end fips197

namespace aes_bslice8

/-- The key of FIPS-197, appendix C.1. -/
def fips_key : List Byte :=
  [0x00, 0x01, 0x02, 0x03, 0x04, 0x05, 0x06, 0x07, 0x08, 0x09, 0x0a, 0x0b, 0x0c, 0x0d, 0x0e, 0x0f]

/-- The key of FIPS-197, appendix C.1, with its last byte set to 0. -/
def fips_key_alt : List Byte :=
  [0x00, 0x01, 0x02, 0x03, 0x04, 0x05, 0x06, 0x07, 0x08, 0x09, 0x0a, 0x0b, 0x0c, 0x0d, 0x0e, 0x00]

/-- The plaintext block of FIPS-197, appendix C.1. -/
def fips_block : List Byte :=
  [0x00, 0x11, 0x22, 0x33, 0x44, 0x55, 0x66, 0x77, 0x88, 0x99, 0xaa, 0xbb, 0xcc, 0xdd, 0xee, 0xff]

/-- The plaintext block of FIPS-197, appendix C.1, with its last byte set to 0. -/
def fips_block_alt : List Byte :=
  [0x00, 0x11, 0x22, 0x33, 0x44, 0x55, 0x66, 0x77, 0x88, 0x99, 0xaa, 0xbb, 0xcc, 0xdd, 0xee, 0x00]

/-- The ciphertext block of FIPS-197, appendix C.1. -/
def fips_cipher : List Byte :=
  [0x69, 0xc4, 0xe0, 0xd8, 0x6a, 0x7b, 0x04, 0x30, 0xd8, 0xcd, 0xb7, 0x80, 0x70, 0xb4, 0xc5, 0x5a]

/-- Twelve zero bytes, used as a nonce. -/
def zero_nonce : List Byte := List.replicate 12 0

/-- Sixteen zero bytes, used as an input and as an output buffer. -/
def zero_block : List Byte := List.replicate 16 0

/-- Bit `j` of a word, as 0 or 1. -/
def bit (x j : Nat) : Nat := (x >>> j) % 2

/-- The byte in bit position `j` of a state: `sum over i < 8 of (bit j of st[i]) * 2^i`. -/
def byte_at (st : List Nat) (j : Nat) : Nat :=
  bit (st.getD 0 0) j + 2 * bit (st.getD 1 0) j + 4 * bit (st.getD 2 0) j
    + 8 * bit (st.getD 3 0) j + 16 * bit (st.getD 4 0) j + 32 * bit (st.getD 5 0) j
    + 64 * bit (st.getD 6 0) j + 128 * bit (st.getD 7 0) j

/-- The 16 bytes of lane `g` of a state: byte `k` is read in bit position `16*g + k`. -/
def decode_lane (st : List Nat) (g : Nat) : List Nat :=
  (List.range 16).map fun k => byte_at st (16 * g + k)

/-- The gate list of `subBytes` on single bits: the same gates, in the same order, with
exclusive or, and, and negation of booleans. -/
def subBytes_bits (b : List Bool) : List Bool :=
  let u0 := b.getD 7 false
  let u1 := b.getD 6 false
  let u2 := b.getD 5 false
  let u3 := b.getD 4 false
  let u4 := b.getD 3 false
  let u5 := b.getD 2 false
  let u6 := b.getD 1 false
  let u7 := b.getD 0 false
  let t1 := u6 ^^ u4
  let t2 := u3 ^^ u0
  let t3 := u1 ^^ u2
  let t6 := u1 ^^ u5
  let t7 := u0 ^^ u6
  let t13 := u2 ^^ u5
  let t16 := u0 ^^ u5
  let t18 := u6 ^^ u5
  let t4 := u7 ^^ t3
  let t5 := t1 ^^ t2
  let t8 := t1 ^^ t6
  let t9 := u6 ^^ t4
  let t10 := u3 ^^ t4
  let t11 := u7 ^^ t5
  let t12 := t5 ^^ t6
  let t14 := t3 ^^ t5
  let t15 := u5 ^^ t7
  let t17 := u7 ^^ t8
  let t19 := t2 ^^ t18
  let t22 := u0 ^^ t4
  let t54 := t2 && t8
  let t50 := t9 && t4
  let t20 := t4 ^^ t15
  let t21 := t1 ^^ t13
  let t39 := t21 ^^ t5
  let t40 := t21 ^^ t7
  let t41 := t7 ^^ t19
  let t42 := t16 ^^ t14
  let t43 := t22 ^^ t17
  let t44 := t19 && t5
  let t45 := t20 && t11
  let t47 := t10 && u7
  let t57 := t16 && t14
  let t46 := t12 ^^ t44
  let t48 := t47 ^^ t44
  let t49 := t7 && t21
  let t51 := t40 ^^ t49
  let t52 := t22 && t17
  let t53 := t52 ^^ t49
  let t55 := t41 && t39
  let t56 := t55 ^^ t54
  let t58 := t57 ^^ t54
  let t59 := t46 ^^ t45
  let t60 := t48 ^^ t42
  let t61 := t51 ^^ t50
  let t62 := t53 ^^ t58
  let t63 := t59 ^^ t56
  let t64 := t60 ^^ t58
  let t65 := t61 ^^ t56
  let t66 := t62 ^^ t43
  let t67 := t65 ^^ t66
  let t68 := t65 && t63
  let t69 := t64 ^^ t68
  let t70 := t63 ^^ t64
  let t71 := t66 ^^ t68
  let t72 := t71 && t70
  let t73 := t69 && t67
  let t74 := t63 && t66
  let t75 := t70 && t74
  let t76 := t70 ^^ t68
  let t77 := t64 && t65
  let t78 := t67 && t77
  let t79 := t67 ^^ t68
  let t80 := t64 ^^ t72
  let t81 := t75 ^^ t76
  let t82 := t66 ^^ t73
  let t83 := t78 ^^ t79
  let t84 := t81 ^^ t83
  let t85 := t80 ^^ t82
  let t86 := t80 ^^ t81
  let t87 := t82 ^^ t83
  let t88 := t85 ^^ t84
  let t89 := t87 && t5
  let t90 := t83 && t11
  let t91 := t82 && u7
  let t92 := t86 && t21
  let t93 := t81 && t4
  let t94 := t80 && t17
  let t95 := t85 && t8
  let t96 := t88 && t39
  let t97 := t84 && t14
  let t98 := t87 && t19
  let t99 := t83 && t20
  let t100 := t82 && t10
  let t101 := t86 && t7
  let t102 := t81 && t9
  let t103 := t80 && t22
  let t104 := t85 && t2
  let t105 := t88 && t41
  let t106 := t84 && t16
  let t107 := t104 ^^ t105
  let t108 := t93 ^^ t99
  let t109 := t96 ^^ t107
  let t110 := t98 ^^ t108
  let t111 := t91 ^^ t101
  let t112 := t89 ^^ t92
  let t113 := t107 ^^ t112
  let t114 := t90 ^^ t110
  let t115 := t89 ^^ t95
  let t116 := t94 ^^ t102
  let t117 := t97 ^^ t103
  let t118 := t91 ^^ t114
  let t119 := t111 ^^ t117
  let t120 := t100 ^^ t108
  let t121 := t92 ^^ t95
  let t122 := t110 ^^ t121
  let t123 := t106 ^^ t119
  let t124 := t104 ^^ t115
  let t125 := t111 ^^ t116
  let s7 := t109 ^^ t122
  let s5 := !(t123 ^^ t124)
  let t128 := t94 ^^ t107
  let s4 := t113 ^^ t114
  let s3 := t118 ^^ t128
  let t131 := t93 ^^ t101
  let t132 := t112 ^^ t120
  let s0 := !(t113 ^^ t125)
  let t134 := t97 ^^ t116
  let t135 := t131 ^^ t134
  let t136 := t93 ^^ t115
  let s1 := !(t109 ^^ t135)
  let t138 := t119 ^^ t132
  let s2 := t109 ^^ t138
  let t140 := t114 ^^ t136
  let s6 := !(t109 ^^ t140)
  [s0, s1, s2, s3, s4, s5, s6, s7]

/-- The byte whose bit `i` is entry `i` of a list of booleans. -/
def byte_of_bits (b : List Bool) : Nat :=
  (b.getD 0 false).toNat + 2 * (b.getD 1 false).toNat + 4 * (b.getD 2 false).toNat
    + 8 * (b.getD 3 false).toNat + 16 * (b.getD 4 false).toNat + 32 * (b.getD 5 false).toNat
    + 64 * (b.getD 6 false).toNat + 128 * (b.getD 7 false).toNat

/-- The exclusive or of the bits of `pv` in row `r` of the columns `0 .. c` of lane `g`. -/
def prefix_xor_bit (pv g r : Nat) : Nat → Bool
  | 0 => pv.testBit (16 * g + 4 * 0 + r)
  | c + 1 => pv.testBit (16 * g + 4 * (c + 1) + r) ^^ prefix_xor_bit pv g r c

/-- The four big-endian counters that `aes128_block` stores in `ctr`. -/
def counter_block (c : Nat) : List Byte :=
  store32_be ((c + 0) % 2 ^ 32) ++ store32_be ((c + 1) % 2 ^ 32) ++
    store32_be ((c + 2) % 2 ^ 32) ++ store32_be ((c + 3) % 2 ^ 32)

/-- The loop of `aes128_block` over the eight words: the encoded counters `st` are moved to
the top four bits of each 16-bit lane and the nonce state `nt` is added. -/
def counter_state (st nt : List Nat) : List Nat :=
  (List.range 8).map fun i =>
    let ci := st.getD i 0
    let ci := shl64 ci 12 ||| shl64 ci 24 ||| shl64 ci 36 ||| shl64 ci 48
    let ci := ci &&& 0xf000f000f000f000
    ci ^^^ nt.getD i 0

/-- Lane slicing, the layout on which the round functions work: bit `16*g + k` of word `i`
is bit `i` of byte `k` of block `g`. -/
def lane_slice (blocks : List (List Byte)) : List Nat :=
  (List.range 8).map fun i =>
    ((List.range 64).map fun j =>
      bit ((blocks.getD (j / 16) []).getD (j % 16) 0).val i * 2 ^ j).sum

/-- The XOR of an input with a keystream, byte by byte. -/
def xor_bytes (inp ks : List Byte) : List Byte :=
  (List.range inp.length).map fun i => (inp.getD i 0).xor (ks.getD i 0)

/-- The key of NIST SP800-38A, appendix F.5.1. -/
def sp800_38a_key : List Byte :=
  [0x2b, 0x7e, 0x15, 0x16, 0x28, 0xae, 0xd2, 0xa6, 0xab, 0xf7, 0x15, 0x88, 0x09, 0xcf, 0x4f, 0x3c]

/-- The first twelve bytes of the initial counter block of NIST SP800-38A, appendix F.5.1. -/
def sp800_38a_nonce : List Byte :=
  [0xf0, 0xf1, 0xf2, 0xf3, 0xf4, 0xf5, 0xf6, 0xf7, 0xf8, 0xf9, 0xfa, 0xfb]

/-- The last four bytes of the initial counter block of NIST SP800-38A, appendix F.5.1,
`f0f1f2f3f4f5f6f7f8f9fafbfcfdfeff`, read as a big-endian number. -/
def sp800_38a_counter : Nat := 0xfcfdfeff

/-- The four plaintext blocks of NIST SP800-38A, appendix F.5.1. -/
def sp800_38a_plain : List Byte :=
  [0x6b, 0xc1, 0xbe, 0xe2, 0x2e, 0x40, 0x9f, 0x96, 0xe9, 0x3d, 0x7e, 0x11, 0x73, 0x93, 0x17, 0x2a,
   0xae, 0x2d, 0x8a, 0x57, 0x1e, 0x03, 0xac, 0x9c, 0x9e, 0xb7, 0x6f, 0xac, 0x45, 0xaf, 0x8e, 0x51,
   0x30, 0xc8, 0x1c, 0x46, 0xa3, 0x5c, 0xe4, 0x11, 0xe5, 0xfb, 0xc1, 0x19, 0x1a, 0x0a, 0x52, 0xef,
   0xf6, 0x9f, 0x24, 0x45, 0xdf, 0x4f, 0x9b, 0x17, 0xad, 0x2b, 0x41, 0x7b, 0xe6, 0x6c, 0x37, 0x10]

/-- The four ciphertext blocks of NIST SP800-38A, appendix F.5.1. -/
def sp800_38a_cipher : List Byte :=
  [0x87, 0x4d, 0x61, 0x91, 0xb6, 0x20, 0xe3, 0x26, 0x1b, 0xef, 0x68, 0x64, 0x99, 0x0d, 0xb6, 0xce,
   0x98, 0x06, 0xf6, 0x6b, 0x79, 0x70, 0xfd, 0xff, 0x86, 0x17, 0x18, 0x7b, 0xb9, 0xff, 0xfd, 0xff,
   0x5a, 0xe4, 0xdf, 0x3e, 0xdb, 0xd5, 0xd3, 0x5e, 0x5b, 0x4f, 0x09, 0x02, 0x0d, 0xb0, 0x3e, 0xab,
   0x1e, 0x03, 0x1d, 0xda, 0x2f, 0xbe, 0x03, 0xd1, 0x79, 0x21, 0x70, 0xa0, 0xf3, 0x00, 0x9c, 0xee]

end aes_bslice8

namespace fips197

/-- The 64 keystream bytes of counter mode for the four blocks `c .. c + 3`:
`AES-128-Encrypt(key, nonce || BE32(c + b))` for `b = 0 .. 3`. -/
def ctr_keystream4 (K N : List Byte) (c : Nat) : List Byte :=
  aes128_encrypt_block K (N.take 12 ++ store32_be ((c + 0) % 2 ^ 32)) ++
    (aes128_encrypt_block K (N.take 12 ++ store32_be ((c + 1) % 2 ^ 32)) ++
      (aes128_encrypt_block K (N.take 12 ++ store32_be ((c + 2) % 2 ^ 32)) ++
        aes128_encrypt_block K (N.take 12 ++ store32_be ((c + 3) % 2 ^ 32))))

end fips197

namespace Poly1305_64

/-- The key of RFC 8439, section 2.5.2, with the bits that the clamp clears set to 1 in the
bytes 3, 7, 12 and 15. -/
def unclamped_rfc_key : List Byte :=
  [0x85, 0xd6, 0xbe, 0xf8, 0x57, 0x55, 0x6d, 0xf3, 0x7f, 0x44, 0x52, 0xfe, 0x43, 0xd5, 0x06, 0xf8,
   0x01, 0x03, 0x80, 0x8a, 0xfb, 0x0d, 0xb2, 0xfd, 0x4a, 0xbf, 0xf6, 0xaf, 0x41, 0x49, 0xf5, 0x1b]

/-! ## Overflow-checked copy of the field step

The functions below repeat `Hacl_Bignum_AddAndMultiply_add_and_multiply` and its callees
statement by statement on exact integers; every 64-bit addition, subtraction and left
shift, every 128-bit addition and product, and every 128-to-64-bit conversion whose
operand is not masked afterwards fails (`none`) when the exact result does not fit. -/

/-- A `uint64_t` addition that fails when the exact sum does not fit in 64 bits. -/
def checked_add64 (a b : Nat) : Option Nat := if a + b < 2 ^ 64 then some (a + b) else none

/-- A `uint64_t` subtraction that fails when the exact difference is negative. -/
def checked_sub64 (a b : Nat) : Option Nat := if b ≤ a then some (a - b) else none

/-- A `uint64_t` left shift that fails when the exact result does not fit in 64 bits. -/
def checked_shl64 (a s : Nat) : Option Nat := if a <<< s < 2 ^ 64 then some (a <<< s) else none

/-- A 128-bit addition (`FStar_UInt128_add`, `FStar_UInt128_add_mod`) that fails when the
exact sum does not fit in 128 bits. -/
def checked_add128 (a b : Nat) : Option Nat := if a + b < 2 ^ 128 then some (a + b) else none

/-- The product `FStar_UInt128_mul_wide`, which fails when it does not fit in 128 bits. -/
def checked_mul_wide (a b : Nat) : Option Nat := if a * b < 2 ^ 128 then some (a * b) else none

/-- The conversion `FStar_Int_Cast_Full_uint128_to_uint64`, which fails when it drops a
nonzero bit. -/
def checked_uint128_to_uint64 (a : Nat) : Option Nat := if a < 2 ^ 64 then some a else none

/-- The constant `((uint64_t)1 << 44) - 1`, computed with checked operations. -/
def checked_mask44 : Option Nat := do
  let x ← checked_shl64 1 44
  checked_sub64 x 1

/-- Checked `Hacl_Bignum_Modulo_reduce`. -/
def Hacl_Bignum_Modulo_reduce_checked (b : Arr3) : Option Arr3 := do
  let b0 := b.a0
  let x ← checked_shl64 b0 4
  let y ← checked_shl64 b0 2
  let z ← checked_add64 x y
  pure (Arr3.mk z b.a1 b.a2)

/-- Checked `Hacl_Bignum_Modulo_carry_top_wide`. -/
def Hacl_Bignum_Modulo_carry_top_wide_checked (b : Arr3) : Option Arr3 := do
  let b2 := b.a2
  let b0 := b.a0
  let b2_ := FStar_UInt128_logand b2 (FStar_Int_Cast_Full_uint64_to_uint128 0x3ffffffffff)
  let b2_42 ← checked_uint128_to_uint64 (FStar_UInt128_shift_right b2 42)
  let x ← checked_shl64 b2_42 2
  let y ← checked_add64 x b2_42
  let b0_ ← checked_add128 b0 (FStar_Int_Cast_Full_uint64_to_uint128 y)
  pure (Arr3.mk b0_ b.a1 b2_)

/-- Checked `Hacl_Bignum_Fproduct_copy_from_wide_`. -/
def Hacl_Bignum_Fproduct_copy_from_wide_checked (input : Arr3) : Option Arr3 := do
  let x0 ← checked_uint128_to_uint64 input.a0
  let x1 ← checked_uint128_to_uint64 input.a1
  let x2 ← checked_uint128_to_uint64 input.a2
  pure (Arr3.mk x0 x1 x2)

/-- Checked `Hacl_Bignum_Fproduct_sum_scalar_multiplication_`. -/
def Hacl_Bignum_Fproduct_sum_scalar_multiplication_checked (output input : Arr3) (s : Nat) :
    Option Arr3 := do
  let p0 ← checked_mul_wide input.a0 s
  let o0 ← checked_add128 output.a0 p0
  let p1 ← checked_mul_wide input.a1 s
  let o1 ← checked_add128 output.a1 p1
  let p2 ← checked_mul_wide input.a2 s
  let o2 ← checked_add128 output.a2 p2
  pure (Arr3.mk o0 o1 o2)

/-- Checked `Hacl_Bignum_Fproduct_carry_wide_`: the conversion of `tctr` to 64 bits is
followed by the 44-bit mask and stays unchecked. -/
def Hacl_Bignum_Fproduct_carry_wide_checked (tmp : Arr3) : Option Arr3 := do
  let m ← checked_mask44
  let r0 := FStar_Int_Cast_Full_uint128_to_uint64 tmp.a0 &&& m
  let c := FStar_UInt128_shift_right tmp.a0 44
  let t1 ← checked_add128 tmp.a1 c
  let m ← checked_mask44
  let r1 := FStar_Int_Cast_Full_uint128_to_uint64 t1 &&& m
  let c := FStar_UInt128_shift_right t1 44
  let t2 ← checked_add128 tmp.a2 c
  pure (Arr3.mk (FStar_Int_Cast_Full_uint64_to_uint128 r0)
    (FStar_Int_Cast_Full_uint64_to_uint128 r1) t2)

/-- Checked `Hacl_Bignum_Fmul_shift_reduce`. -/
def Hacl_Bignum_Fmul_shift_reduce_checked (output : Arr3) : Option Arr3 :=
  Hacl_Bignum_Modulo_reduce_checked (Hacl_Bignum_Fproduct_shift output)

/-- Checked `Hacl_Bignum_Fmul_mul_shift_reduce_`. -/
def Hacl_Bignum_Fmul_mul_shift_reduce_checked (output input input2 : Arr3) : Option Arr3 := do
  let output ← Hacl_Bignum_Fproduct_sum_scalar_multiplication_checked output input input2.a0
  let input ← Hacl_Bignum_Fmul_shift_reduce_checked input
  let output ← Hacl_Bignum_Fproduct_sum_scalar_multiplication_checked output input input2.a1
  let input ← Hacl_Bignum_Fmul_shift_reduce_checked input
  Hacl_Bignum_Fproduct_sum_scalar_multiplication_checked output input input2.a2

/-- Checked `Hacl_Bignum_Fmul_fmul_` (and `Hacl_Bignum_Fmul_fmul`, which only copies its
input). -/
def Hacl_Bignum_Fmul_fmul_checked (input input2 : Arr3) : Option Arr3 := do
  let t := Arr3.mk (FStar_Int_Cast_Full_uint64_to_uint128 0)
    (FStar_Int_Cast_Full_uint64_to_uint128 0) (FStar_Int_Cast_Full_uint64_to_uint128 0)
  let t ← Hacl_Bignum_Fmul_mul_shift_reduce_checked t input input2
  let t ← Hacl_Bignum_Fproduct_carry_wide_checked t
  let t ← Hacl_Bignum_Modulo_carry_top_wide_checked t
  let output ← Hacl_Bignum_Fproduct_copy_from_wide_checked t
  let i0 := output.a0
  let i1 := output.a1
  let m ← checked_mask44
  let i0_ := i0 &&& m
  let i1_ ← checked_add64 i1 (i0 >>> 44)
  pure (Arr3.mk i0_ i1_ output.a2)

/-- Checked `Hacl_Bignum_AddAndMultiply_add_and_multiply`. -/
def Hacl_Bignum_AddAndMultiply_add_and_multiply_checked (acc block r : Arr3) : Option Arr3 := do
  let x0 ← checked_add64 acc.a0 block.a0
  let x1 ← checked_add64 acc.a1 block.a1
  let x2 ← checked_add64 acc.a2 block.a2
  Hacl_Bignum_Fmul_fmul_checked (Arr3.mk x0 x1 x2) r

end Poly1305_64
namespace fips197

/-- The first `n` full rounds (SubBytes, ShiftRows, MixColumns, AddRoundKey) of the cipher
with the round keys `rk 1 .. rk n`. -/
def rounds_with (rk : Nat → List Nat) : Nat → List Nat → List Nat
  | 0, s => s
  | n + 1, s =>
    add_round_key (mix_columns (shift_rows (sub_bytes (rounds_with rk n s)))) (rk (n + 1))

/-- The cipher of FIPS-197 with ten rounds as the specification words it, for given round
keys `rk 0 .. rk 10`: AddRoundKey, then nine times (SubBytes, ShiftRows, MixColumns,
AddRoundKey), then (SubBytes, ShiftRows, AddRoundKey). -/
def cipher_with (rk : Nat → List Nat) (block : List Nat) : List Nat :=
  let s := add_round_key block (rk 0)
  let s := rounds_with rk 9 s
  add_round_key (shift_rows (sub_bytes s)) (rk 10)

end fips197

namespace aes_bslice8

/-- Two states agree on lane `g`: the bits `16g .. 16g + 15` of all eight words are the
same. -/
def lane_agree (a b : List Nat) (g : Nat) : Prop :=
  ∀ i, i < 8 → ∀ k, k < 16 → (a.getD i 0).testBit (16 * g + k) = (b.getD i 0).testBit (16 * g + k)

instance (a b : List Nat) (g : Nat) : Decidable (lane_agree a b g) := by
  unfold lane_agree
  infer_instance

/-- A 64-bit word that consists of four identical 16-bit fields. -/
def broadcast (w : Nat) : Prop :=
  w < 2 ^ 64 ∧ ∀ g, g < 4 → ∀ k, k < 16 → w.testBit (16 * g + k) = w.testBit k

instance (w : Nat) : Decidable (broadcast w) := by
  unfold broadcast
  infer_instance

/-- Two arrays of words agree on lane `g`: they have the same length and the bits
`16g .. 16g + 15` of all words are the same. -/
def mem_agree (a b : List Nat) (g : Nat) : Prop :=
  a.length = b.length ∧
    ∀ i, i < a.length → ∀ k, k < 16 →
      (a.getD i 0).testBit (16 * g + k) = (b.getD i 0).testBit (16 * g + k)

instance (a b : List Nat) (g : Nat) : Decidable (mem_agree a b g) := by
  unfold mem_agree
  infer_instance

/-- Every word of an array consists of four identical 16-bit fields. -/
def all_broadcast (a : List Nat) : Prop := ∀ i, i < a.length → broadcast (a.getD i 0)

instance (a : List Nat) : Decidable (all_broadcast a) := by
  unfold all_broadcast
  infer_instance

/-- The 128-bit value `y` that `transpose128` computes before its `return`, which cuts it
to the 64 bits of the declared return type. -/
def transpose128_wide (x : Nat) : Nat :=
  let tm0 := shl128 (trans_mask.getD 0 0) 64 ||| trans_mask.getD 0 0
  let tm1 := shl128 (trans_mask.getD 1 0) 64 ||| trans_mask.getD 1 0
  let tm2 := shl128 (trans_mask.getD 2 0) 64 ||| trans_mask.getD 2 0
  let tm3 := shl128 (trans_mask.getD 3 0) 64 ||| trans_mask.getD 3 0
  let tm4 := shl128 (trans_mask.getD 4 0) 64 ||| trans_mask.getD 4 0
  let tm5 := shl128 (trans_mask.getD 5 0) 64 ||| trans_mask.getD 5 0
  let tm6 := shl128 (trans_mask.getD 6 0) 64 ||| trans_mask.getD 6 0
  let tm7 := shl128 (trans_mask.getD 7 0) 64 ||| trans_mask.getD 7 0
  (x &&& tm0) |||
    ((x &&& tm1) >>> 7) |||
    ((x &&& tm2) >>> 14) |||
    ((x &&& tm3) >>> 21) |||
    ((x &&& tm4) >>> 28) |||
    ((x &&& tm5) >>> 35) |||
    ((x &&& tm6) >>> 42) |||
    ((x &&& tm7) >>> 49) |||
    (shl128 x 7 &&& tm1) |||
    (shl128 x 14 &&& tm2) |||
    (shl128 x 21 &&& tm3) |||
    (shl128 x 28 &&& tm4) |||
    (shl128 x 35 &&& tm5) |||
    (shl128 x 42 &&& tm6) |||
    (shl128 x 49 &&& tm7)

end aes_bslice8

/-! # Theorems -/

/-! ## Byte strings -/

theorem int_le_lt (l : List Byte) : int_le l < 256 ^ l.length := by
  induction l with
  | nil => simp [int_le]
  | cons b bs ih =>
    have hb := b.isLt
    simp only [int_le, List.length_cons, pow_succ]
    omega

theorem int_le_append (a b : List Byte) :
    int_le (a ++ b) = int_le a + 256 ^ a.length * int_le b := by
  induction a with
  | nil => simp [int_le]
  | cons x xs ih =>
    rw [List.cons_append, int_le, int_le, ih, List.length_cons, pow_succ]
    ring

theorem int_le_replicate_zero (n : Nat) : int_le (List.replicate n (0 : Byte)) = 0 := by
  induction n with
  | zero => rfl
  | succ n ih => simp [List.replicate_succ, int_le, ih]

theorem load128_le_lt (b : List Byte) : load128_le b < 2 ^ 128 := by
  have h := int_le_lt (b.take 16)
  have h2 : (256 : Nat) ^ (b.take 16).length ≤ 256 ^ 16 :=
    Nat.pow_le_pow_right (by decide) (by simp)
  have h3 : (256 : Nat) ^ 16 = 2 ^ 128 := by norm_num
  unfold load128_le
  omega

namespace Poly1305_64

/-! ## Field arithmetic -/

theorem and_mask44 (x : Nat) : x &&& 0xfffffffffff = x % 2 ^ 44 :=
  Nat.and_pow_two_sub_one_eq_mod x 44

theorem and_mask42 (x : Nat) : x &&& 0x3ffffffffff = x % 2 ^ 42 :=
  Nat.and_pow_two_sub_one_eq_mod x 42

theorem mask44_eq : sub64 (shl64 1 44) 1 = 0xfffffffffff := by decide

theorem shift_reduce_eq (x : Arr3) (h : x.a2 < 2 ^ 59) :
    Hacl_Bignum_Fmul_shift_reduce x = Arr3.mk (20 * x.a2) x.a0 x.a1 := by
  simp only [Hacl_Bignum_Fmul_shift_reduce, Hacl_Bignum_Modulo_reduce,
    Hacl_Bignum_Fproduct_shift, add64, shl64, Nat.shiftLeft_eq]
  congr 1
  omega

theorem mul_lt_pow {a b : Nat} (m n : Nat) (ha : a < 2 ^ m) (hb : b < 2 ^ n) :
    a * b < 2 ^ (m + n) := by
  rw [pow_add]
  exact Nat.mul_lt_mul'' ha hb

theorem mul_shift_reduce_eq (x r : Arr3)
    (hx0 : x.a0 < 2 ^ 46) (hx1 : x.a1 < 2 ^ 46) (hx2 : x.a2 < 2 ^ 46)
    (hr0 : r.a0 < 2 ^ 44) (hr1 : r.a1 < 2 ^ 44) (hr2 : r.a2 < 2 ^ 44) :
    Hacl_Bignum_Fmul_mul_shift_reduce_ (Arr3.mk 0 0 0) x r = mulT x r := by
  have e1 := shift_reduce_eq x (by omega)
  have e2 := shift_reduce_eq (Arr3.mk (20 * x.a2) x.a0 x.a1) (by simp only; omega)
  simp only [Hacl_Bignum_Fmul_mul_shift_reduce_, e1, e2,
    Hacl_Bignum_Fproduct_sum_scalar_multiplication_, FStar_UInt128_add_mod,
    FStar_UInt128_mul_wide, mulT]
  have b00 := mul_lt_pow 46 44 hx0 hr0
  have b10 := mul_lt_pow 46 44 hx1 hr0
  have b20 := mul_lt_pow 46 44 hx2 hr0
  have b01 := mul_lt_pow 46 44 hx0 hr1
  have b11 := mul_lt_pow 46 44 hx1 hr1
  have b21 := mul_lt_pow 46 44 hx2 hr1
  have b02 := mul_lt_pow 46 44 hx0 hr2
  have b12 := mul_lt_pow 46 44 hx1 hr2
  have b22 := mul_lt_pow 46 44 hx2 hr2
  have c21 : 20 * x.a2 * r.a1 = 20 * (x.a2 * r.a1) := by ring
  have c12 : 20 * x.a1 * r.a2 = 20 * (x.a1 * r.a2) := by ring
  have c22 : 20 * x.a2 * r.a2 = 20 * (x.a2 * r.a2) := by ring
  rw [c21, c12, c22]
  norm_num at *
  refine ⟨?_, ?_, ?_⟩ <;> omega

theorem mulT_bound (x r : Arr3)
    (hx0 : x.a0 < 2 ^ 46) (hx1 : x.a1 < 2 ^ 46) (hx2 : x.a2 < 2 ^ 46)
    (hr0 : r.a0 < 2 ^ 44) (hr1 : r.a1 < 2 ^ 44) (hr2 : r.a2 < 2 ^ 44) :
    (mulT x r).a0 < 2 ^ 96 ∧ (mulT x r).a1 < 2 ^ 96 ∧ (mulT x r).a2 < 2 ^ 96 := by
  have b00 := mul_lt_pow 46 44 hx0 hr0
  have b10 := mul_lt_pow 46 44 hx1 hr0
  have b20 := mul_lt_pow 46 44 hx2 hr0
  have b01 := mul_lt_pow 46 44 hx0 hr1
  have b11 := mul_lt_pow 46 44 hx1 hr1
  have b21 := mul_lt_pow 46 44 hx2 hr1
  have b02 := mul_lt_pow 46 44 hx0 hr2
  have b12 := mul_lt_pow 46 44 hx1 hr2
  have b22 := mul_lt_pow 46 44 hx2 hr2
  have c21 : 20 * x.a2 * r.a1 = 20 * (x.a2 * r.a1) := by ring
  have c12 : 20 * x.a1 * r.a2 = 20 * (x.a1 * r.a2) := by ring
  have c22 : 20 * x.a2 * r.a2 = 20 * (x.a2 * r.a2) := by ring
  simp only [mulT]
  rw [c21, c12, c22]
  norm_num at *
  refine ⟨?_, ?_, ?_⟩ <;> omega

theorem mulT_val (x r : Arr3) :
    val (mulT x r) + 4 * prime * (x.a1 * r.a2 + x.a2 * r.a1 + x.a2 * r.a2 * 2 ^ 44)
      = val x * val r := by
  simp only [val, mulT, prime]
  norm_num
  ring

theorem fmul_carry_spec (t : Arr3) (h0 : t.a0 < 2 ^ 96) (h1 : t.a1 < 2 ^ 96)
    (h2 : t.a2 < 2 ^ 96) :
    (fmul_carry t).a0 < 2 ^ 44 ∧ (fmul_carry t).a1 < 2 ^ 44 + 2 ^ 16 ∧
      (fmul_carry t).a2 < 2 ^ 42 ∧
      val (fmul_carry t) + (t.a2 + (t.a1 + t.a0 / 2 ^ 44) / 2 ^ 44) / 2 ^ 42 * prime
        = val t := by
  obtain ⟨t0, t1, t2⟩ := t
  simp only at h0 h1 h2
  simp only [fmul_carry, Hacl_Bignum_Fproduct_carry_wide_, carry_wide_step0, carry_wide_step1,
    Hacl_Bignum_Modulo_carry_top_wide, Hacl_Bignum_Fproduct_copy_from_wide_, mask44_eq]
  simp only [and_mask44, and_mask42, FStar_UInt128_add, FStar_UInt128_logand,
    FStar_UInt128_shift_right, FStar_Int_Cast_Full_uint64_to_uint128,
    FStar_Int_Cast_Full_uint128_to_uint64, add64, shl64, Nat.shiftLeft_eq,
    Nat.shiftRight_eq_div_pow, val, prime]
  have e0 : t0 % 2 ^ 64 % 2 ^ 44 = t0 % 2 ^ 44 := by omega
  have e1 : (t1 + t0 / 2 ^ 44) % 2 ^ 128 = t1 + t0 / 2 ^ 44 := Nat.mod_eq_of_lt (by omega)
  rw [e0, e1]
  have e2 : (t1 + t0 / 2 ^ 44) % 2 ^ 64 % 2 ^ 44 = (t1 + t0 / 2 ^ 44) % 2 ^ 44 := by omega
  have e3 : (t2 + (t1 + t0 / 2 ^ 44) / 2 ^ 44) % 2 ^ 128 = t2 + (t1 + t0 / 2 ^ 44) / 2 ^ 44 :=
    Nat.mod_eq_of_lt (by omega)
  rw [e2, e3]
  generalize hs1 : t1 + t0 / 2 ^ 44 = s1
  generalize hs2 : t2 + s1 / 2 ^ 44 = s2
  have hs1b : s1 < 2 ^ 97 := by omega
  have hs2b : s2 < 2 ^ 97 := by omega
  have e4 : s2 / 2 ^ 42 % 2 ^ 64 = s2 / 2 ^ 42 := Nat.mod_eq_of_lt (by omega)
  rw [e4]
  generalize hk : s2 / 2 ^ 42 = k
  have hkb : k < 2 ^ 55 := by omega
  have e5 : (k * 2 ^ 2 % 2 ^ 64 + k) % 2 ^ 64 = 5 * k := by omega
  rw [e5]
  have e6 : (t0 % 2 ^ 44 + 5 * k) % 2 ^ 128 % 2 ^ 64 = t0 % 2 ^ 44 + 5 * k := by omega
  rw [e6]
  have e7 : s1 % 2 ^ 44 % 2 ^ 64 = s1 % 2 ^ 44 := by omega
  have e8 : s2 % 2 ^ 42 % 2 ^ 64 = s2 % 2 ^ 42 := by omega
  rw [e7, e8]
  have e9 : (s1 % 2 ^ 44 + (t0 % 2 ^ 44 + 5 * k) / 2 ^ 44) % 2 ^ 64
      = s1 % 2 ^ 44 + (t0 % 2 ^ 44 + 5 * k) / 2 ^ 44 := Nat.mod_eq_of_lt (by omega)
  rw [e9]
  refine ⟨by omega, by omega, by omega, ?_⟩
  omega

theorem fmul_eq (x r : Arr3) :
    Hacl_Bignum_Fmul_fmul_ x r
      = fmul_carry (Hacl_Bignum_Fmul_mul_shift_reduce_ (Arr3.mk 0 0 0) x r) := rfl

theorem fmul_spec (x r : Arr3)
    (hx0 : x.a0 < 2 ^ 46) (hx1 : x.a1 < 2 ^ 46) (hx2 : x.a2 < 2 ^ 46)
    (hr0 : r.a0 < 2 ^ 44) (hr1 : r.a1 < 2 ^ 44) (hr2 : r.a2 < 2 ^ 44) :
    (Hacl_Bignum_Fmul_fmul_ x r).a0 < 2 ^ 44 ∧
      (Hacl_Bignum_Fmul_fmul_ x r).a1 < 2 ^ 44 + 2 ^ 16 ∧
      (Hacl_Bignum_Fmul_fmul_ x r).a2 < 2 ^ 42 ∧
      val (Hacl_Bignum_Fmul_fmul_ x r) % prime = (val x * val r) % prime := by
  rw [fmul_eq, mul_shift_reduce_eq x r hx0 hx1 hx2 hr0 hr1 hr2]
  obtain ⟨b0, b1, b2⟩ := mulT_bound x r hx0 hx1 hx2 hr0 hr1 hr2
  obtain ⟨c0, c1, c2, c3⟩ := fmul_carry_spec (mulT x r) b0 b1 b2
  refine ⟨c0, c1, c2, ?_⟩
  rw [← mulT_val x r, ← c3]
  rw [show 4 * prime * (x.a1 * r.a2 + x.a2 * r.a1 + x.a2 * r.a2 * 2 ^ 44)
    = prime * (4 * (x.a1 * r.a2 + x.a2 * r.a1 + x.a2 * r.a2 * 2 ^ 44)) by ring]
  rw [Nat.add_mul_mod_self_left, Nat.add_mul_mod_self_right]

theorem add_and_multiply_spec (acc block r : Arr3) (ha : acc_ok acc) (hb : block_ok block)
    (hr : r_ok r) :
    (Hacl_Bignum_AddAndMultiply_add_and_multiply acc block r).a0 < 2 ^ 44 ∧
      (Hacl_Bignum_AddAndMultiply_add_and_multiply acc block r).a1 < 2 ^ 44 + 2 ^ 16 ∧
      (Hacl_Bignum_AddAndMultiply_add_and_multiply acc block r).a2 < 2 ^ 42 ∧
      val (Hacl_Bignum_AddAndMultiply_add_and_multiply acc block r) % prime
        = ((val acc + val block) * val r) % prime := by
  obtain ⟨a0, a1, a2⟩ := acc
  obtain ⟨b0, b1, b2⟩ := block
  obtain ⟨ha0, ha1, ha2⟩ := ha
  obtain ⟨hb0, hb1, hb2⟩ := hb
  obtain ⟨hr0, hr1, hr2⟩ := hr
  simp only at ha0 ha1 ha2 hb0 hb1 hb2
  have e0 : add64 a0 b0 = a0 + b0 := Nat.mod_eq_of_lt (by omega)
  have e1 : add64 a1 b1 = a1 + b1 := Nat.mod_eq_of_lt (by omega)
  have e2 : add64 a2 b2 = a2 + b2 := Nat.mod_eq_of_lt (by omega)
  simp only [Hacl_Bignum_AddAndMultiply_add_and_multiply, Hacl_Bignum_Fmul_fmul, e0, e1, e2]
  have hv : val (Arr3.mk a0 a1 a2) + val (Arr3.mk b0 b1 b2)
      = val (Arr3.mk (a0 + b0) (a1 + b1) (a2 + b2)) := by
    simp only [val]; ring
  rw [hv]
  exact fmul_spec _ r (by simp only; omega) (by simp only; omega) (by simp only; omega)
    hr0 hr1 (by omega)

theorem acc_ok_of_bounds {a : Arr3} (h0 : a.a0 < 2 ^ 44) (h1 : a.a1 < 2 ^ 44 + 2 ^ 16)
    (h2 : a.a2 < 2 ^ 42) : acc_ok a := ⟨by omega, by omega, by omega⟩

theorem split_limbs (m0 : Nat) :
    Arr3.mk (FStar_Int_Cast_Full_uint128_to_uint64 m0 &&& 0xfffffffffff)
      (FStar_Int_Cast_Full_uint128_to_uint64 (FStar_UInt128_shift_right m0 44) &&& 0xfffffffffff)
      (FStar_Int_Cast_Full_uint128_to_uint64 (FStar_UInt128_shift_right m0 88))
      = Arr3.mk (m0 % 2 ^ 44) (m0 / 2 ^ 44 % 2 ^ 44) (m0 / 2 ^ 88 % 2 ^ 64) := by
  simp only [and_mask44, FStar_Int_Cast_Full_uint128_to_uint64, FStar_UInt128_shift_right,
    Nat.shiftRight_eq_div_pow]
  congr 1 <;> omega

theorem or_bit40 (b : Nat) (h : b < 2 ^ 40) : 0x10000000000 ||| b = 2 ^ 40 + b := by
  have := Nat.mul_add_lt_is_or h 1
  simp only [Nat.mul_one] at this
  rw [this]

theorem update_spec (st : poly1305_state) (m : List Byte) (ha : acc_ok st.h) (hr : r_ok st.r) :
    (Hacl_Impl_Poly1305_64_poly1305_update st m).r = st.r ∧
      (Hacl_Impl_Poly1305_64_poly1305_update st m).h.a0 < 2 ^ 44 ∧
      (Hacl_Impl_Poly1305_64_poly1305_update st m).h.a1 < 2 ^ 44 + 2 ^ 16 ∧
      (Hacl_Impl_Poly1305_64_poly1305_update st m).h.a2 < 2 ^ 42 ∧
      val (Hacl_Impl_Poly1305_64_poly1305_update st m).h % prime
        = ((val st.h + (load128_le m + 2 ^ 128)) * val st.r) % prime := by
  have hm := load128_le_lt m
  have e := split_limbs (load128_le m)
  simp only [Arr3.mk.injEq] at e
  obtain ⟨e0, e1, e2⟩ := e
  have hb2 : load128_le m / 2 ^ 88 % 2 ^ 64 = load128_le m / 2 ^ 88 :=
    Nat.mod_eq_of_lt (by omega)
  have hor := or_bit40 (load128_le m / 2 ^ 88) (by omega)
  simp only [Hacl_Impl_Poly1305_64_poly1305_update, e0, e1, e2, hb2, hor]
  have hv : load128_le m + 2 ^ 128
      = val (Arr3.mk (load128_le m % 2 ^ 44) (load128_le m / 2 ^ 44 % 2 ^ 44)
          (2 ^ 40 + load128_le m / 2 ^ 88)) := by
    simp only [val]; omega
  rw [hv]
  refine ⟨trivial, ?_⟩
  exact add_and_multiply_spec st.h _ st.r ha
    ⟨by simp only; omega, by simp only; omega, by simp only; omega⟩ hr

theorem carry_top_eq (b : Arr3) (h2 : b.a2 < 2 ^ 60) (h0 : b.a0 < 2 ^ 63) :
    Hacl_Bignum_Modulo_carry_top b
      = Arr3.mk (b.a0 + 5 * (b.a2 / 2 ^ 42)) b.a1 (b.a2 % 2 ^ 42) := by
  simp only [Hacl_Bignum_Modulo_carry_top, and_mask42, add64, shl64, Nat.shiftLeft_eq,
    Nat.shiftRight_eq_div_pow]
  congr 1
  omega

theorem carry_limb_eq (b : Arr3) (h0 : b.a0 < 2 ^ 63) (h1 : b.a1 < 2 ^ 63) (h2 : b.a2 < 2 ^ 63) :
    Hacl_Bignum_Fproduct_carry_limb_ b
      = Arr3.mk (b.a0 % 2 ^ 44) ((b.a1 + b.a0 / 2 ^ 44) % 2 ^ 44)
          (b.a2 + (b.a1 + b.a0 / 2 ^ 44) / 2 ^ 44) := by
  simp only [Hacl_Bignum_Fproduct_carry_limb_, carry_limb_step0, carry_limb_step1, mask44_eq]
  simp only [and_mask44, add64, Nat.shiftRight_eq_div_pow]
  congr 1 <;> omega

theorem last_pass_eq (acc : Arr3) :
    Hacl_Impl_Poly1305_64_poly1305_last_pass acc
      = last_pass_subtract (last_pass_normalized acc) := rfl

set_option maxHeartbeats 400000 in
theorem last_pass_normalized_spec (a : Arr3) (ha : acc_ok a) :
    (last_pass_normalized a).a0 < 2 ^ 44 ∧ (last_pass_normalized a).a1 < 2 ^ 44 ∧
      (last_pass_normalized a).a2 < 2 ^ 42 ∧
      ∃ k, val (last_pass_normalized a) + k * prime = val a := by
  obtain ⟨a0, a1, a2⟩ := a
  obtain ⟨h0, h1, h2⟩ := ha
  simp only at h0 h1 h2
  have c1 := carry_limb_eq (Arr3.mk a0 a1 a2) (by simp only; omega) (by simp only; omega)
    (by simp only; omega)
  simp only at c1
  generalize hx1 : (a1 + a0 / 2 ^ 44) % 2 ^ 44 = x1 at c1
  generalize hx2 : a2 + (a1 + a0 / 2 ^ 44) / 2 ^ 44 = x2 at c1
  have hx1b : x1 < 2 ^ 44 := by omega
  have hx2b : x2 < 2 ^ 43 + 2 := by omega
  have c2 := carry_top_eq (Arr3.mk (a0 % 2 ^ 44) x1 x2) (by simp only; omega)
    (by simp only; omega)
  simp only at c2
  generalize hy0 : a0 % 2 ^ 44 + 5 * (x2 / 2 ^ 42) = y0 at c2
  have hy0b : y0 < 2 ^ 44 + 11 := by omega
  have e1 : add64 x1 (y0 >>> 44) = x1 + y0 / 2 ^ 44 := by
    simp only [add64, Nat.shiftRight_eq_div_pow]
    exact Nat.mod_eq_of_lt (by omega)
  generalize hz1 : x1 + y0 / 2 ^ 44 = z1 at e1
  have e2 : add64 (x2 % 2 ^ 42) (z1 >>> 44) = x2 % 2 ^ 42 + z1 / 2 ^ 44 := by
    simp only [add64, Nat.shiftRight_eq_div_pow]
    exact Nat.mod_eq_of_lt (by omega)
  have c3 := carry_top_eq (Arr3.mk (y0 % 2 ^ 44) (z1 % 2 ^ 44) (x2 % 2 ^ 42 + z1 / 2 ^ 44))
    (by simp only; omega) (by simp only; omega)
  simp only at c3
  generalize hw0 : y0 % 2 ^ 44 + 5 * ((x2 % 2 ^ 42 + z1 / 2 ^ 44) / 2 ^ 42) = w0 at c3
  have e3 : add64 (z1 % 2 ^ 44) (w0 >>> 44) = z1 % 2 ^ 44 + w0 / 2 ^ 44 := by
    simp only [add64, Nat.shiftRight_eq_div_pow]
    exact Nat.mod_eq_of_lt (by omega)
  simp only [last_pass_normalized, c1, c2, and_mask44, e1, e2, c3, mask44_eq, e3]
  clear c1 c2 c3 e1 e2 e3
  have f1 : x2 / 2 ^ 42 ≤ 2 := by omega
  have f2 : y0 / 2 ^ 44 ≤ 1 := by omega
  have f2b : y0 / 2 ^ 44 = 1 → y0 % 2 ^ 44 ≤ 10 := by omega
  have f3 : z1 / 2 ^ 44 ≤ 1 := by omega
  have f4 : z1 / 2 ^ 44 = 1 → y0 / 2 ^ 44 = 1 := by omega
  have f4b : z1 / 2 ^ 44 = 1 → z1 % 2 ^ 44 = 0 := by omega
  generalize hX : x2 % 2 ^ 42 + z1 / 2 ^ 44 = X at *
  have f5 : X / 2 ^ 42 ≤ 1 := by omega
  have f6 : X / 2 ^ 42 = 1 → z1 / 2 ^ 44 = 1 := by omega
  have f7 : w0 < 2 ^ 44 := by omega
  have f8 : w0 / 2 ^ 44 = 0 := by omega
  have f9 : w0 % 2 ^ 44 = w0 := by omega
  rw [f8, f9]
  refine ⟨by omega, by omega, by omega, x2 / 2 ^ 42 + X / 2 ^ 42, ?_⟩
  simp only [val, prime]
  have g1 : a0 % 2 ^ 44 + x1 * 2 ^ 44 + x2 * 2 ^ 88 = a0 + a1 * 2 ^ 44 + a2 * 2 ^ 88 := by
    clear f1 f2 f2b f3 f4 f4b f5 f6 f7 f8 f9 hw0 hX hz1 hy0
    omega
  have g2 : y0 + x1 * 2 ^ 44 + (x2 % 2 ^ 42) * 2 ^ 88 + (x2 / 2 ^ 42) * (2 ^ 130 - 5)
      = a0 % 2 ^ 44 + x1 * 2 ^ 44 + x2 * 2 ^ 88 := by
    clear f1 f2 f2b f3 f4 f4b f5 f6 f7 f8 f9 hw0 hX hz1 hx1 hx2 g1
    omega
  have g3 : y0 % 2 ^ 44 + (z1 % 2 ^ 44) * 2 ^ 44 + X * 2 ^ 88
      = y0 + x1 * 2 ^ 44 + (x2 % 2 ^ 42) * 2 ^ 88 := by
    clear f1 f2 f2b f3 f4 f4b f5 f6 f7 f8 f9 hw0 hx1 hx2 hy0 g1 g2
    omega
  have g4 : w0 + (z1 % 2 ^ 44) * 2 ^ 44 + (X % 2 ^ 42) * 2 ^ 88 + (X / 2 ^ 42) * (2 ^ 130 - 5)
      = y0 % 2 ^ 44 + (z1 % 2 ^ 44) * 2 ^ 44 + X * 2 ^ 88 := by
    clear f1 f2 f2b f3 f4 f4b f5 f6 f7 f8 f9 hX hz1 hx1 hx2 hy0 g1 g2 g3
    omega
  rw [Nat.add_zero, ← g1, ← g2, ← g3, ← g4]
  ring

theorem last_pass_subtract_spec (n : Arr3) (h0 : n.a0 < 2 ^ 44) (h1 : n.a1 < 2 ^ 44)
    (h2 : n.a2 < 2 ^ 42) :
    (last_pass_subtract n).a0 < 2 ^ 44 ∧ (last_pass_subtract n).a1 < 2 ^ 44 ∧
      (last_pass_subtract n).a2 < 2 ^ 42 ∧ val (last_pass_subtract n) < prime ∧
      (val (last_pass_subtract n) = val n ∨ val (last_pass_subtract n) + prime = val n) := by
  obtain ⟨n0, n1, n2⟩ := n
  simp only at h0 h1 h2
  have m1 : (2 ^ 64 - 1) &&& (2 ^ 64 - 1) = 2 ^ 64 - 1 := by decide
  have m2 : 0xffffffffffb &&& (2 ^ 64 - 1) = 0xffffffffffb := by decide
  have m3 : 0xfffffffffff &&& (2 ^ 64 - 1) = 0xfffffffffff := by decide
  have m4 : 0x3ffffffffff &&& (2 ^ 64 - 1) = 0x3ffffffffff := by decide
  simp only [last_pass_subtract, FStar_UInt64_gte_mask, FStar_UInt64_eq_mask, sub64, val, prime]
  split_ifs <;>
    simp only [m1, m2, m3, m4, Nat.and_zero, Nat.zero_and] <;>
    refine ⟨?_, ?_, ?_, ?_, ?_⟩ <;> omega

theorem last_pass_spec (a : Arr3) (ha : acc_ok a) :
    (Hacl_Impl_Poly1305_64_poly1305_last_pass a).a0 < 2 ^ 44 ∧
      (Hacl_Impl_Poly1305_64_poly1305_last_pass a).a1 < 2 ^ 44 ∧
      (Hacl_Impl_Poly1305_64_poly1305_last_pass a).a2 < 2 ^ 42 ∧
      val (Hacl_Impl_Poly1305_64_poly1305_last_pass a) = val a % prime := by
  rw [last_pass_eq]
  obtain ⟨n0, n1, n2, k, hk⟩ := last_pass_normalized_spec a ha
  obtain ⟨s0, s1, s2, s3, s4⟩ := last_pass_subtract_spec _ n0 n1 n2
  refine ⟨s0, s1, s2, ?_⟩
  rw [← hk]
  rcases s4 with s4 | s4
  · rw [← s4, Nat.add_mul_mod_self_right, Nat.mod_eq_of_lt s3]
  · rw [← s4, show val (last_pass_subtract (last_pass_normalized a)) + prime + k * prime
        = val (last_pass_subtract (last_pass_normalized a)) + (k + 1) * prime by ring,
      Nat.add_mul_mod_self_right, Nat.mod_eq_of_lt s3]

theorem pack_and_add_spec (h : Arr3) (ks : List Byte) (h0 : h.a0 < 2 ^ 44) (h1 : h.a1 < 2 ^ 44)
    (h2 : h.a2 < 2 ^ 42) :
    pack_and_add h ks = store128_le ((val h + load128_le ks) % 2 ^ 128) := by
  obtain ⟨x0, x1, x2⟩ := h
  simp only at h0 h1 h2
  have hk := load128_le_lt ks
  have e1 : shl64 x1 44 = 2 ^ 44 * (x1 % 2 ^ 20) := by
    simp only [shl64, Nat.shiftLeft_eq]
    omega
  have e2 : shl64 x2 24 = 2 ^ 24 * (x2 % 2 ^ 40) := by
    simp only [shl64, Nat.shiftLeft_eq]
    omega
  have lo : shl64 x1 44 ||| x0 = 2 ^ 44 * (x1 % 2 ^ 20) + x0 := by
    rw [e1, ← Nat.mul_add_lt_is_or h0]
  have hi : shl64 x2 24 ||| x1 >>> 20 = 2 ^ 24 * (x2 % 2 ^ 40) + x1 / 2 ^ 20 := by
    rw [e2, Nat.shiftRight_eq_div_pow,
      ← Nat.mul_add_lt_is_or (by omega : x1 / 2 ^ 20 < 2 ^ 24)]
  simp only [pack_and_add, pack128, FStar_UInt128_logor, FStar_UInt128_shift_left,
    FStar_Int_Cast_Full_uint64_to_uint128, FStar_UInt128_add_mod, lo, hi]
  have top : ((2 ^ 24 * (x2 % 2 ^ 40) + x1 / 2 ^ 20) <<< 64) % 2 ^ 128
      = 2 ^ 64 * (2 ^ 24 * (x2 % 2 ^ 40) + x1 / 2 ^ 20) := by
    rw [Nat.shiftLeft_eq]
    omega
  rw [top, ← Nat.mul_add_lt_is_or (by omega : 2 ^ 44 * (x1 % 2 ^ 20) + x0 < 2 ^ 64)]
  have fin : (2 ^ 64 * (2 ^ 24 * (x2 % 2 ^ 40) + x1 / 2 ^ 20) + (2 ^ 44 * (x1 % 2 ^ 20) + x0)
      + load128_le ks) % 2 ^ 128 = (val (Arr3.mk x0 x1 x2) + load128_le ks) % 2 ^ 128 := by
    simp only [val]
    omega
  rw [fin]

end Poly1305_64

theorem int_le_take_of_length {l : List Byte} (h : l.length ≤ 16) : load128_le l = int_le l := by
  unfold load128_le
  rw [List.take_of_length_le h]

theorem pow_256 (n : Nat) : (256 : Nat) ^ n = 2 ^ (8 * n) := by
  rw [pow_mul]
  norm_num

namespace Poly1305_64

theorem last_block_bytes_eq (m : List Byte) (rem_ : Nat) (h1 : rem_ < 16)
    (h2 : rem_ ≤ m.length) :
    last_block_bytes m rem_ = m.take rem_ ++ (1 :: List.replicate (15 - rem_) (0 : Byte)) := by
  have e : rem_ % 2 ^ 32 = rem_ := Nat.mod_eq_of_lt (by omega)
  have hl : (m.take rem_).length = rem_ := by simp; omega
  unfold last_block_bytes
  rw [e, List.set_append_right _ _ (by omega), hl, Nat.sub_self, List.drop_replicate,
    show 16 - rem_ = (15 - rem_) + 1 by omega, List.replicate_succ, List.set_cons_zero]

theorem load_last_block (m : List Byte) (rem_ : Nat) (h1 : rem_ < 16) (h2 : rem_ ≤ m.length) :
    load128_le (last_block_bytes m rem_) = int_le (m.take rem_) + 2 ^ (8 * rem_) := by
  have hl : (m.take rem_).length = rem_ := by simp; omega
  rw [last_block_bytes_eq m rem_ h1 h2, int_le_take_of_length (by simp; omega),
    int_le_append, hl]
  simp only [int_le, int_le_replicate_zero, pow_256]
  simp

theorem process_last_block_spec (st : poly1305_state) (m : List Byte) (rem_ : Nat)
    (ha : acc_ok st.h) (hr : r_ok st.r) (h1 : rem_ < 16) (h2 : rem_ ≤ m.length) :
    (Hacl_Impl_Poly1305_64_poly1305_process_last_block st m rem_).r = st.r ∧
      (Hacl_Impl_Poly1305_64_poly1305_process_last_block st m rem_).h.a0 < 2 ^ 44 ∧
      (Hacl_Impl_Poly1305_64_poly1305_process_last_block st m rem_).h.a1 < 2 ^ 44 + 2 ^ 16 ∧
      (Hacl_Impl_Poly1305_64_poly1305_process_last_block st m rem_).h.a2 < 2 ^ 42 ∧
      val (Hacl_Impl_Poly1305_64_poly1305_process_last_block st m rem_).h % prime
        = ((val st.h + (int_le (m.take rem_) + 2 ^ (8 * rem_))) * val st.r) % prime := by
  have hl : (m.take rem_).length = rem_ := by simp; omega
  have hlt := int_le_lt (m.take rem_)
  rw [hl] at hlt
  have hp : (256 : Nat) ^ rem_ ≤ 256 ^ 15 := Nat.pow_le_pow_right (by decide) (by omega)
  have hp2 : (2 : Nat) ^ (8 * rem_) = 256 ^ rem_ := (pow_256 rem_).symm
  have hload := load_last_block m rem_ h1 h2
  have hM : load128_le (last_block_bytes m rem_) < 2 ^ 121 := by
    rw [hload, hp2]
    have : (256 : Nat) ^ 15 = 2 ^ 120 := by norm_num
    omega
  rw [← hload]
  generalize hm0 : load128_le (last_block_bytes m rem_) = m0 at hM
  have e := split_limbs m0
  simp only [Arr3.mk.injEq] at e
  obtain ⟨e0, e1, e2⟩ := e
  have hb2 : m0 / 2 ^ 88 % 2 ^ 64 = m0 / 2 ^ 88 := Nat.mod_eq_of_lt (by omega)
  have hdef : Hacl_Impl_Poly1305_64_poly1305_process_last_block st m rem_
      = Hacl_Impl_Poly1305_64_poly1305_process_last_block_ (last_block_bytes m rem_) st := rfl
  rw [hdef]
  simp only [Hacl_Impl_Poly1305_64_poly1305_process_last_block_, hm0, e0, e1, e2, hb2]
  have hv : m0 = val (Arr3.mk (m0 % 2 ^ 44) (m0 / 2 ^ 44 % 2 ^ 44) (m0 / 2 ^ 88)) := by
    simp only [val]; omega
  rw [show (val st.h + m0) = val st.h
    + val (Arr3.mk (m0 % 2 ^ 44) (m0 / 2 ^ 44 % 2 ^ 44) (m0 / 2 ^ 88)) by rw [← hv]]
  refine ⟨trivial, ?_⟩
  exact add_and_multiply_spec st.h _ st.r ha
    ⟨by simp only; omega, by simp only; omega, by simp only; omega⟩ hr

theorem clamp_limbs_spec (kr : List Byte) :
    r_ok (clamp_limbs kr) ∧
      val (clamp_limbs kr) = load128_le kr &&& 0x0ffffffc0ffffffc0ffffffc0fffffff ∧
      val (clamp_limbs kr) < 2 ^ 124 := by
  have hm : FStar_UInt128_logor
      (FStar_UInt128_shift_left (FStar_Int_Cast_Full_uint64_to_uint128 0x0ffffffc0ffffffc) 64)
      (FStar_Int_Cast_Full_uint64_to_uint128 0x0ffffffc0fffffff)
      = 0x0ffffffc0ffffffc0ffffffc0fffffff := by decide
  have hle : load128_le kr &&& 0x0ffffffc0ffffffc0ffffffc0fffffff
      ≤ 0x0ffffffc0ffffffc0ffffffc0fffffff := Nat.and_le_right
  have e := split_limbs (load128_le kr &&& 0x0ffffffc0ffffffc0ffffffc0fffffff)
  generalize hc : load128_le kr &&& 0x0ffffffc0ffffffc0ffffffc0fffffff = c at *
  have hdef : clamp_limbs kr = Arr3.mk (c % 2 ^ 44) (c / 2 ^ 44 % 2 ^ 44)
      (c / 2 ^ 88 % 2 ^ 64) := by
    rw [← e, ← hc]
    simp only [clamp_limbs, hm, FStar_UInt128_logand]
  rw [hdef]
  refine ⟨⟨by simp only; omega, by simp only; omega, by simp only; omega⟩, ?_, ?_⟩ <;>
    simp only [val] <;> omega

theorem init_eq (st0 : poly1305_state) (K : List Byte) :
    Poly1305_64_init st0 K = poly1305_state.mk (clamp_limbs K) (Arr3.mk 0 0 0) := rfl

theorem partial_eq (st0 : poly1305_state) (input : List Byte) (len1 : Nat) (kr : List Byte) :
    ( Hacl_Standalone_Poly1305_64_poly1305_partial st0 input len1 kr)
      = Hacl_Standalone_Poly1305_64_poly1305_blocks
          (poly1305_state.mk (clamp_limbs kr) (Arr3.mk 0 0 0)) input len1 := rfl

theorem finish_eq (st : poly1305_state) (k1 : List Byte) :
    Poly1305_64_finish st k1 = pack_and_add st.h k1 := rfl

theorem onetimeauth_eq (input : List Byte) (len1 : Nat) (k1 : List Byte) :
    Poly1305_64_crypto_onetimeauth input len1 k1
      = pack_and_add (Hacl_Standalone_Poly1305_64_poly1305_complete
          (poly1305_state.mk (Arr3.mk 0 0 0) (Arr3.mk 0 0 0)) input len1 k1).h
          (k1.drop 16) := rfl

theorem update_eq_blocks : ∀ (n : Nat) (st : poly1305_state) (m : List Byte),
    Poly1305_64_update st m n = Hacl_Standalone_Poly1305_64_poly1305_blocks st m n
  | 0, _, _ => rfl
  | n + 1, st, m => by
    rw [Poly1305_64_update, Hacl_Standalone_Poly1305_64_poly1305_blocks,
      update_eq_blocks n]
    rfl

theorem rfc_r_eq (K : List Byte) : rfc_r K = val (clamp_limbs K) :=
  (clamp_limbs_spec K).2.1.symm

theorem acc_ok_zero : acc_ok (Arr3.mk 0 0 0) := by
  refine ⟨?_, ?_, ?_⟩ <;> simp

theorem horner_congr (r : Nat) : ∀ (n a b : Nat) (m : List Byte),
    a % prime = b % prime → rfc_horner r n a m % prime = rfc_horner r n b m % prime
  | 0, _, _, _, h => h
  | n + 1, a, b, m, h => by
    simp only [rfc_horner]
    apply horner_congr r n
    exact Nat.ModEq.mul_right _ (Nat.ModEq.add_right _ h)

theorem horner_add (r : Nat) : ∀ (a b acc : Nat) (m : List Byte),
    rfc_horner r (a + b) acc m = rfc_horner r b (rfc_horner r a acc m) (m.drop (16 * a))
  | 0, b, acc, m => by simp [rfc_horner]
  | a + 1, b, acc, m => by
    rw [show a + 1 + b = (a + b) + 1 by omega]
    simp only [rfc_horner]
    rw [horner_add r a b, List.drop_drop]
    congr 2
    omega

theorem blocks_spec : ∀ (n : Nat) (st : poly1305_state) (m : List Byte),
    acc_ok st.h → r_ok st.r → 16 * n ≤ m.length →
    (Hacl_Standalone_Poly1305_64_poly1305_blocks st m n).r = st.r ∧
      acc_ok (Hacl_Standalone_Poly1305_64_poly1305_blocks st m n).h ∧
      val (Hacl_Standalone_Poly1305_64_poly1305_blocks st m n).h % prime
        = rfc_horner (val st.r) n (val st.h) m % prime
  | 0, st, m, ha, _, _ => ⟨rfl, ha, rfl⟩
  | n + 1, st, m, ha, hr, hlen => by
    obtain ⟨u0, u1, u2, u3, u4⟩ := update_spec st m ha hr
    have hlen2 : 16 * n ≤ (m.drop 16).length := by
      rw [List.length_drop]; omega
    have ih := blocks_spec n (Hacl_Impl_Poly1305_64_poly1305_update st m) (m.drop 16)
      (acc_ok_of_bounds u1 u2 u3) (by rw [u0]; exact hr) hlen2
    obtain ⟨i0, i1, i2⟩ := ih
    have hl : (m.take 16).length = 16 := by
      rw [List.length_take]; omega
    simp only [Hacl_Standalone_Poly1305_64_poly1305_blocks, rfc_horner, hl]
    refine ⟨i0.trans u0, i1, ?_⟩
    rw [i2, u0]
    exact horner_congr _ n _ _ _ u4

theorem last_value_congr (r : Nat) (lb : List Byte) (rem_ : Nat) {H H' : Nat}
    (h : H % prime = H' % prime) :
    last_value r H lb rem_ % prime = last_value r H' lb rem_ % prime := by
  unfold last_value
  split_ifs
  · exact h
  · exact Nat.ModEq.mul_right _ (Nat.ModEq.add_right _ h)

theorem finalize_spec (st : poly1305_state) (lb : List Byte) (rem_ : Nat)
    (ha : acc_ok st.h) (hr : r_ok st.r) (h1 : rem_ < 16) (h2 : rem_ ≤ lb.length) :
    (Poly1305_64_update_last st lb rem_).r = st.r ∧
      (Poly1305_64_update_last st lb rem_).h.a0 < 2 ^ 44 ∧
      (Poly1305_64_update_last st lb rem_).h.a1 < 2 ^ 44 ∧
      (Poly1305_64_update_last st lb rem_).h.a2 < 2 ^ 42 ∧
      val (Poly1305_64_update_last st lb rem_).h
        = last_value (val st.r) (val st.h) lb rem_ % prime := by
  unfold Poly1305_64_update_last last_value
  by_cases hz : rem_ = 0
  · simp only [hz, if_true]
    obtain ⟨l0, l1, l2, l3⟩ := last_pass_spec st.h ha
    exact ⟨trivial, l0, l1, l2, l3⟩
  · simp only [hz, if_false]
    obtain ⟨p0, p1, p2, p3, p4⟩ := process_last_block_spec st lb rem_ ha hr h1 h2
    obtain ⟨l0, l1, l2, l3⟩ := last_pass_spec _ (acc_ok_of_bounds p1 p2 p3)
    exact ⟨p0, l0, l1, l2, l3.trans p4⟩

theorem complete_eq (st0 : poly1305_state) (m : List Byte) (len1 : Nat) (k1 : List Byte) :
    Hacl_Standalone_Poly1305_64_poly1305_complete st0 m len1 k1
      = Poly1305_64_update_last
          (Hacl_Standalone_Poly1305_64_poly1305_blocks
            (poly1305_state.mk (clamp_limbs k1) (Arr3.mk 0 0 0)) m (len1 / 16))
          (m.drop ((16 * (len1 / 16)) % 2 ^ 32)) (len1 % 16) := by
  have e1 : len1 >>> 4 = len1 / 16 := by rw [Nat.shiftRight_eq_div_pow]
  have e2 : len1 &&& 0xf = len1 % 16 := Nat.and_pow_two_sub_one_eq_mod len1 4
  have e3 : (16 * (len1 / 16)) % 2 ^ 64 % 2 ^ 32 = (16 * (len1 / 16)) % 2 ^ 32 := by omega
  simp only [Hacl_Standalone_Poly1305_64_poly1305_complete, partial_eq, e1, e2, e3,
    Poly1305_64_update_last]

theorem tag_spec (K M lb : List Byte) (hlb : M.length % 16 ≤ lb.length) :
    pack_and_add (Poly1305_64_update_last
        (Hacl_Standalone_Poly1305_64_poly1305_blocks
          (poly1305_state.mk (clamp_limbs K) (Arr3.mk 0 0 0)) M (M.length / 16))
        lb (M.length % 16)).h (K.drop 16) = tag_of K M lb := by
  have hr := (clamp_limbs_spec K).1
  obtain ⟨b0, b1, b2⟩ := blocks_spec (M.length / 16)
    (poly1305_state.mk (clamp_limbs K) (Arr3.mk 0 0 0)) M acc_ok_zero hr (by omega)
  simp only at b0 b2
  obtain ⟨f0, f1, f2, f3, f4⟩ := finalize_spec _ lb (M.length % 16) b1 (by rw [b0]; exact hr)
    (Nat.mod_lt _ (by decide)) hlb
  rw [pack_and_add_spec _ _ f1 f2 f3, f4, b0, last_value_congr _ _ _ b2]
  simp only [tag_of, rfc_r_eq, val, Nat.zero_mul, Nat.add_zero]
  rfl

theorem oneshot_char (K M : List Byte) :
    Poly1305_64_crypto_onetimeauth M M.length K
      = tag_of K M (M.drop ((16 * (M.length / 16)) % 2 ^ 32)) := by
  rw [onetimeauth_eq, complete_eq]
  apply tag_spec
  have : (16 * (M.length / 16)) % 2 ^ 32 ≤ 16 * (M.length / 16) := Nat.mod_le _ _
  rw [List.length_drop]
  omega

theorem incremental_char (st0 : poly1305_state) (K M : List Byte) :
    incremental_tag st0 K M = tag_of K M (M.drop (16 * (M.length / 16))) := by
  simp only [incremental_tag, finish_eq, init_eq, update_eq_blocks]
  apply tag_spec
  rw [List.length_drop]
  omega

theorem rfc_tag_char (K M : List Byte) :
    rfc8439_tag K M = tag_of K M (M.drop (16 * (M.length / 16))) := by
  have hv : rfc_horner (rfc_r K) ((M.length + 15) / 16) 0 M
      = last_value (rfc_r K) (rfc_horner (rfc_r K) (M.length / 16) 0 M)
          (M.drop (16 * (M.length / 16))) (M.length % 16) := by
    unfold last_value
    by_cases hz : M.length % 16 = 0
    · simp only [hz, if_true]
      rw [show (M.length + 15) / 16 = M.length / 16 by omega]
    · simp only [hz, if_false]
      rw [show (M.length + 15) / 16 = M.length / 16 + 1 by omega, horner_add]
      have hl : (M.drop (16 * (M.length / 16))).length = M.length % 16 := by
        rw [List.length_drop]; omega
      have ht : (M.drop (16 * (M.length / 16))).take 16 = M.drop (16 * (M.length / 16)) :=
        List.take_of_length_le (by omega)
      have ht2 : (M.drop (16 * (M.length / 16))).take (M.length % 16)
          = M.drop (16 * (M.length / 16)) := List.take_of_length_le (by omega)
      simp only [rfc_horner, ht, ht2, hl]
  unfold rfc8439_tag tag_of
  rw [hv]
  rfl

theorem zeros_then_length (n : Nat) (b : Byte) : (zeros_then n b).length = 16 * n + 1 := by
  simp [zeros_then]

theorem horner_zeros (t : List Byte) : ∀ (n acc : Nat),
    rfc_horner 1 n acc (List.replicate (16 * n) (0 : Byte) ++ t) = acc + n * 2 ^ 128
  | 0, acc => by simp [rfc_horner]
  | n + 1, acc => by
    have e : List.replicate (16 * (n + 1)) (0 : Byte) ++ t
        = List.replicate 16 (0 : Byte) ++ (List.replicate (16 * n) (0 : Byte) ++ t) := by
      rw [show 16 * (n + 1) = 16 + 16 * n by ring, List.replicate_add, List.append_assoc]
    have hl : (List.replicate 16 (0 : Byte)).length = 16 := List.length_replicate _ _
    rw [e, rfc_horner, List.take_left' hl, List.drop_left' hl, hl, int_le_replicate_zero,
      horner_zeros t n]
    ring

theorem tag_of_zeros_then (n : Nat) (b c : Byte) (lb : List Byte) (hlb : lb.take 1 = [c]) :
    tag_of (small_key 1) (zeros_then n b) lb
      = store128_le ((n * 2 ^ 128 + (c.val + 2 ^ 8)) % prime % 2 ^ 128) := by
  have hr : rfc_r (small_key 1) = 1 := by decide
  have hs : rfc_s (small_key 1) = 0 := by decide
  have h16 : (16 * n + 1) / 16 = n := by omega
  have h1 : (16 * n + 1) % 16 = 1 := by omega
  unfold tag_of
  rw [hr, hs, zeros_then_length, h16, h1]
  unfold zeros_then
  rw [horner_zeros]
  simp only [last_value, hlb, int_le]
  simp

theorem zeros_then_take_one (n : Nat) (b : Byte) (hn : 0 < n) :
    (zeros_then n b).take 1 = [0] := by
  unfold zeros_then
  rw [List.take_append_of_le_length (by rw [List.length_replicate]; omega),
    List.take_replicate, show min 1 (16 * n) = 1 by omega]
  rfl

theorem zeros_then_drop (n : Nat) (b : Byte) : (zeros_then n b).drop (16 * n) = [b] := by
  unfold zeros_then
  exact List.drop_left' (List.length_replicate _ _)

theorem big_offsets :
    (16 * ((16 * 2 ^ 28 + 1) / 16)) % 2 ^ 32 = 0 ∧ 16 * ((16 * 2 ^ 28 + 1) / 16) = 16 * 2 ^ 28 := by
  constructor <;> norm_num

theorem oneshot_big :
    Poly1305_64_crypto_onetimeauth (zeros_then (2 ^ 28) 1) (16 * 2 ^ 28 + 1) (small_key 1)
      = store128_le ((2 ^ 28 * 2 ^ 128 + (0 + 2 ^ 8)) % prime % 2 ^ 128) := by
  have hlen : 16 * 2 ^ 28 + 1 = (zeros_then (2 ^ 28) 1).length := (zeros_then_length _ _).symm
  have h := oneshot_char (small_key 1) (zeros_then (2 ^ 28) 1)
  rw [zeros_then_length, big_offsets.1, List.drop_zero] at h
  rw [h]
  exact tag_of_zeros_then _ _ 0 _ (zeros_then_take_one _ _ (by norm_num))

theorem rfc_big :
    rfc8439_tag (small_key 1) (zeros_then (2 ^ 28) 1)
      = store128_le ((2 ^ 28 * 2 ^ 128 + (1 + 2 ^ 8)) % prime % 2 ^ 128) := by
  rw [rfc_tag_char, zeros_then_length, big_offsets.2, zeros_then_drop]
  exact tag_of_zeros_then _ _ 1 _ rfl

theorem big_tags_differ :
    store128_le ((2 ^ 28 * 2 ^ 128 + (0 + 2 ^ 8)) % prime % 2 ^ 128)
      ≠ store128_le ((2 ^ 28 * 2 ^ 128 + (1 + 2 ^ 8)) % prime % 2 ^ 128) := by
  decide

/-- C1 (as amended): for every key `K` and every message `M` shorter than `2^32` bytes,
`Poly1305_64_crypto_onetimeauth` writes the RFC 8439 tag: the little-endian 16 bytes of
`((Horner value of the chunks at r) mod (2^130 - 5) + s) mod 2^128`. -/
theorem onetimeauth_is_rfc8439 (K M : List Byte) (hlen : M.length < 2 ^ 32) :
    Poly1305_64_crypto_onetimeauth M M.length K = rfc8439_tag K M := by
  rw [oneshot_char, rfc_tag_char]
  have e : (16 * (M.length / 16)) % 2 ^ 32 = 16 * (M.length / 16) :=
    Nat.mod_eq_of_lt (by omega)
  rw [e]

theorem onetimeauth_is_rfc8439_witness :
    rfc_msg.length < 2 ^ 32 ∧
      Poly1305_64_crypto_onetimeauth rfc_msg rfc_msg.length rfc_key
        = rfc8439_tag rfc_key rfc_msg ∧
      Poly1305_64_crypto_onetimeauth rfc_msg 34 rfc_key = rfc_tag :=
  ⟨by decide, onetimeauth_is_rfc8439 rfc_key rfc_msg (by decide), by decide⟩

/-- C1 counterexample: on the message of `2^32` zero bytes followed by one byte 1 (length
`2^32 + 1`), under the key with `r = 1` and pad 0, the code reads its last block at offset
`(uint32_t)2^32 = 0` and writes a tag different from the RFC 8439 tag. -/
theorem onetimeauth_long_message_differs :
    Poly1305_64_crypto_onetimeauth (zeros_then (2 ^ 28) 1) (16 * 2 ^ 28 + 1) (small_key 1)
      ≠ rfc8439_tag (small_key 1) (zeros_then (2 ^ 28) 1) := by
  rw [oneshot_big, rfc_big]
  exact big_tags_differ

theorem incremental_big :
    incremental_tag zero_state (small_key 1) (zeros_then (2 ^ 28) 1)
      = store128_le ((2 ^ 28 * 2 ^ 128 + (1 + 2 ^ 8)) % prime % 2 ^ 128) := by
  rw [incremental_char, zeros_then_length, big_offsets.2, zeros_then_drop]
  exact tag_of_zeros_then _ _ 1 _ rfl

theorem oneshot_big_again :
    Poly1305_64_crypto_onetimeauth (zeros_then (2 ^ 28) 1)
        (zeros_then (2 ^ 28) 1).length (small_key 1)
      = store128_le ((2 ^ 28 * 2 ^ 128 + (0 + 2 ^ 8)) % prime % 2 ^ 128) := by
  rw [oneshot_char, zeros_then_length, big_offsets.1, List.drop_zero]
  exact tag_of_zeros_then _ _ 0 _ (zeros_then_take_one _ _ (by norm_num))

/-- C5 (as amended): for every key `K` and every message `M` shorter than `2^32` bytes, the
sequence `Poly1305_64_init; Poly1305_64_update` over the `|M| / 16` full blocks;
`Poly1305_64_update_last` on the `|M| mod 16` remaining bytes; `Poly1305_64_finish` with the
pad pointer `K + 16` writes the same 16 bytes as `Poly1305_64_crypto_onetimeauth`. -/
theorem incremental_eq_oneshot (st0 : poly1305_state) (K M : List Byte)
    (hlen : M.length < 2 ^ 32) :
    incremental_tag st0 K M = Poly1305_64_crypto_onetimeauth M M.length K := by
  rw [incremental_char, oneshot_char]
  have e : (16 * (M.length / 16)) % 2 ^ 32 = 16 * (M.length / 16) :=
    Nat.mod_eq_of_lt (by omega)
  rw [e]

theorem incremental_eq_oneshot_witness :
    rfc_msg.length < 2 ^ 32 ∧
      incremental_tag zero_state rfc_key rfc_msg
        = Poly1305_64_crypto_onetimeauth rfc_msg rfc_msg.length rfc_key :=
  ⟨by decide, incremental_eq_oneshot zero_state rfc_key rfc_msg (by decide)⟩

/-- C5 counterexample: on the message of `2^32` zero bytes followed by one byte 1, under the
key with `r = 1` and pad 0, the incremental sequence and the one-shot function write
different tags (the one-shot function reads its last block at offset 0). -/
theorem incremental_differs_on_long_message :
    incremental_tag zero_state (small_key 1) (zeros_then (2 ^ 28) 1)
      ≠ Poly1305_64_crypto_onetimeauth (zeros_then (2 ^ 28) 1)
          (zeros_then (2 ^ 28) 1).length (small_key 1) := by
  rw [incremental_big, oneshot_big_again]
  exact fun h => big_tags_differ h.symm

/-- C6: for every key `K`, `Poly1305_64_init` sets the accumulator limbs to `(0, 0, 0)` and
the multiplier limbs so that `r0 + r1*2^44 + r2*2^88` is `int_le(K[0..16])` masked with
`0x0ffffffc0ffffffc0ffffffc0fffffff`, with `r0 < 2^44`, `r1 < 2^44`, `r2 < 2^42` and
`r < 2^124`. -/
theorem init_spec (st0 : poly1305_state) (K : List Byte) :
    (Poly1305_64_init st0 K).h = Arr3.mk 0 0 0 ∧
      (Poly1305_64_init st0 K).r.a0 + (Poly1305_64_init st0 K).r.a1 * 2 ^ 44
          + (Poly1305_64_init st0 K).r.a2 * 2 ^ 88
        = int_le (K.take 16) &&& 0x0ffffffc0ffffffc0ffffffc0fffffff ∧
      (Poly1305_64_init st0 K).r.a0 < 2 ^ 44 ∧ (Poly1305_64_init st0 K).r.a1 < 2 ^ 44 ∧
      (Poly1305_64_init st0 K).r.a2 < 2 ^ 42 ∧ val (Poly1305_64_init st0 K).r < 2 ^ 124 := by
  obtain ⟨⟨h0, h1, h2⟩, hv, hb⟩ := clamp_limbs_spec K
  rw [init_eq]
  exact ⟨rfl, hv, h0, h1, h2, hb⟩

/-- C7: for every state whose multiplier is the one `Poly1305_64_init` produces and whose
accumulator limbs satisfy `a0, a1 < 2^45` and `a2 < 2^43`, and every 16-byte block,
`Poly1305_64_update_block` leaves the multiplier unchanged and brings the accumulator to
`(val(Acc) + int_le(block) + 2^128) * val(R)` modulo `2^130 - 5`. -/
theorem update_block_spec (st0 st : poly1305_state) (K block : List Byte)
    (hR : st.r = (Poly1305_64_init st0 K).r)
    (h0 : st.h.a0 < 2 ^ 45) (h1 : st.h.a1 < 2 ^ 45) (h2 : st.h.a2 < 2 ^ 43)
    (hb : block.length = 16) :
    (Poly1305_64_update_block st block).r = st.r ∧
      val (Poly1305_64_update_block st block).h % prime
        = ((val st.h + int_le block + 2 ^ 128) * val st.r) % prime := by
  have hr : r_ok st.r := by
    rw [hR, init_eq]
    exact (clamp_limbs_spec K).1
  obtain ⟨u0, _, _, _, u4⟩ := update_spec st block ⟨h0, h1, h2⟩ hr
  rw [int_le_take_of_length (by omega), ← Nat.add_assoc] at u4
  exact ⟨u0, u4⟩

theorem update_block_spec_witness :
    (Poly1305_64_init zero_state rfc_key).r = (Poly1305_64_init zero_state rfc_key).r ∧
      (rfc_msg.take 16).length = 16 ∧
      (Poly1305_64_update_block (Poly1305_64_init zero_state rfc_key) (rfc_msg.take 16)).r
        = (Poly1305_64_init zero_state rfc_key).r ∧
      val (Poly1305_64_update_block (Poly1305_64_init zero_state rfc_key)
          (rfc_msg.take 16)).h % prime
        = ((val (Poly1305_64_init zero_state rfc_key).h + int_le (rfc_msg.take 16) + 2 ^ 128)
            * val (Poly1305_64_init zero_state rfc_key).r) % prime :=
  ⟨rfl, by decide,
    update_block_spec zero_state (Poly1305_64_init zero_state rfc_key) rfc_key
      (rfc_msg.take 16) rfl (by decide) (by decide) (by decide) (by decide)⟩

theorem process_last_block_congr (st : poly1305_state) (m m' : List Byte) (len : Nat)
    (hlen : len < 2 ^ 32) (h : m'.take len = m.take len) :
    Hacl_Impl_Poly1305_64_poly1305_process_last_block st m' len
      = Hacl_Impl_Poly1305_64_poly1305_process_last_block st m len := by
  have e : len % 2 ^ 32 = len := Nat.mod_eq_of_lt hlen
  simp only [Hacl_Impl_Poly1305_64_poly1305_process_last_block, e, h]

/-- C8: for every state whose multiplier is the one `Poly1305_64_init` produces and whose
accumulator limbs satisfy `a0, a1 < 2^45` and `a2 < 2^43`, every `len` with
`1 <= len < 16` and every buffer `m` of at least `len` bytes, `Poly1305_64_update_last`
leaves the multiplier unchanged and brings the accumulator to
`(val(Acc) + int_le(m[0..len]) + 2^(8*len)) * val(R)` modulo `2^130 - 5`; a buffer that
agrees with `m` on the first `len` bytes gives the same state. -/
theorem update_last_spec (st0 st : poly1305_state) (K m : List Byte) (len : Nat)
    (hR : st.r = (Poly1305_64_init st0 K).r)
    (h0 : st.h.a0 < 2 ^ 45) (h1 : st.h.a1 < 2 ^ 45) (h2 : st.h.a2 < 2 ^ 43)
    (hl1 : 1 ≤ len) (hl2 : len < 16) (hm : len ≤ m.length) :
    (Poly1305_64_update_last st m len).r = st.r ∧
      val (Poly1305_64_update_last st m len).h % prime
        = ((val st.h + (int_le (m.take len) + 2 ^ (8 * len))) * val st.r) % prime ∧
      ∀ m' : List Byte, m'.take len = m.take len →
        Poly1305_64_update_last st m' len = Poly1305_64_update_last st m len := by
  have hr : r_ok st.r := by
    rw [hR, init_eq]
    exact (clamp_limbs_spec K).1
  obtain ⟨f0, _, _, _, f4⟩ := finalize_spec st m len ⟨h0, h1, h2⟩ hr hl2 hm
  refine ⟨f0, ?_, ?_⟩
  · rw [f4, Nat.mod_mod]
    simp only [last_value, show len ≠ 0 by omega, if_false]
  · intro m' hm'
    simp only [Poly1305_64_update_last, show len ≠ 0 by omega, if_false,
      process_last_block_congr st m m' len (by omega) hm']

theorem update_last_spec_witness :
    (Poly1305_64_init zero_state rfc_key).r = (Poly1305_64_init zero_state rfc_key).r ∧
      (1 ≤ 2 ∧ 2 < 16 ∧ 2 ≤ (rfc_msg.drop 32).length) ∧
      (Poly1305_64_update_last (Poly1305_64_init zero_state rfc_key) (rfc_msg.drop 32) 2).r
        = (Poly1305_64_init zero_state rfc_key).r ∧
      val (Poly1305_64_update_last (Poly1305_64_init zero_state rfc_key)
          (rfc_msg.drop 32) 2).h % prime
        = ((val (Poly1305_64_init zero_state rfc_key).h
            + (int_le ((rfc_msg.drop 32).take 2) + 2 ^ (8 * 2)))
            * val (Poly1305_64_init zero_state rfc_key).r) % prime ∧
      ∀ m' : List Byte, m'.take 2 = (rfc_msg.drop 32).take 2 →
        Poly1305_64_update_last (Poly1305_64_init zero_state rfc_key) m' 2
          = Poly1305_64_update_last (Poly1305_64_init zero_state rfc_key)
              (rfc_msg.drop 32) 2 :=
  ⟨rfl, by decide,
    update_last_spec zero_state (Poly1305_64_init zero_state rfc_key) rfc_key
      (rfc_msg.drop 32) 2 rfl (by decide) (by decide) (by decide) (by decide) (by decide)
      (by decide)⟩

theorem foldl_update_ok : ∀ (blocks : List (List Byte)) (st : poly1305_state),
    acc_ok st.h → r_ok st.r →
    acc_ok (blocks.foldl Poly1305_64_update_block st).h ∧
      r_ok (blocks.foldl Poly1305_64_update_block st).r
  | [], _, ha, hr => ⟨ha, hr⟩
  | b :: bs, st, ha, hr => by
    obtain ⟨u0, u1, u2, u3, _⟩ := update_spec st b ha hr
    exact foldl_update_ok bs (Poly1305_64_update_block st b) (acc_ok_of_bounds u1 u2 u3)
      (by rw [show (Poly1305_64_update_block st b).r = st.r from u0]; exact hr)

theorem after_blocks_ok (st0 : poly1305_state) (K : List Byte) (blocks : List (List Byte)) :
    acc_ok (after_blocks st0 K blocks).h ∧ r_ok (after_blocks st0 K blocks).r :=
  foldl_update_ok blocks (Poly1305_64_init st0 K) acc_ok_zero (clamp_limbs_spec K).1

/-- C9 (as amended): for every state reached from `Poly1305_64_init` by zero or more
`Poly1305_64_update_block` calls, `Poly1305_64_update_last` with length 0 followed by
`Poly1305_64_finish` writes the little-endian 16 bytes of
`((val(Acc) mod (2^130 - 5)) + S) mod 2^128`, where `Acc` is the accumulator before
`update_last` and `S` the 128-bit word at the pad pointer; the reduction is the work of
`update_last`, `finish` only packs and adds. -/
theorem finish_after_update_last (st0 : poly1305_state) (K : List Byte)
    (blocks : List (List Byte)) (m pad : List Byte) :
    Poly1305_64_finish (Poly1305_64_update_last (after_blocks st0 K blocks) m 0) pad
      = store128_le ((val (after_blocks st0 K blocks).h % prime + load128_le pad) % 2 ^ 128) := by
  obtain ⟨ha, hr⟩ := after_blocks_ok st0 K blocks
  obtain ⟨_, f1, f2, f3, f4⟩ := finalize_spec (after_blocks st0 K blocks) m 0 ha hr
    (by decide) (Nat.zero_le _)
  rw [finish_eq, pack_and_add_spec _ _ f1 f2 f3, f4]
  simp only [last_value, if_true]

/-- C9 counterexample: after `init` with the key `03 00 .. 00` and one `update_block` on
the block `55 .. 55` the accumulator limbs hold `2^130 - 1`; `finish` with pad 0 writes
`ff .. ff`, not the bytes `04 00 .. 00` of `(2^130 - 1) mod (2^130 - 5)`. -/
theorem finish_does_not_reduce :
    Poly1305_64_finish
        (after_blocks zero_state (small_key 3) [List.replicate 16 0x55]) (List.replicate 16 0)
      ≠ store128_le ((val (after_blocks zero_state (small_key 3) [List.replicate 16 0x55]).h
          % prime + load128_le (List.replicate 16 0)) % 2 ^ 128) := by
  decide

/-- C10 (as amended): `Poly1305_64_finish` adds the 128-bit word held by the first 16 bytes
of its key argument: two arguments that agree on their first 16 bytes give the same tag,
and on limbs `a0, a1 < 2^44`, `a2 < 2^42` the tag is the little-endian 16 bytes of
`(val(Acc) + int_le(k1[0..16])) mod 2^128`; the pad `int_le(K[16..32])` of a 32-byte key is
added when the pointer `K + 16` is the argument, as `crypto_onetimeauth_` does. -/
theorem finish_adds_first_16_bytes (st : poly1305_state) (k1 K : List Byte) :
    (∀ k2 : List Byte, k2.take 16 = k1.take 16 →
        Poly1305_64_finish st k2 = Poly1305_64_finish st k1) ∧
      (st.h.a0 < 2 ^ 44 ∧ st.h.a1 < 2 ^ 44 ∧ st.h.a2 < 2 ^ 42 →
        Poly1305_64_finish st k1
            = store128_le ((val st.h + int_le (k1.take 16)) % 2 ^ 128) ∧
          Poly1305_64_finish st (K.drop 16)
            = store128_le ((val st.h + int_le ((K.drop 16).take 16)) % 2 ^ 128)) := by
  constructor
  · intro k2 h
    simp only [Poly1305_64_finish, load128_le, h]
  · rintro ⟨h0, h1, h2⟩
    exact ⟨by rw [finish_eq, pack_and_add_spec _ _ h0 h1 h2]; rfl,
      by rw [finish_eq, pack_and_add_spec _ _ h0 h1 h2]; rfl⟩

theorem finish_adds_first_16_bytes_witness :
    (∀ k2 : List Byte, k2.take 16 = (rfc_key.drop 16).take 16 →
        Poly1305_64_finish (Poly1305_64_init zero_state rfc_key) k2
          = Poly1305_64_finish (Poly1305_64_init zero_state rfc_key) (rfc_key.drop 16)) ∧
      ((Poly1305_64_init zero_state rfc_key).h.a0 < 2 ^ 44 ∧
          (Poly1305_64_init zero_state rfc_key).h.a1 < 2 ^ 44 ∧
          (Poly1305_64_init zero_state rfc_key).h.a2 < 2 ^ 42) ∧
      Poly1305_64_finish (Poly1305_64_init zero_state rfc_key) (rfc_key.drop 16)
        = store128_le ((val (Poly1305_64_init zero_state rfc_key).h
            + int_le ((rfc_key.drop 16).take 16)) % 2 ^ 128) :=
  ⟨(finish_adds_first_16_bytes (Poly1305_64_init zero_state rfc_key) (rfc_key.drop 16)
      rfc_key).1,
    by decide,
    ((finish_adds_first_16_bytes (Poly1305_64_init zero_state rfc_key) (rfc_key.drop 16)
      rfc_key).2 (by decide)).1⟩

/-- C10 counterexample: with the 32-byte key `01 00 .. 00` as the key argument of
`Poly1305_64_finish` on the state that `init` leaves, the tag is `01 00 .. 00`, the first 16
bytes of the key, and not the bytes of `val(Acc) + int_le(K[16..32]) = 0`. -/
theorem finish_reads_key_prefix :
    Poly1305_64_finish (Poly1305_64_init zero_state (small_key 1)) (small_key 1)
      ≠ store128_le ((val (Poly1305_64_init zero_state (small_key 1)).h
          + rfc_s (small_key 1)) % 2 ^ 128) := by
  decide

end Poly1305_64

namespace aes_bslice8

theorem xor_loop_get (out inp kb : List Byte) (base : Nat) : ∀ (n idx : Nat),
    (xor_loop out inp kb base n)[idx]?
      = if base ≤ idx ∧ idx < base + n then
          (out[idx]?).map fun _ => (inp.getD idx 0).xor (kb.getD (idx - base) 0)
        else out[idx]?
  | 0, idx => by
    have : ¬ (base ≤ idx ∧ idx < base + 0) := by omega
    simp only [xor_loop, this, if_false]
  | n + 1, idx => by
    rw [xor_loop, List.getElem?_set', xor_loop_get out inp kb base n idx]
    by_cases h1 : base + n = idx
    · subst h1
      have a1 : ¬ (base ≤ base + n ∧ base + n < base + n) := by omega
      have a2 : base ≤ base + n ∧ base + n < base + (n + 1) := by omega
      rw [if_pos rfl, if_neg a1, if_pos a2, Nat.add_sub_cancel_left]
      rfl
    · by_cases h2 : base ≤ idx ∧ idx < base + n
      · have a2 : base ≤ idx ∧ idx < base + (n + 1) := by omega
        simp only [h1, h2, a2, if_true, if_false, and_self]
      · have a2 : ¬ (base ≤ idx ∧ idx < base + (n + 1)) := by omega
        simp only [h1, h2, a2, if_false]

theorem ctr_loop_with_state
    (blk : List Nat → List Nat → List Nat → Nat → List Byte × List Nat)
    (t kex nt : List Nat) (c : Nat) (out inp : List Byte) :
    ∀ n : Nat, (ctr_loop_with blk t kex nt c out inp n).2 = call_state blk t kex nt c n
  | 0 => rfl
  | n + 1 => by
    simp only [ctr_loop_with, call_state, ctr_loop_with_state blk t kex nt c out inp n]

theorem ctr_loop_with_get
    (blk : List Nat → List Nat → List Nat → Nat → List Byte × List Nat)
    (t kex nt : List Nat) (c : Nat) (out inp : List Byte) :
    ∀ (n idx : Nat),
    (ctr_loop_with blk t kex nt c out inp n).1[idx]?
      = if idx < 64 * n then
          (out[idx]?).map fun _ => (inp.getD idx 0).xor
            ((keystream_group blk t kex nt c (idx / 64)).getD (idx % 64) 0)
        else out[idx]?
  | 0, idx => by
    simp [ctr_loop_with]
  | n + 1, idx => by
    simp only [ctr_loop_with]
    rw [xor_loop_get, ctr_loop_with_get blk t kex nt c out inp n idx, ctr_loop_with_state]
    by_cases h1 : 64 * n ≤ idx ∧ idx < 64 * n + 64
    · have a1 : ¬ idx < 64 * n := by omega
      have a2 : idx < 64 * (n + 1) := by omega
      have a3 : idx / 64 = n := by omega
      have a4 : idx - 64 * n = idx % 64 := by omega
      simp only [h1, a1, a2, a3, a4, if_true, if_false, and_self, keystream_group]
    · by_cases h2 : idx < 64 * n
      · have a2 : idx < 64 * (n + 1) := by omega
        simp only [h1, h2, a2, if_true, if_false]
      · have a2 : ¬ idx < 64 * (n + 1) := by omega
        simp only [h1, h2, a2, if_false]

theorem aes128_ctr_with_get
    (blk : List Nat → List Nat → List Nat → Nat → List Byte × List Nat)
    (t : List Nat) (out inp : List Byte) (in_len : Nat) (k n : List Byte) (c idx : Nat) :
    (aes128_ctr_with blk t out inp in_len k n c).1[idx]?
      = if idx < in_len then
          (out[idx]?).map fun _ => (inp.getD idx 0).xor
            ((keystream_group blk t (key_expansion (List.replicate (8 * 11) 0) k)
              (to_transpose_block_copy (n.take 12 ++ List.replicate 4 (0 : Byte))) c
              (idx / 64)).getD (idx % 64) 0)
        else out[idx]? := by
  unfold aes128_ctr_with
  simp only
  by_cases hr : in_len % 64 > 0
  · rw [if_pos hr]
    simp only
    rw [xor_loop_get, ctr_loop_with_get, ctr_loop_with_state]
    by_cases h1 : 64 * (in_len / 64) ≤ idx ∧ idx < 64 * (in_len / 64) + in_len % 64
    · have a1 : idx < in_len := by omega
      have a2 : ¬ idx < 64 * (in_len / 64) := by omega
      have a3 : idx / 64 = in_len / 64 := by omega
      have a4 : idx - 64 * (in_len / 64) = idx % 64 := by omega
      simp only [h1, a1, a2, a3, a4, if_true, if_false, and_self, keystream_group]
    · by_cases h2 : idx < 64 * (in_len / 64)
      · have a1 : idx < in_len := by omega
        simp only [h1, h2, a1, if_true, if_false]
      · have a1 : ¬ idx < in_len := by omega
        simp only [h1, h2, a1, if_false]
  · rw [if_neg hr, ctr_loop_with_get]
    have e : 64 * (in_len / 64) = in_len := by omega
    rw [e]

theorem aes128_ctr_with_state
    (blk : List Nat → List Nat → List Nat → Nat → List Byte × List Nat)
    (t : List Nat) (out inp : List Byte) (in_len : Nat) (k n : List Byte) (c : Nat) :
    (aes128_ctr_with blk t out inp in_len k n c).2
      = call_state blk t (key_expansion (List.replicate (8 * 11) 0) k)
          (to_transpose_block_copy (n.take 12 ++ List.replicate 4 (0 : Byte))) c
          ((in_len + 63) / 64) := by
  unfold aes128_ctr_with
  simp only
  by_cases hr : in_len % 64 > 0
  · rw [if_pos hr]
    simp only
    rw [ctr_loop_with_state, show (in_len + 63) / 64 = in_len / 64 + 1 by omega, call_state]
  · rw [if_neg hr, ctr_loop_with_state, show (in_len + 63) / 64 = in_len / 64 by omega]

theorem aes128_ctr_with_length
    (blk : List Nat → List Nat → List Nat → Nat → List Byte × List Nat)
    (t : List Nat) (out inp : List Byte) (in_len : Nat) (k n : List Byte) (c : Nat) :
    (aes128_ctr_with blk t out inp in_len k n c).1.length = out.length := by
  have h : ∀ idx : Nat,
      (aes128_ctr_with blk t out inp in_len k n c).1[idx]? = none ↔ out[idx]? = none := by
    intro idx
    rw [aes128_ctr_with_get]
    split_ifs <;> simp
  simp only [List.getElem?_eq_none_iff] at h
  have h1 := (h out.length).2 (Nat.le_refl _)
  have h2 := (h (aes128_ctr_with blk t out inp in_len k n c).1.length).1 (Nat.le_refl _)
  omega

theorem some_getD {l : List Byte} {i : Nat} (h : i < l.length) : l[i]? = some (l.getD i 0) := by
  rw [List.getD_eq_getElem?_getD, List.getElem?_eq_getElem h]
  rfl

set_option maxRecDepth 100000 in
theorem encode_drops_upper_half :
    to_transpose_block_copy fips_block = to_transpose_block_copy fips_block_alt := by
  decide

set_option maxRecDepth 100000 in
theorem fips_vector : fips197.aes128_encrypt_block fips_key fips_block = fips_cipher := by
  decide

set_option maxRecDepth 100000 in
theorem fips_vector_alt :
    fips197.aes128_encrypt_block fips_key fips_block_alt ≠ fips_cipher := by
  decide

set_option maxRecDepth 100000 in
theorem reference_keystreams_differ :
    fips197.ctr_reference fips_key zero_nonce 0 zero_block
      ≠ fips197.ctr_reference fips_key_alt zero_nonce 0 zero_block := by
  decide

theorem from_transpose_const (t a b : List Nat) : from_transpose t a = from_transpose t b :=
  rfl

theorem block_cipher_const (t st key st' key' : List Nat) :
    (block_cipher t st key).out = (block_cipher t st' key').out ∧
      (block_cipher t st key).t = (block_cipher t st' key').t := by
  unfold block_cipher
  exact ⟨congrArg Prod.fst (from_transpose_const t _ _),
    congrArg Prod.snd (from_transpose_const t _ _)⟩

theorem aes128_block_const (t kex nt : List Nat) (c : Nat) :
    aes128_block t kex nt c = from_transpose t [] := by
  unfold aes128_block block_cipher
  simp only
  rw [from_transpose_const t _ []]

theorem ctr_loop_const (t kex nt kex' nt' : List Nat) (c c' : Nat) (out inp : List Byte) :
    ∀ n : Nat, ctr_loop_with aes128_block t kex nt c out inp n
      = ctr_loop_with aes128_block t kex' nt' c' out inp n
  | 0 => rfl
  | n + 1 => by
    simp only [ctr_loop_with, aes128_block_const, ctr_loop_const t kex nt kex' nt' c c' out inp n]

theorem aes128_ctr_const (t : List Nat) (out inp K N K' N' : List Byte) (n c c' : Nat) :
    aes128_ctr t out inp n K N c = aes128_ctr t out inp n K' N' c' := by
  simp only [aes128_ctr, aes128_ctr_with, aes128_block_const]
  rw [ctr_loop_const t _ _ (key_expansion (List.replicate (8 * 11) 0) K')
    (to_transpose_block_copy (N'.take 12 ++ List.replicate 4 (0 : Byte))) c c']

set_option maxRecDepth 100000 in
theorem transposed_key_drops_upper_half :
    transpose128 (load128_le fips_key) = transpose128 (load128_le fips_key_alt) := by
  decide

theorem key_expansion_drops_upper_half (out : List Nat) :
    key_expansion out fips_key = key_expansion out fips_key_alt := by
  simp only [key_expansion, transposed_key_drops_upper_half]

/-- C2 (evaluation of the code at the failing input): the key schedule of the code is the
same for the FIPS-197 key and for that key with its last byte set to 0 (`transpose128`
returns only 64 bits), whatever the array held before, and `from_transpose` builds the
keystream without reading the cipher state, so `aes128_ctr` gives the same output, and
leaves the same values in `t0 .. t7`, under every key, nonce and counter, whatever values
`t` the variables read by `from_transpose` hold on entry; the reference keystreams of the
two keys differ, so for 16 zero bytes, the zero nonce and counter 0 the code misses
`in XOR AES-128-Encrypt(key, nonce || BE32(c))` under at least one of the two keys; with
the eight variables zero on entry the output is the input. -/
theorem ctr_keystream_misses_aes (t : List Nat) :
    (∀ out : List Nat, key_expansion out fips_key = key_expansion out fips_key_alt) ∧
      (∀ (out inp K N K' N' : List Byte) (n c c' : Nat),
        aes128_ctr t out inp n K N c = aes128_ctr t out inp n K' N' c') ∧
      ¬ ((aes128_ctr t zero_block zero_block 16 fips_key zero_nonce 0).1
            = fips197.ctr_reference fips_key zero_nonce 0 zero_block ∧
          (aes128_ctr t zero_block zero_block 16 fips_key_alt zero_nonce 0).1
            = fips197.ctr_reference fips_key_alt zero_nonce 0 zero_block) ∧
      (aes128_ctr (List.replicate 8 0) zero_block fips_block 16 fips_key zero_nonce 0).1
        = fips_block := by
  refine ⟨key_expansion_drops_upper_half, aes128_ctr_const t, ?_, ?_⟩
  · rintro ⟨h1, h2⟩
    rw [aes128_ctr_const t _ _ fips_key zero_nonce fips_key_alt zero_nonce 16 0 0] at h1
    exact reference_keystreams_differ (h1.symm.trans h2)
  · simp only [aes128_ctr, aes128_ctr_with, aes128_block_const]
    decide

/-- C3 (evaluation of the code at the failing input): `to_transpose_block_copy` gives the
same state for the FIPS-197 plaintext and for that plaintext with its last byte set to 0
(`transpose128` returns only 64 bits), and `from_transpose` does not read the state, so
`block_cipher` writes the same 64 bytes for every state and key schedule, whatever values
`t` the variables read by `from_transpose` hold; AES-128 maps the first block to
`69c4e0d86a7b0430d8cdb78070b4c55a` and the second one to something else, so, however a
16-byte block is picked out of the output, the code misses AES-128 on at least one of the
two; with the eight variables zero on entry the output is 64 zero bytes. -/
theorem block_cipher_misses_aes (t : List Nat) (pick : List Byte → List Byte) :
    to_transpose_block_copy fips_block = to_transpose_block_copy fips_block_alt ∧
      (∀ st key st' key' : List Nat,
        (block_cipher t st key).out = (block_cipher t st' key').out) ∧
      fips197.aes128_encrypt_block fips_key fips_block = fips_cipher ∧
      ¬ (pick (block_cipher t (to_transpose_block_copy fips_block)
              (key_expansion (List.replicate (8 * 11) 0) fips_key)).out
            = fips197.aes128_encrypt_block fips_key fips_block ∧
          pick (block_cipher t (to_transpose_block_copy fips_block_alt)
              (key_expansion (List.replicate (8 * 11) 0) fips_key)).out
            = fips197.aes128_encrypt_block fips_key fips_block_alt) ∧
      (block_cipher (List.replicate 8 0) (to_transpose_block_copy fips_block)
          (key_expansion (List.replicate (8 * 11) 0) fips_key)).out = List.replicate 64 0 := by
  refine ⟨encode_drops_upper_half, fun st key st' key' => (block_cipher_const t st key st' key').1,
    fips_vector, ?_, ?_⟩
  · rintro ⟨h1, h2⟩
    rw [encode_drops_upper_half] at h1
    exact fips_vector_alt ((h2.symm.trans h1).trans fips_vector)
  · rw [(block_cipher_const _ _ _ [] []).1]
    decide

/-- C4 (evaluation of the code at the failing input): `aes128_encrypt` and `aes128_decrypt`
are the same function, but `from_transpose` assigns the variables `t0 .. t7` from which it
builds the keystream, so the call that decrypts starts from other values than the call that
encrypted.  With `t0 .. t7 = 3` on entry, the FIPS-197 key, the zero nonce and counter 0,
the block `00112233445566778899aabbccddeeff` is encrypted to `0f1e2233 ..` (keystream
`0f0f0000 ..`), and decrypting that with the same key, nonce and counter gives
`0e1f2332445566778998abbaccddeeff` (keystream `01010101 ..`), not the block. -/
theorem ctr_round_trip_fails :
    (∀ (t : List Nat) (out inp : List Byte) (n : Nat) (K N : List Byte) (c : Nat),
        aes128_encrypt t out inp n K N c = aes128_decrypt t out inp n K N c) ∧
      (aes128_encrypt (List.replicate 8 3) zero_block fips_block 16 fips_key zero_nonce 0).1
        = [0x0f, 0x1e, 0x22, 0x33, 0x44, 0x55, 0x66, 0x77,
            0x88, 0x99, 0xaa, 0xbb, 0xcc, 0xdd, 0xee, 0xff] ∧
      (aes128_decrypt
          (aes128_encrypt (List.replicate 8 3) zero_block fips_block 16 fips_key zero_nonce 0).2
          zero_block
          (aes128_encrypt (List.replicate 8 3) zero_block fips_block 16 fips_key zero_nonce 0).1
          16 fips_key zero_nonce 0).1
        = [0x0e, 0x1f, 0x23, 0x32, 0x44, 0x55, 0x66, 0x77,
            0x89, 0x98, 0xab, 0xba, 0xcc, 0xdd, 0xee, 0xff] ∧
      (aes128_decrypt
          (aes128_encrypt (List.replicate 8 3) zero_block fips_block 16 fips_key zero_nonce 0).2
          zero_block
          (aes128_encrypt (List.replicate 8 3) zero_block fips_block 16 fips_key zero_nonce 0).1
          16 fips_key zero_nonce 0).1
        ≠ fips_block := by
  refine ⟨fun _ _ _ _ _ _ _ => rfl, ?_, ?_, ?_⟩ <;>
  · simp only [aes128_encrypt, aes128_decrypt, aes128_ctr, aes128_ctr_with, aes128_block_const]
    decide

end aes_bslice8

theorem bytes_le_int_le : ∀ l : List Byte, bytes_le l.length (int_le l) = l
  | [] => rfl
  | b :: bs => by
    have hb := b.isLt
    have h1 : (b.val + 256 * int_le bs) % 256 = b.val := by omega
    have h2 : (b.val + 256 * int_le bs) / 256 = int_le bs := by omega
    simp only [List.length_cons, int_le, bytes_le, Byte.ofNat, h1, h2, bytes_le_int_le bs]

theorem store_load_128 (S : List Byte) (hS : S.length = 16) :
    store128_le ((0 + load128_le S) % 2 ^ 128) = S := by
  have h := load128_le_lt S
  rw [Nat.zero_add, Nat.mod_eq_of_lt h, int_le_take_of_length (by omega)]
  unfold store128_le
  rw [← hS]
  exact bytes_le_int_le S

namespace Poly1305_64

theorem val_zero : val (Arr3.mk 0 0 0) = 0 := by simp [val]

/-- C11: for every key `K`, `Poly1305_64_init` followed at once by `Poly1305_64_finish` with
a 16-byte pad `S` writes `S` byte for byte. -/
theorem init_then_finish (st0 : poly1305_state) (K S : List Byte) (hS : S.length = 16) :
    Poly1305_64_finish (Poly1305_64_init st0 K) S = S := by
  rw [finish_eq, init_eq,
    pack_and_add_spec _ _ (by simp : (0 : Nat) < 2 ^ 44) (by simp : (0 : Nat) < 2 ^ 44)
      (by simp : (0 : Nat) < 2 ^ 42), val_zero]
  exact store_load_128 S hS

theorem init_then_finish_witness :
    (rfc_key.drop 16).length = 16 ∧
      Poly1305_64_finish (Poly1305_64_init zero_state rfc_key) (rfc_key.drop 16)
        = rfc_key.drop 16 :=
  ⟨by decide, init_then_finish zero_state rfc_key (rfc_key.drop 16) (by decide)⟩

/-- C12: for every 32-byte key `K`, `Poly1305_64_crypto_onetimeauth` with `len = 0` writes
the last 16 bytes of the key, whatever the input pointer holds. -/
theorem onetimeauth_empty (K input : List Byte) (hK : K.length = 32) :
    Poly1305_64_crypto_onetimeauth input 0 K = K.drop 16 := by
  rw [onetimeauth_eq, complete_eq]
  have hr := (clamp_limbs_spec K).1
  obtain ⟨_, f1, f2, f3, f4⟩ := finalize_spec
    (Hacl_Standalone_Poly1305_64_poly1305_blocks
      (poly1305_state.mk (clamp_limbs K) (Arr3.mk 0 0 0)) input (0 / 16))
    (input.drop ((16 * (0 / 16)) % 2 ^ 32)) (0 % 16) acc_ok_zero hr (by decide)
    (Nat.zero_le _)
  rw [pack_and_add_spec _ _ f1 f2 f3, f4]
  have hv : last_value (val (clamp_limbs K)) (val (Arr3.mk 0 0 0))
      (input.drop ((16 * (0 / 16)) % 2 ^ 32)) (0 % 16) % prime = 0 := by
    simp [last_value, val]
  simp only [Nat.zero_div, Hacl_Standalone_Poly1305_64_poly1305_blocks] at hv ⊢
  rw [hv]
  exact store_load_128 (K.drop 16) (by rw [List.length_drop]; omega)

theorem onetimeauth_empty_witness :
    rfc_key.length = 32 ∧ Poly1305_64_crypto_onetimeauth [] 0 rfc_key = rfc_key.drop 16 :=
  ⟨by decide, onetimeauth_empty rfc_key [] (by decide)⟩

theorem limbs_eq_of_val_eq {a b : Arr3} (a0 : a.a0 < 2 ^ 44) (a1 : a.a1 < 2 ^ 44)
    (b0 : b.a0 < 2 ^ 44) (b1 : b.a1 < 2 ^ 44) (h : val a = val b) : a = b := by
  obtain ⟨x0, x1, x2⟩ := a
  obtain ⟨y0, y1, y2⟩ := b
  simp only [val] at *
  simp only [Arr3.mk.injEq]
  refine ⟨?_, ?_, ?_⟩ <;> omega

/-- C13 (as amended): for every state reached from `Poly1305_64_init` by zero or more
`Poly1305_64_update_block` calls, `Poly1305_64_update_last` with length 0 leaves the
multiplier unchanged and replaces the accumulator limbs by the canonical limbs of
`val(Acc) mod (2^130 - 5)` (`a0, a1 < 2^44`, `a2 < 2^42`): the value of the accumulator
modulo `2^130 - 5` is unchanged, and the three limbs are unchanged when they already are
canonical (`a0, a1 < 2^44` and `val(Acc) < 2^130 - 5`), as they are right after `init`. -/
theorem update_last_zero (st0 : poly1305_state) (K : List Byte) (blocks : List (List Byte))
    (m : List Byte) :
    (Poly1305_64_update_last (after_blocks st0 K blocks) m 0).r = (after_blocks st0 K blocks).r ∧
      val (Poly1305_64_update_last (after_blocks st0 K blocks) m 0).h
        = val (after_blocks st0 K blocks).h % prime ∧
      (Poly1305_64_update_last (after_blocks st0 K blocks) m 0).h.a0 < 2 ^ 44 ∧
      (Poly1305_64_update_last (after_blocks st0 K blocks) m 0).h.a1 < 2 ^ 44 ∧
      (Poly1305_64_update_last (after_blocks st0 K blocks) m 0).h.a2 < 2 ^ 42 ∧
      ((after_blocks st0 K blocks).h.a0 < 2 ^ 44 ∧ (after_blocks st0 K blocks).h.a1 < 2 ^ 44 ∧
          val (after_blocks st0 K blocks).h < prime →
        Poly1305_64_update_last (after_blocks st0 K blocks) m 0 = after_blocks st0 K blocks) ∧
      Poly1305_64_update_last (Poly1305_64_init st0 K) m 0 = Poly1305_64_init st0 K := by
  obtain ⟨ha, hr⟩ := after_blocks_ok st0 K blocks
  obtain ⟨f0, f1, f2, f3, f4⟩ := finalize_spec (after_blocks st0 K blocks) m 0 ha hr
    (by decide) (Nat.zero_le _)
  have f4' : val (Poly1305_64_update_last (after_blocks st0 K blocks) m 0).h
      = val (after_blocks st0 K blocks).h % prime := by
    rw [f4]
    simp only [last_value, if_true]
  refine ⟨f0, f4', f1, f2, f3, ?_, ?_⟩
  · rintro ⟨c0, c1, c2⟩
    have hv := f4'
    rw [Nat.mod_eq_of_lt c2] at hv
    have hh := limbs_eq_of_val_eq f1 f2 c0 c1 hv
    have e : ∀ s t : poly1305_state, s.r = t.r → s.h = t.h → s = t := by
      rintro ⟨sr, sh⟩ ⟨tr, th⟩ h1 h2
      simp only at h1 h2
      rw [h1, h2]
    exact e _ _ f0 hh
  · obtain ⟨g0, g1, g2, g3, g4⟩ := finalize_spec (Poly1305_64_init st0 K) m 0
      (by rw [init_eq]; exact acc_ok_zero) (by rw [init_eq]; exact (clamp_limbs_spec K).1)
      (by decide) (Nat.zero_le _)
    have hz : val (Poly1305_64_init st0 K).h = 0 := by rw [init_eq]; exact val_zero
    have hv : val (Poly1305_64_update_last (Poly1305_64_init st0 K) m 0).h
        = val (Poly1305_64_init st0 K).h := by
      rw [g4, hz]
      simp [last_value]
    have hh := limbs_eq_of_val_eq g1 g2 (b := (Poly1305_64_init st0 K).h)
      (by rw [init_eq]; simp) (by rw [init_eq]; simp) hv
    have e : ∀ s t : poly1305_state, s.r = t.r → s.h = t.h → s = t := by
      rintro ⟨sr, sh⟩ ⟨tr, th⟩ h1 h2
      simp only at h1 h2
      rw [h1, h2]
    exact e _ _ g0 hh

/-- C13 counterexample: after `init` with the key `03 00 .. 00` and one `update_block` on
the block `55 .. 55` the accumulator limbs are `(2^44-1, 2^44-1, 2^42-1)`;
`Poly1305_64_update_last` with length 0 changes them to `(4, 0, 0)`. -/
theorem update_last_zero_changes_limbs :
    (Poly1305_64_update_last
        (after_blocks zero_state (small_key 3) [List.replicate 16 0x55]) [] 0).h
      ≠ (after_blocks zero_state (small_key 3) [List.replicate 16 0x55]).h ∧
    (after_blocks zero_state (small_key 3) [List.replicate 16 0x55]).h
      = Arr3.mk (2 ^ 44 - 1) (2 ^ 44 - 1) (2 ^ 42 - 1) ∧
    (Poly1305_64_update_last
        (after_blocks zero_state (small_key 3) [List.replicate 16 0x55]) [] 0).h
      = Arr3.mk 4 0 0 := by
  decide

/-- C14: for every key `K` and every finite sequence of blocks, after `Poly1305_64_init`
followed by one `Poly1305_64_update_block` per block the accumulator limbs satisfy
`a0 < 2^45`, `a1 < 2^45` and `a2 < 2^43`; the bound is an invariant of the update step for
a multiplier with clamped limbs (`r0, r1 < 2^44`, `r2 < 2^42`), which the multiplier stays. -/
theorem carry_closure (st0 : poly1305_state) (K : List Byte) (blocks : List (List Byte)) :
    ((after_blocks st0 K blocks).h.a0 < 2 ^ 45 ∧ (after_blocks st0 K blocks).h.a1 < 2 ^ 45 ∧
        (after_blocks st0 K blocks).h.a2 < 2 ^ 43) ∧
      (after_blocks st0 K blocks).r = (Poly1305_64_init st0 K).r ∧
      ∀ (st : poly1305_state) (m : List Byte),
        st.h.a0 < 2 ^ 45 ∧ st.h.a1 < 2 ^ 45 ∧ st.h.a2 < 2 ^ 43 →
        st.r.a0 < 2 ^ 44 ∧ st.r.a1 < 2 ^ 44 ∧ st.r.a2 < 2 ^ 42 →
        (Poly1305_64_update_block st m).h.a0 < 2 ^ 45 ∧
          (Poly1305_64_update_block st m).h.a1 < 2 ^ 45 ∧
          (Poly1305_64_update_block st m).h.a2 < 2 ^ 43 ∧
          (Poly1305_64_update_block st m).r = st.r := by
  refine ⟨(after_blocks_ok st0 K blocks).1, ?_, ?_⟩
  · have h : ∀ (bs : List (List Byte)) (st : poly1305_state),
        (bs.foldl Poly1305_64_update_block st).r = st.r := by
      intro bs
      induction bs with
      | nil => intro st; rfl
      | cons b bs ih =>
        intro st
        rw [List.foldl_cons, ih]
        rfl
    exact h blocks _
  · intro st m ha hr
    obtain ⟨u0, u1, u2, u3, _⟩ := update_spec st m ha hr
    have hok := acc_ok_of_bounds u1 u2 u3
    exact ⟨hok.1, hok.2.1, hok.2.2, u0⟩

end Poly1305_64
namespace aes_bslice8

/-- C15: `aes128_ctr` writes exactly `in_len` bytes: the buffer keeps its length, every
byte of `out` at an index `>= in_len` keeps its value, every byte of `out` at an index
`< in_len` becomes input byte XOR keystream byte, where the keystream bytes of group
`idx / 64` come from call number `idx / 64` of `aes128_block` (the last group may have fewer
than 64 bytes; `from_transpose` assigns `t0 .. t7`, so every call starts from the values
that the call before it left), and with `in_len = 0` the buffer is unchanged. -/
theorem ctr_writes_in_len_bytes (t : List Nat) (out inp : List Byte) (in_len : Nat)
    (k n : List Byte) (c : Nat) :
    (aes128_ctr t out inp in_len k n c).1.length = out.length ∧
      (∀ idx : Nat, in_len ≤ idx →
        (aes128_ctr t out inp in_len k n c).1[idx]? = out[idx]?) ∧
      (∀ idx : Nat, idx < in_len → idx < out.length →
        (aes128_ctr t out inp in_len k n c).1[idx]?
          = some ((inp.getD idx 0).xor
              ((keystream_group aes128_block t (key_expansion (List.replicate (8 * 11) 0) k)
                (to_transpose_block_copy (n.take 12 ++ List.replicate 4 (0 : Byte))) c
                (idx / 64)).getD (idx % 64) 0))) ∧
      (aes128_ctr t out inp 0 k n c).1 = out := by
  unfold aes128_ctr
  refine ⟨aes128_ctr_with_length _ t out inp in_len k n c, ?_, ?_, ?_⟩
  · intro idx h
    rw [aes128_ctr_with_get, if_neg (by omega)]
  · intro idx h1 h2
    rw [aes128_ctr_with_get, if_pos h1, some_getD h2, Option.map_some']
  · apply List.ext_getElem?
    intro idx
    rw [aes128_ctr_with_get, if_neg (by omega)]

/-- C16 (evaluation of the code at the failing input): `to_transpose_block` gives the same
eight words for the block `00112233445566778899aabbccddeeff` and for that block with its
last byte set to 0 (`transpose128` returns only 64 bits, the words 4..7 are 0), and
`from_transpose` does not read its input, so it writes the same 64 bytes after both
encodings, whatever values `t` its undeclared variables hold and however 16 bytes are
picked out of the output: the round trip fails on at least one of the two blocks; with the
eight variables zero on entry the output is 64 zero bytes. -/
theorem round_trip_fails (t : List Nat) (pick : List Byte → List Byte) :
    to_transpose_block fips_block = to_transpose_block fips_block_alt ∧
      (∀ a b : List Nat, from_transpose t a = from_transpose t b) ∧
      ¬ (pick (from_transpose t (to_transpose_block fips_block)).1 = fips_block ∧
          pick (from_transpose t (to_transpose_block fips_block_alt)).1 = fips_block_alt) ∧
      (from_transpose (List.replicate 8 0) (to_transpose_block fips_block)).1
        = List.replicate 64 0 := by
  have henc : to_transpose_block fips_block = to_transpose_block fips_block_alt := by decide
  refine ⟨henc, from_transpose_const t, ?_, ?_⟩
  · rintro ⟨h1, h2⟩
    rw [henc] at h1
    have h3 : fips_block = fips_block_alt := h1.symm.trans h2
    exact absurd h3 (by decide)
  · rw [from_transpose_const _ _ []]
    decide

theorem testBit_not64 (x j : Nat) (h : j < 64) : (not64 x).testBit j = !x.testBit j := by
  unfold not64
  rw [Nat.testBit_mod_two_pow, Nat.testBit_xor,
    show (0xffffffffffffffff : Nat) = 2 ^ 64 - 1 by norm_num, Nat.testBit_two_pow_sub_one]
  simp [h]

set_option maxRecDepth 100000 in
theorem subBytes_bit (st : List Nat) (j : Nat) (hj : j < 64) :
    (subBytes st).map (fun w => w.testBit j)
      = subBytes_bits [(st.getD 0 0).testBit j, (st.getD 1 0).testBit j,
          (st.getD 2 0).testBit j, (st.getD 3 0).testBit j, (st.getD 4 0).testBit j,
          (st.getD 5 0).testBit j, (st.getD 6 0).testBit j, (st.getD 7 0).testBit j] := by
  simp only [subBytes, subBytes_bits, List.map_cons, List.map_nil, Nat.testBit_xor,
    Nat.testBit_and, testBit_not64 _ _ hj, List.getD_cons_zero, List.getD_cons_succ]

set_option maxRecDepth 1000000 in
theorem subBytes_bits_sbox : ∀ b0 b1 b2 b3 b4 b5 b6 b7 : Bool,
    byte_of_bits (subBytes_bits [b0, b1, b2, b3, b4, b5, b6, b7])
      = fips197.sbox (byte_of_bits [b0, b1, b2, b3, b4, b5, b6, b7]) := by
  decide

theorem bit_eq_toNat (x j : Nat) : bit x j = (x.testBit j).toNat := by
  rw [Nat.toNat_testBit, bit, Nat.shiftRight_eq_div_pow]

theorem getD_map_testBit (l : List Nat) (i j : Nat) (h : i < l.length) :
    (l.map fun w => w.testBit j).getD i false = (l.getD i 0).testBit j := by
  rw [List.getD_eq_getElem?_getD, List.getD_eq_getElem?_getD, List.getElem?_map,
    List.getElem?_eq_getElem h]
  rfl

theorem byte_at_eq (l : List Nat) (j : Nat) (h : l.length = 8) :
    byte_at l j = byte_of_bits (l.map fun w => w.testBit j) := by
  unfold byte_at byte_of_bits
  simp only [bit_eq_toNat, getD_map_testBit l _ j (by omega : 0 < l.length),
    getD_map_testBit l _ j (by omega : 1 < l.length),
    getD_map_testBit l _ j (by omega : 2 < l.length),
    getD_map_testBit l _ j (by omega : 3 < l.length),
    getD_map_testBit l _ j (by omega : 4 < l.length),
    getD_map_testBit l _ j (by omega : 5 < l.length),
    getD_map_testBit l _ j (by omega : 6 < l.length),
    getD_map_testBit l _ j (by omega : 7 < l.length)]

theorem byte_at_eq_bits (st : List Nat) (j : Nat) :
    byte_at st j = byte_of_bits [(st.getD 0 0).testBit j, (st.getD 1 0).testBit j,
          (st.getD 2 0).testBit j, (st.getD 3 0).testBit j, (st.getD 4 0).testBit j,
          (st.getD 5 0).testBit j, (st.getD 6 0).testBit j, (st.getD 7 0).testBit j] := by
  unfold byte_at byte_of_bits
  simp only [bit_eq_toNat, List.getD_cons_zero, List.getD_cons_succ]

theorem subBytes_length (st : List Nat) : (subBytes st).length = 8 := rfl

/-- C19: `subBytes` computes the AES S-box in every bit position: for every state `st` and
every bit position `j < 64`, the byte read in position `j` of `subBytes st` is the S-box
image of the byte read in position `j` of `st`. -/
theorem subBytes_is_sbox (st : List Nat) (j : Nat) (hj : j < 64) :
    byte_at (subBytes st) j = fips197.sbox (byte_at st j) := by
  rw [byte_at_eq (subBytes st) j (subBytes_length st), subBytes_bit st j hj,
    byte_at_eq_bits st j]
  exact subBytes_bits_sbox _ _ _ _ _ _ _ _

theorem testBit_and_of_true (x m j : Nat) (h : m.testBit j = true) :
    (x &&& m).testBit j = x.testBit j := by
  rw [Nat.testBit_and, h, Bool.and_true]

theorem testBit_and_of_false (x m j : Nat) (h : m.testBit j = false) :
    (x &&& m).testBit j = false := by
  rw [Nat.testBit_and, h, Bool.and_false]

theorem shiftRows_word_bit (x g c r : Nat) (hg : g < 4) (hc : c < 4) (hr : r < 4) :
    (shiftRows_word x).testBit (16 * g + 4 * c + r)
      = x.testBit (16 * g + 4 * ((c + r) % 4) + r) := by
  interval_cases g <;> interval_cases c <;> interval_cases r <;>
    simp (disch := decide) only [shiftRows_word, shl64, Nat.testBit_or, testBit_and_of_true,
      testBit_and_of_false, Nat.testBit_shiftRight, Nat.testBit_shiftLeft,
      Nat.testBit_mod_two_pow, Bool.or_false, Bool.false_or, Bool.and_true, Bool.true_and,
      Bool.and_false, Bool.false_and, Nat.reduceAdd, Nat.reduceMul, Nat.reduceMod,
      Nat.reduceSub, Nat.reduceLeDiff, Nat.reduceLT, ge_iff_le, decide_True, decide_False]

theorem getD_map_range8 (f : Nat → Nat) (i : Nat) (hi : i < 8) :
    ((List.range 8).map f).getD i 0 = f i := by
  interval_cases i <;> rfl

/-- C20: `shiftRows` rotates row `r` left by `r` columns in every plane and lane: for every
state `st`, plane `i < 8`, lane `g < 4`, column `c < 4` and row `r < 4`, bit
`16g + 4c + r` of word `i` of `shiftRows st` is bit `16g + 4*((c + r) mod 4) + r` of word
`i` of `st`; in particular row 0 is unchanged. -/
theorem shiftRows_rotates_rows (st : List Nat) (i g c r : Nat) (hi : i < 8) (hg : g < 4)
    (hc : c < 4) (hr : r < 4) :
    bit ((shiftRows st).getD i 0) (16 * g + 4 * c + r)
        = bit (st.getD i 0) (16 * g + 4 * ((c + r) % 4) + r) ∧
      bit ((shiftRows st).getD i 0) (16 * g + 4 * c + 0)
        = bit (st.getD i 0) (16 * g + 4 * c + 0) := by
  have h0 : (shiftRows_word (st.getD i 0)).testBit (16 * g + 4 * c + 0)
      = (st.getD i 0).testBit (16 * g + 4 * c + 0) := by
    have h := shiftRows_word_bit (st.getD i 0) g c 0 hg hc (by decide)
    rw [Nat.add_zero c, Nat.mod_eq_of_lt hc] at h
    exact h
  constructor
  · rw [bit_eq_toNat, bit_eq_toNat, shiftRows, getD_map_range8 _ i hi,
      shiftRows_word_bit _ g c r hg hc hr]
  · rw [bit_eq_toNat, bit_eq_toNat, shiftRows, getD_map_range8 _ i hi, h0]

theorem shiftRows_rotates_rows_witness :
    (5 < 8 ∧ 2 < 4 ∧ 3 < 4 ∧ 1 < 4) ∧
      bit ((shiftRows (to_transpose_block_copy fips_block)).getD 5 0) (16 * 2 + 4 * 3 + 1)
        = bit ((to_transpose_block_copy fips_block).getD 5 0) (16 * 2 + 4 * ((3 + 1) % 4) + 1) :=
  ⟨by decide,
    (shiftRows_rotates_rows (to_transpose_block_copy fips_block) 5 2 3 1 (by decide)
      (by decide) (by decide) (by decide)).1⟩

theorem subBytes_is_sbox_witness :
    37 < 64 ∧
      byte_at (subBytes [0x0123456789abcdef, 0xfedcba9876543210, 0x0f1e2d3c4b5a6978,
          0x1122334455667788, 0x99aabbccddeeff00, 0x13579bdf02468ace, 0xdeadbeefcafef00d,
          0x0badc0de0ddba11])
          37
        = fips197.sbox (byte_at [0x0123456789abcdef, 0xfedcba9876543210, 0x0f1e2d3c4b5a6978,
          0x1122334455667788, 0x99aabbccddeeff00, 0x13579bdf02468ace, 0xdeadbeefcafef00d,
          0x0badc0de0ddba11] 37) :=
  ⟨by decide, subBytes_is_sbox _ 37 (by decide)⟩

theorem key_expansion_word_bit (nx pv rc i g c r : Nat) (hg : g < 4) (hc : c < 4)
    (hr : r < 4) :
    (key_expansion_word nx pv rc i).testBit (16 * g + 4 * c + r)
      = ((nx.testBit (16 * g + 12 + (r + 1) % 4) ^^ (decide (r = 0) && rc.testBit i))
          ^^ prefix_xor_bit pv g r c) := by
  interval_cases g <;> interval_cases c <;> interval_cases r <;>
    simp (disch := decide) only [key_expansion_word, prefix_xor_bit, shl64, Nat.testBit_or,
      Nat.testBit_xor, testBit_and_of_true,
      testBit_and_of_false, Nat.testBit_shiftRight, Nat.testBit_shiftLeft,
      Nat.testBit_mod_two_pow, Bool.or_false, Bool.false_or, Bool.and_true, Bool.true_and,
      Bool.and_false, Bool.false_and, Nat.reduceAdd, Nat.reduceMul, Nat.reduceMod,
      Nat.reduceSub, Nat.reduceLeDiff, Nat.reduceLT, ge_iff_le, decide_True, decide_False,
      Bool.xor_false, Bool.false_xor, Nat.add_zero, Nat.reduceEqDiff, OfNat.ofNat_ne_zero,
      Nat.zero_add, Bool.xor_assoc]

theorem byte_of_bits_lt (l : List Bool) : byte_of_bits l < 256 := by
  unfold byte_of_bits
  have h : ∀ b : Bool, b.toNat ≤ 1 := fun b => by cases b <;> simp
  have h0 := h (l.getD 0 false)
  have h1 := h (l.getD 1 false)
  have h2 := h (l.getD 2 false)
  have h3 := h (l.getD 3 false)
  have h4 := h (l.getD 4 false)
  have h5 := h (l.getD 5 false)
  have h6 := h (l.getD 6 false)
  have h7 := h (l.getD 7 false)
  omega

theorem testBit_byte_of_bits8 : ∀ b0 b1 b2 b3 b4 b5 b6 b7 : Bool,
    (byte_of_bits [b0, b1, b2, b3, b4, b5, b6, b7]).testBit 0 = b0 ∧
    (byte_of_bits [b0, b1, b2, b3, b4, b5, b6, b7]).testBit 1 = b1 ∧
    (byte_of_bits [b0, b1, b2, b3, b4, b5, b6, b7]).testBit 2 = b2 ∧
    (byte_of_bits [b0, b1, b2, b3, b4, b5, b6, b7]).testBit 3 = b3 ∧
    (byte_of_bits [b0, b1, b2, b3, b4, b5, b6, b7]).testBit 4 = b4 ∧
    (byte_of_bits [b0, b1, b2, b3, b4, b5, b6, b7]).testBit 5 = b5 ∧
    (byte_of_bits [b0, b1, b2, b3, b4, b5, b6, b7]).testBit 6 = b6 ∧
    (byte_of_bits [b0, b1, b2, b3, b4, b5, b6, b7]).testBit 7 = b7 := by
  decide

theorem byte_of_bits_congr (l : List Bool) :
    byte_of_bits l = byte_of_bits [l.getD 0 false, l.getD 1 false, l.getD 2 false,
      l.getD 3 false, l.getD 4 false, l.getD 5 false, l.getD 6 false, l.getD 7 false] := rfl

theorem testBit_byte_of_bits (l : List Bool) (i : Nat) :
    (byte_of_bits l).testBit i = (decide (i < 8) && l.getD i false) := by
  by_cases hi : i < 8
  · rw [byte_of_bits_congr l]
    obtain ⟨t0, t1, t2, t3, t4, t5, t6, t7⟩ := testBit_byte_of_bits8 (l.getD 0 false)
      (l.getD 1 false) (l.getD 2 false) (l.getD 3 false) (l.getD 4 false) (l.getD 5 false)
      (l.getD 6 false) (l.getD 7 false)
    interval_cases i
    · rw [t0]; rfl
    · rw [t1]; rfl
    · rw [t2]; rfl
    · rw [t3]; rfl
    · rw [t4]; rfl
    · rw [t5]; rfl
    · rw [t6]; rfl
    · rw [t7]; rfl
  · have h1 : byte_of_bits l < 2 ^ i :=
      Nat.lt_of_lt_of_le (byte_of_bits_lt l)
        (by rw [show (256 : Nat) = 2 ^ 8 by norm_num]
            exact Nat.pow_le_pow_right (by decide) (by omega))
    rw [Nat.testBit_lt_two_pow h1]
    simp [hi]

theorem byte_eq_of_bits {x : Nat} {l : List Bool} (hx : x < 256)
    (h : ∀ i, i < 8 → x.testBit i = l.getD i false) : x = byte_of_bits l := by
  apply Nat.eq_of_testBit_eq
  intro i
  rw [testBit_byte_of_bits]
  by_cases hi : i < 8
  · rw [h i hi]; simp [hi]
  · have h1 : x < 2 ^ i :=
      Nat.lt_of_lt_of_le hx
        (by rw [show (256 : Nat) = 2 ^ 8 by norm_num]
            exact Nat.pow_le_pow_right (by decide) (by omega))
    rw [Nat.testBit_lt_two_pow h1]
    simp [hi]

theorem byte_of_bits_xor (a b : List Bool) :
    byte_of_bits a ^^^ byte_of_bits b
      = byte_of_bits ((List.range 8).map fun i => (a.getD i false ^^ b.getD i false)) := by
  apply byte_eq_of_bits
  · exact Nat.xor_lt_two_pow (n := 8) (byte_of_bits_lt a) (byte_of_bits_lt b)
  · intro i hi
    rw [Nat.testBit_xor, testBit_byte_of_bits, testBit_byte_of_bits]
    interval_cases i <;> rfl

theorem byte_at_lt (st : List Nat) (j : Nat) : byte_at st j < 256 := by
  rw [byte_at_eq_bits]
  exact byte_of_bits_lt _

theorem testBit_byte_at (st : List Nat) (j i : Nat) (hi : i < 8) :
    (byte_at st j).testBit i = (st.getD i 0).testBit j := by
  rw [byte_at_eq_bits, testBit_byte_of_bits]
  interval_cases i <;> rfl

theorem byte_at_subBytes (st : List Nat) (j : Nat) (hj : j < 64) :
    byte_at (subBytes st) j = fips197.sbox (byte_at st j) := by
  rw [byte_at_eq (subBytes st) j (subBytes_length st), subBytes_bit st j hj,
    byte_at_eq_bits st j]
  exact subBytes_bits_sbox _ _ _ _ _ _ _ _

theorem range16_eq :
    List.range 16 = [0, 1, 2, 3, 4, 5, 6, 7, 8, 9, 10, 11, 12, 13, 14, 15] := by decide

theorem decode_lane_getD (st : List Nat) (g k : Nat) (hk : k < 16) :
    (decode_lane st g).getD k 0 = byte_at st (16 * g + k) := by
  unfold decode_lane
  rw [range16_eq]
  interval_cases k <;> rfl

theorem decode_lane_length (st : List Nat) (g : Nat) : (decode_lane st g).length = 16 := by
  simp [decode_lane]

theorem some_getD_nat {l : List Nat} {i : Nat} (h : i < l.length) :
    l[i]? = some (l.getD i 0) := by
  rw [List.getD_eq_getElem?_getD, List.getElem?_eq_getElem h]
  rfl

theorem list16_ext {a b : List Nat} (ha : a.length = 16) (hb : b.length = 16)
    (h : ∀ k, k < 16 → a.getD k 0 = b.getD k 0) : a = b := by
  apply List.ext_getElem?
  intro k
  by_cases hk : k < 16
  · rw [some_getD_nat (by omega : k < a.length), some_getD_nat (by omega : k < b.length),
      h k hk]
  · rw [List.getElem?_eq_none (by omega), List.getElem?_eq_none (by omega)]

theorem getD_drop_nat (l : List Nat) (m i : Nat) : (l.drop m).getD i 0 = l.getD (m + i) 0 := by
  rw [List.getD_eq_getElem?_getD, List.getD_eq_getElem?_getD, List.getElem?_drop]

set_option maxRecDepth 1000000 in
/-- C17 (evaluation of the code at the failing input): for the FIPS-197 key and the array
`kex` zero on entry, as in `aes128_ctr`, `key_expansion` leaves in the words `0 .. 23` the
values listed: `to_transpose_block_copy` assigns eight 16-byte elements, the words
`0 .. 15`, and step 1 then works on the eight elements at word 8, of which `memcpy` fills
four (the words `8 .. 15`) from the words `0 .. 7`; every element assigned by `subBytes`
and by the loop has its high word 0.  Lane 0 of the words `8 .. 15` decodes to
`04515004 00545401 ..`, while the successor of the decoded words `0 .. 7` is
`62787b60 6e77776f ..`: round key 1 does not decode to the successor of the
decoded round key 0 under the AES-128 key schedule with `rcon[1] = 01`, neither when round
key `i` is read from the words `8i .. 8i + 7` nor when it is read from the eight elements at
word `8i`, as `rounds` reads it.  The result of `key_expansion_step` depends on what the
elements `4 .. 7` of `next` held before the call: with `prev` zero and `rcon = 01`, two
arrays that differ only in word 24 (element 4 of `next` at word 16) give different round
keys. -/
theorem key_expansion_misses_schedule :
    (key_expansion (List.replicate (8 * 11) 0) fips_key).length = 88 ∧
      (key_expansion (List.replicate (8 * 11) 0) fips_key).take 24
        = [0xccaaccaaccaaccaa, 0xccaaccaaccaaccaa, 0x00f000f000f000f0, 0x00f000f000f000f0,
            0, 0, 0, 0,
            9548339856082633858, 0, 7379542067299051113, 0,
            7378697629483820646, 0, 7378697629483820646, 0,
            15355538711422555417, 0, 6004234345560363859, 0,
            4774451407313060418, 0, 8174439530702664049, 0] ∧
      decode_lane ((key_expansion (List.replicate (8 * 11) 0) fips_key).drop (8 * 1)) 0
        = [0x04, 0x51, 0x50, 0x04, 0x00, 0x54, 0x54, 0x01,
            0x00, 0x54, 0x55, 0x00, 0x00, 0x54, 0x54, 0x01] ∧
      fips197.next_round_key
          (decode_lane ((key_expansion (List.replicate (8 * 11) 0) fips_key).drop (8 * 0)) 0)
          (fips197.rcon.getD 1 0)
        = [0x62, 0x78, 0x7b, 0x60, 0x6e, 0x77, 0x77, 0x6f,
            0x6e, 0x77, 0x74, 0x6c, 0x6e, 0x77, 0x77, 0x6f] ∧
      decode_lane ((key_expansion (List.replicate (8 * 11) 0) fips_key).drop (8 * 1)) 0
        ≠ fips197.next_round_key
            (decode_lane ((key_expansion (List.replicate (8 * 11) 0) fips_key).drop (8 * 0)) 0)
            (fips197.rcon.getD 1 0) ∧
      decode_lane
          (as_transpose ((key_expansion (List.replicate (8 * 11) 0) fips_key).drop (8 * 1))) 0
        ≠ fips197.next_round_key
            (decode_lane
              (as_transpose
                ((key_expansion (List.replicate (8 * 11) 0) fips_key).drop (8 * 0))) 0)
            (fips197.rcon.getD 1 0) ∧
      (key_expansion_step (List.replicate 32 0) 16 0 1).drop 16
        ≠ (key_expansion_step ((List.replicate 32 0).set 24 0x1000) 16 0 1).drop 16 := by
  refine ⟨by decide, by decide, by decide, by decide, by decide, by decide, by decide⟩

theorem getD_append_left_byte (a b : List Byte) (k : Nat) (h : k < a.length) :
    (a ++ b).getD k 0 = a.getD k 0 := by
  rw [List.getD_eq_getElem?_getD, List.getD_eq_getElem?_getD, List.getElem?_append_left h]

theorem getD_append_right_byte (a b : List Byte) (k : Nat) (h : a.length ≤ k) :
    (a ++ b).getD k 0 = b.getD (k - a.length) 0 := by
  rw [List.getD_eq_getElem?_getD, List.getD_eq_getElem?_getD, List.getElem?_append_right h]

theorem aes128_encrypt_block_length (K X : List Byte) :
    (fips197.aes128_encrypt_block K X).length = 16 := by
  simp [fips197.aes128_encrypt_block, fips197.cipher, fips197.add_round_key]

theorem ctr_keystream4_getD (K N : List Byte) (c i : Nat) (hi : i < 64) :
    (fips197.ctr_keystream4 K N c).getD i 0
      = (fips197.aes128_encrypt_block K
          (N.take 12 ++ store32_be ((c + i / 16) % 2 ^ 32))).getD (i % 16) 0 := by
  have hl := aes128_encrypt_block_length K
  unfold fips197.ctr_keystream4
  have hq : i / 16 < 4 := by omega
  have hdm := Nat.div_add_mod i 16
  have hr : i % 16 < 16 := Nat.mod_lt _ (by decide)
  generalize i / 16 = q at *
  generalize i % 16 = r at *
  subst hdm
  interval_cases q
  · rw [getD_append_left_byte _ _ _ (by rw [hl]; omega)]
    simp
  · rw [getD_append_right_byte _ _ _ (by rw [hl]; omega), hl,
      getD_append_left_byte _ _ _ (by rw [hl]; omega)]
    congr 1
    omega
  · rw [getD_append_right_byte _ _ _ (by rw [hl]; omega), hl,
      getD_append_right_byte _ _ _ (by rw [hl]; omega), hl,
      getD_append_left_byte _ _ _ (by rw [hl]; omega)]
    congr 1
    omega
  · rw [getD_append_right_byte _ _ _ (by rw [hl]; omega), hl,
      getD_append_right_byte _ _ _ (by rw [hl]; omega), hl,
      getD_append_right_byte _ _ _ (by rw [hl]; omega), hl]
    congr 1
    omega

theorem ctr_reference_eq_blocks (K N inp : List Byte) (c : Nat) (h : inp.length ≤ 64) :
    fips197.ctr_reference K N c inp = xor_bytes inp (fips197.ctr_keystream4 K N c) := by
  unfold fips197.ctr_reference xor_bytes
  apply List.map_congr_left
  intro i hi
  rw [ctr_keystream4_getD K N c i (by have := List.mem_range.mp hi; omega)]

set_option maxRecDepth 1000000 in
set_option maxHeartbeats 4000000 in
theorem sp800_38a_reference :
    fips197.ctr_reference sp800_38a_key sp800_38a_nonce 0 sp800_38a_plain
        ≠ sp800_38a_cipher ∧
      fips197.ctr_reference sp800_38a_key sp800_38a_nonce sp800_38a_counter sp800_38a_plain
        = sp800_38a_cipher := by
  refine ⟨by decide, ?_⟩
  rw [ctr_reference_eq_blocks _ _ _ _ (by decide)]
  decide

set_option maxRecDepth 1000000 in
/-- C18 (evaluation of the code at the failing input): on the key, nonce and 64-byte
plaintext of NIST SP800-38A F.5.1, with the variables `t0 .. t7` of `from_transpose` zero on
entry, `aes128_ctr` writes the plaintext, not the F.5.1 ciphertext, with counter 0 and also
with counter `0xfcfdfeff`; with `t0 .. t7 = 3` on entry the first output byte is `64`, not
`87`.  For every value of `t0 .. t7` the output is the same under every key, nonce and
counter.  Counter mode as the specification defines it gives the F.5.1 ciphertext with the
counter `0xfcfdfeff` (the counter block of F.5.1 is `f0f1f2f3f4f5f6f7f8f9fafbfcfdfeff`) and
not with counter 0. -/
theorem sp800_38a_vector_fails :
    (aes128_ctr (List.replicate 8 0) (List.replicate 64 0) sp800_38a_plain 64 sp800_38a_key
        sp800_38a_nonce 0).1 = sp800_38a_plain ∧
      (aes128_ctr (List.replicate 8 0) (List.replicate 64 0) sp800_38a_plain 64 sp800_38a_key
        sp800_38a_nonce sp800_38a_counter).1 = sp800_38a_plain ∧
      sp800_38a_plain ≠ sp800_38a_cipher ∧
      (aes128_ctr (List.replicate 8 3) (List.replicate 64 0) sp800_38a_plain 64 sp800_38a_key
        sp800_38a_nonce 0).1.take 4 = [0x64, 0xce, 0xbe, 0xe2] ∧
      sp800_38a_cipher.take 4 = [0x87, 0x4d, 0x61, 0x91] ∧
      (∀ (t : List Nat) (out inp K N K' N' : List Byte) (n c c' : Nat),
        aes128_ctr t out inp n K N c = aes128_ctr t out inp n K' N' c') ∧
      fips197.ctr_reference sp800_38a_key sp800_38a_nonce 0 sp800_38a_plain
        ≠ sp800_38a_cipher ∧
      fips197.ctr_reference sp800_38a_key sp800_38a_nonce sp800_38a_counter sp800_38a_plain
        = sp800_38a_cipher := by
  refine ⟨?_, ?_, by decide, ?_, by decide, aes128_ctr_const, sp800_38a_reference.1,
    sp800_38a_reference.2⟩ <;>
  · simp only [aes128_ctr, aes128_ctr_with, aes128_block_const]
    decide

end aes_bslice8

namespace Poly1305_64

theorem last_pass_subtract_cases (n : Arr3) (h0 : n.a0 < 2 ^ 44) (h1 : n.a1 < 2 ^ 44)
    (h2 : n.a2 < 2 ^ 42) :
    (prime ≤ val n →
        last_pass_subtract n
          = Arr3.mk (n.a0 - 0xffffffffffb) (n.a1 - 0xfffffffffff) (n.a2 - 0x3ffffffffff)) ∧
      (val n < prime → last_pass_subtract n = n) := by
  obtain ⟨n0, n1, n2⟩ := n
  simp only at h0 h1 h2
  have m1 : (2 ^ 64 - 1) &&& (2 ^ 64 - 1) = 2 ^ 64 - 1 := by decide
  have m2 : 0xffffffffffb &&& (2 ^ 64 - 1) = 0xffffffffffb := by decide
  have m3 : 0xfffffffffff &&& (2 ^ 64 - 1) = 0xfffffffffff := by decide
  have m4 : 0x3ffffffffff &&& (2 ^ 64 - 1) = 0x3ffffffffff := by decide
  simp only [last_pass_subtract, FStar_UInt64_gte_mask, FStar_UInt64_eq_mask, sub64, val, prime,
    Arr3.mk.injEq]
  split_ifs <;>
    simp only [m1, m2, m3, m4, Nat.and_zero, Nat.zero_and] <;>
    refine ⟨fun hp => ⟨?_, ?_, ?_⟩, fun hp => ⟨?_, ?_, ?_⟩⟩ <;> omega

/-- C26: `Hacl_Impl_Poly1305_64_poly1305_last_pass` yields the canonical representative: for
every accumulator with `a0, a1 < 2^45` and `a2 < 2^43` the result has `a0 < 2^44`,
`a1 < 2^44`, `a2 < 2^42`, its value is `val(Acc) mod (2^130 - 5)`, below `p`; the limbs
before the final step are normalized (`< 2^44, 2^44, 2^42`), and the final step subtracts
`(2^44 - 5, 2^44 - 1, 2^42 - 1)` limb by limb exactly when the normalized value is `>= p`
and changes nothing otherwise. -/
theorem last_pass_canonical (a : Arr3) (h0 : a.a0 < 2 ^ 45) (h1 : a.a1 < 2 ^ 45)
    (h2 : a.a2 < 2 ^ 43) :
    ((Hacl_Impl_Poly1305_64_poly1305_last_pass a).a0 < 2 ^ 44 ∧
        (Hacl_Impl_Poly1305_64_poly1305_last_pass a).a1 < 2 ^ 44 ∧
        (Hacl_Impl_Poly1305_64_poly1305_last_pass a).a2 < 2 ^ 42) ∧
      val (Hacl_Impl_Poly1305_64_poly1305_last_pass a) = val a % prime ∧
      val (Hacl_Impl_Poly1305_64_poly1305_last_pass a) < prime ∧
      ((last_pass_normalized a).a0 < 2 ^ 44 ∧ (last_pass_normalized a).a1 < 2 ^ 44 ∧
        (last_pass_normalized a).a2 < 2 ^ 42) ∧
      (prime ≤ val (last_pass_normalized a) →
        Hacl_Impl_Poly1305_64_poly1305_last_pass a
          = Arr3.mk ((last_pass_normalized a).a0 - (2 ^ 44 - 5))
              ((last_pass_normalized a).a1 - (2 ^ 44 - 1))
              ((last_pass_normalized a).a2 - (2 ^ 42 - 1))) ∧
      (val (last_pass_normalized a) < prime →
        Hacl_Impl_Poly1305_64_poly1305_last_pass a = last_pass_normalized a) := by
  obtain ⟨s0, s1, s2, s3⟩ := last_pass_spec a ⟨h0, h1, h2⟩
  obtain ⟨n0, n1, n2, _⟩ := last_pass_normalized_spec a ⟨h0, h1, h2⟩
  obtain ⟨c1, c2⟩ := last_pass_subtract_cases _ n0 n1 n2
  refine ⟨⟨s0, s1, s2⟩, s3, ?_, ⟨n0, n1, n2⟩, ?_, ?_⟩
  · rw [s3]
    exact Nat.mod_lt _ (by decide)
  · intro hp
    rw [last_pass_eq, c1 hp]
    rfl
  · intro hp
    rw [last_pass_eq, c2 hp]

theorem last_pass_canonical_witness :
    ((2 ^ 45 - 1 < 2 ^ 45 ∧ 2 ^ 45 - 1 < 2 ^ 45 ∧ 2 ^ 43 - 1 < 2 ^ 43) ∧
      val (Hacl_Impl_Poly1305_64_poly1305_last_pass
          (Arr3.mk (2 ^ 45 - 1) (2 ^ 45 - 1) (2 ^ 43 - 1)))
        = val (Arr3.mk (2 ^ 45 - 1) (2 ^ 45 - 1) (2 ^ 43 - 1)) % prime) :=
  ⟨by decide,
    (last_pass_canonical (Arr3.mk (2 ^ 45 - 1) (2 ^ 45 - 1) (2 ^ 43 - 1)) (by decide)
      (by decide) (by decide)).2.1⟩

theorem clamp_limbs_congr (K K' : List Byte)
    (h : load128_le K &&& 0x0ffffffc0ffffffc0ffffffc0fffffff
      = load128_le K' &&& 0x0ffffffc0ffffffc0ffffffc0fffffff) :
    clamp_limbs K = clamp_limbs K' := by
  have hm : FStar_UInt128_logor
      (FStar_UInt128_shift_left (FStar_Int_Cast_Full_uint64_to_uint128 0x0ffffffc0ffffffc) 64)
      (FStar_Int_Cast_Full_uint64_to_uint128 0x0ffffffc0fffffff)
      = 0x0ffffffc0ffffffc0ffffffc0fffffff := by decide
  simp only [clamp_limbs, hm, FStar_UInt128_logand, h]

/-- C28: the key bits cleared by the clamp do not influence the tag: if two keys `K` and
`K'` have the same bytes `16 .. 32` and their first 16 bytes, read little-endian, agree on
every bit selected by the mask `0x0ffffffc0ffffffc0ffffffc0fffffff`, then
`Poly1305_64_crypto_onetimeauth` writes the same tag under both keys for every message and
length. -/
theorem clamped_bits_do_not_matter (K K' M : List Byte) (len1 : Nat)
    (hs : (K.drop 16).take 16 = (K'.drop 16).take 16)
    (hr : load128_le K &&& 0x0ffffffc0ffffffc0ffffffc0fffffff
      = load128_le K' &&& 0x0ffffffc0ffffffc0ffffffc0fffffff) :
    Poly1305_64_crypto_onetimeauth M len1 K = Poly1305_64_crypto_onetimeauth M len1 K' := by
  rw [onetimeauth_eq, onetimeauth_eq, complete_eq, complete_eq, clamp_limbs_congr K K' hr,
    pack_and_add, pack_and_add, load128_le, load128_le, hs]

theorem clamped_bits_do_not_matter_witness :
    ((rfc_key.drop 16).take 16 = (unclamped_rfc_key.drop 16).take 16 ∧
      load128_le rfc_key &&& 0x0ffffffc0ffffffc0ffffffc0fffffff
        = load128_le unclamped_rfc_key &&& 0x0ffffffc0ffffffc0ffffffc0fffffff) ∧
      rfc_key ≠ unclamped_rfc_key ∧
      Poly1305_64_crypto_onetimeauth rfc_msg 34 rfc_key
        = Poly1305_64_crypto_onetimeauth rfc_msg 34 unclamped_rfc_key :=
  ⟨by decide, by decide,
    clamped_bits_do_not_matter rfc_key unclamped_rfc_key rfc_msg 34 (by decide) (by decide)⟩

theorem checked_add64_eq {a b : Nat} (h : a + b < 2 ^ 64) :
    checked_add64 a b = some (add64 a b) := by
  rw [checked_add64, if_pos h, add64, Nat.mod_eq_of_lt h]

theorem checked_shl64_eq {a s : Nat} (h : a <<< s < 2 ^ 64) :
    checked_shl64 a s = some (shl64 a s) := by
  rw [checked_shl64, if_pos h, shl64, Nat.mod_eq_of_lt h]

theorem checked_add128_eq {a b : Nat} (h : a + b < 2 ^ 128) :
    checked_add128 a b = some (FStar_UInt128_add a b) := by
  rw [checked_add128, if_pos h, FStar_UInt128_add, Nat.mod_eq_of_lt h]

theorem checked_add128_eq_mod {a b : Nat} (h : a + b < 2 ^ 128) :
    checked_add128 a b = some (FStar_UInt128_add_mod a b) := by
  rw [checked_add128, if_pos h, FStar_UInt128_add_mod, Nat.mod_eq_of_lt h]

theorem checked_mul_wide_eq {a b : Nat} (h : a * b < 2 ^ 128) :
    checked_mul_wide a b = some (FStar_UInt128_mul_wide a b) := by
  rw [checked_mul_wide, if_pos h, FStar_UInt128_mul_wide]

theorem checked_uint128_to_uint64_eq {a : Nat} (h : a < 2 ^ 64) :
    checked_uint128_to_uint64 a = some (FStar_Int_Cast_Full_uint128_to_uint64 a) := by
  rw [checked_uint128_to_uint64, if_pos h, FStar_Int_Cast_Full_uint128_to_uint64,
    Nat.mod_eq_of_lt h]

theorem checked_mask44_eq : checked_mask44 = some (sub64 (shl64 1 44) 1) := by
  decide

theorem reduce_checked_eq (b : Arr3) (h : b.a0 < 2 ^ 59) :
    Hacl_Bignum_Modulo_reduce_checked b = some (Hacl_Bignum_Modulo_reduce b) := by
  have h4 : b.a0 <<< 4 < 2 ^ 64 := by rw [Nat.shiftLeft_eq]; omega
  have h2 : b.a0 <<< 2 < 2 ^ 64 := by rw [Nat.shiftLeft_eq]; omega
  have hs : shl64 b.a0 4 + shl64 b.a0 2 < 2 ^ 64 := by
    simp only [shl64, Nat.shiftLeft_eq]; omega
  simp only [Hacl_Bignum_Modulo_reduce_checked, checked_shl64_eq h4, checked_shl64_eq h2,
    checked_add64_eq hs, Option.bind_eq_bind, Option.some_bind, Option.pure_def,
    Hacl_Bignum_Modulo_reduce]

theorem shift_reduce_checked_eq (x : Arr3) (h : x.a2 < 2 ^ 59) :
    Hacl_Bignum_Fmul_shift_reduce_checked x = some (Hacl_Bignum_Fmul_shift_reduce x) := by
  rw [Hacl_Bignum_Fmul_shift_reduce_checked, reduce_checked_eq _ h]
  rfl

theorem sum_scalar_multiplication_checked_eq (o i : Arr3) (s : Nat)
    (h0 : o.a0 + i.a0 * s < 2 ^ 128) (h1 : o.a1 + i.a1 * s < 2 ^ 128)
    (h2 : o.a2 + i.a2 * s < 2 ^ 128) :
    Hacl_Bignum_Fproduct_sum_scalar_multiplication_checked o i s
      = some (Hacl_Bignum_Fproduct_sum_scalar_multiplication_ o i s) := by
  have m0 : i.a0 * s < 2 ^ 128 := by omega
  have m1 : i.a1 * s < 2 ^ 128 := by omega
  have m2 : i.a2 * s < 2 ^ 128 := by omega
  simp only [Hacl_Bignum_Fproduct_sum_scalar_multiplication_checked, checked_mul_wide_eq m0,
    checked_mul_wide_eq m1, checked_mul_wide_eq m2, Option.bind_eq_bind, Option.some_bind,
    Option.pure_def]
  rw [checked_add128_eq_mod (by rw [FStar_UInt128_mul_wide]; exact h0), Option.some_bind,
    checked_add128_eq_mod (by rw [FStar_UInt128_mul_wide]; exact h1), Option.some_bind,
    checked_add128_eq_mod (by rw [FStar_UInt128_mul_wide]; exact h2), Option.some_bind]
  rfl

theorem mul_shift_reduce_checked_eq (x r : Arr3)
    (hx0 : x.a0 < 2 ^ 46) (hx1 : x.a1 < 2 ^ 46) (hx2 : x.a2 < 2 ^ 46)
    (hr0 : r.a0 < 2 ^ 44) (hr1 : r.a1 < 2 ^ 44) (hr2 : r.a2 < 2 ^ 44) :
    Hacl_Bignum_Fmul_mul_shift_reduce_checked (Arr3.mk 0 0 0) x r
      = some (Hacl_Bignum_Fmul_mul_shift_reduce_ (Arr3.mk 0 0 0) x r) := by
  have e1 := shift_reduce_eq x (by omega)
  have e2 := shift_reduce_eq (Arr3.mk (20 * x.a2) x.a0 x.a1) (by simp only; omega)
  have b00 := mul_lt_pow 46 44 hx0 hr0
  have b10 := mul_lt_pow 46 44 hx1 hr0
  have b20 := mul_lt_pow 46 44 hx2 hr0
  have b01 := mul_lt_pow 46 44 hx0 hr1
  have b11 := mul_lt_pow 46 44 hx1 hr1
  have b21 := mul_lt_pow 46 44 hx2 hr1
  have b02 := mul_lt_pow 46 44 hx0 hr2
  have b12 := mul_lt_pow 46 44 hx1 hr2
  have b22 := mul_lt_pow 46 44 hx2 hr2
  have c21 : 20 * x.a2 * r.a1 = 20 * (x.a2 * r.a1) := by ring
  have c12 : 20 * x.a1 * r.a2 = 20 * (x.a1 * r.a2) := by ring
  have c22 : 20 * x.a2 * r.a2 = 20 * (x.a2 * r.a2) := by ring
  norm_num at b00 b10 b20 b01 b11 b21 b02 b12 b22
  -- the three partial sums of the code
  have s1 : Hacl_Bignum_Fproduct_sum_scalar_multiplication_ (Arr3.mk 0 0 0) x r.a0
      = Arr3.mk (x.a0 * r.a0) (x.a1 * r.a0) (x.a2 * r.a0) := by
    simp only [Hacl_Bignum_Fproduct_sum_scalar_multiplication_, FStar_UInt128_add_mod,
      FStar_UInt128_mul_wide, Nat.zero_add, Arr3.mk.injEq]
    refine ⟨?_, ?_, ?_⟩ <;> omega
  have s2 : Hacl_Bignum_Fproduct_sum_scalar_multiplication_
      (Arr3.mk (x.a0 * r.a0) (x.a1 * r.a0) (x.a2 * r.a0)) (Arr3.mk (20 * x.a2) x.a0 x.a1) r.a1
      = Arr3.mk (x.a0 * r.a0 + 20 * x.a2 * r.a1) (x.a1 * r.a0 + x.a0 * r.a1)
          (x.a2 * r.a0 + x.a1 * r.a1) := by
    simp only [Hacl_Bignum_Fproduct_sum_scalar_multiplication_, FStar_UInt128_add_mod,
      FStar_UInt128_mul_wide, Arr3.mk.injEq, c21]
    refine ⟨?_, ?_, ?_⟩ <;> omega
  rw [Hacl_Bignum_Fmul_mul_shift_reduce_checked, Hacl_Bignum_Fmul_mul_shift_reduce_]
  simp only [Option.bind_eq_bind]
  rw [sum_scalar_multiplication_checked_eq _ _ _ (by simp only [Nat.zero_add]; omega)
    (by simp only [Nat.zero_add]; omega) (by simp only [Nat.zero_add]; omega),
    Option.some_bind, shift_reduce_checked_eq x (by omega), Option.some_bind, s1, e1,
    sum_scalar_multiplication_checked_eq _ _ _ (by simp only [c21]; omega)
      (by simp only; omega) (by simp only; omega),
    Option.some_bind, shift_reduce_checked_eq _ (by simp only; omega), Option.some_bind, s2, e2,
    sum_scalar_multiplication_checked_eq _ _ _ (by simp only [c21, c12]; omega)
      (by simp only [c22]; omega) (by simp only; omega)]

theorem carry_wide_val (t : Arr3) (h0 : t.a0 < 2 ^ 96) (h1 : t.a1 < 2 ^ 96)
    (h2 : t.a2 < 2 ^ 96) :
    Hacl_Bignum_Fproduct_carry_wide_ t
      = Arr3.mk (t.a0 % 2 ^ 44) ((t.a1 + t.a0 / 2 ^ 44) % 2 ^ 44)
          (t.a2 + (t.a1 + t.a0 / 2 ^ 44) / 2 ^ 44) := by
  obtain ⟨t0, t1, t2⟩ := t
  simp only at h0 h1 h2
  simp only [Hacl_Bignum_Fproduct_carry_wide_, carry_wide_step0, carry_wide_step1, mask44_eq]
  simp only [and_mask44, FStar_UInt128_add, FStar_UInt128_shift_right,
    FStar_Int_Cast_Full_uint64_to_uint128, FStar_Int_Cast_Full_uint128_to_uint64,
    Nat.shiftRight_eq_div_pow, Arr3.mk.injEq]
  have e1 : (t1 + t0 / 2 ^ 44) % 2 ^ 128 = t1 + t0 / 2 ^ 44 := Nat.mod_eq_of_lt (by omega)
  rw [e1]
  refine ⟨by omega, by omega, ?_⟩
  exact Nat.mod_eq_of_lt (by omega)

theorem carry_wide_checked_eq (t : Arr3) (h0 : t.a0 < 2 ^ 96) (h1 : t.a1 < 2 ^ 96)
    (h2 : t.a2 < 2 ^ 96) :
    Hacl_Bignum_Fproduct_carry_wide_checked t = some (Hacl_Bignum_Fproduct_carry_wide_ t) := by
  have c1 : t.a1 + FStar_UInt128_shift_right t.a0 44 < 2 ^ 128 := by
    simp only [FStar_UInt128_shift_right, Nat.shiftRight_eq_div_pow]; omega
  have c2 : t.a2 + FStar_UInt128_shift_right
      (FStar_UInt128_add t.a1 (FStar_UInt128_shift_right t.a0 44)) 44 < 2 ^ 128 := by
    simp only [FStar_UInt128_shift_right, FStar_UInt128_add, Nat.shiftRight_eq_div_pow]; omega
  simp only [Hacl_Bignum_Fproduct_carry_wide_checked, checked_mask44_eq, Option.bind_eq_bind,
    Option.some_bind, checked_add128_eq c1, checked_add128_eq c2, Option.pure_def]
  rfl

theorem carry_top_wide_val (w : Arr3) (h0 : w.a0 < 2 ^ 64) (h2 : w.a2 < 2 ^ 98) :
    Hacl_Bignum_Modulo_carry_top_wide w
      = Arr3.mk (w.a0 + 5 * (w.a2 / 2 ^ 42)) w.a1 (w.a2 % 2 ^ 42) := by
  obtain ⟨w0, w1, w2⟩ := w
  simp only at h0 h2
  simp only [Hacl_Bignum_Modulo_carry_top_wide, and_mask42, FStar_UInt128_add,
    FStar_UInt128_logand, FStar_UInt128_shift_right, FStar_Int_Cast_Full_uint64_to_uint128,
    FStar_Int_Cast_Full_uint128_to_uint64, add64, shl64, Nat.shiftLeft_eq,
    Nat.shiftRight_eq_div_pow, Arr3.mk.injEq, and_true, true_and]
  generalize hk : w2 / 2 ^ 42 = k
  have hkb : k < 2 ^ 56 := by omega
  have e1 : k % 2 ^ 64 = k := Nat.mod_eq_of_lt (by omega)
  rw [e1]
  have e2 : (k * 2 ^ 2 % 2 ^ 64 + k) % 2 ^ 64 = 5 * k := by omega
  rw [e2]
  exact Nat.mod_eq_of_lt (by omega)

theorem carry_top_wide_checked_eq (w : Arr3) (h0 : w.a0 < 2 ^ 64) (h2 : w.a2 < 2 ^ 98) :
    Hacl_Bignum_Modulo_carry_top_wide_checked w
      = some (Hacl_Bignum_Modulo_carry_top_wide w) := by
  have c1 : FStar_UInt128_shift_right w.a2 42 < 2 ^ 64 := by
    simp only [FStar_UInt128_shift_right, Nat.shiftRight_eq_div_pow]; omega
  have c2 : FStar_Int_Cast_Full_uint128_to_uint64 (FStar_UInt128_shift_right w.a2 42) <<< 2
      < 2 ^ 64 := by
    simp only [FStar_UInt128_shift_right, FStar_Int_Cast_Full_uint128_to_uint64,
      Nat.shiftRight_eq_div_pow, Nat.shiftLeft_eq]; omega
  have c3 : shl64 (FStar_Int_Cast_Full_uint128_to_uint64 (FStar_UInt128_shift_right w.a2 42)) 2
      + FStar_Int_Cast_Full_uint128_to_uint64 (FStar_UInt128_shift_right w.a2 42) < 2 ^ 64 := by
    simp only [FStar_UInt128_shift_right, FStar_Int_Cast_Full_uint128_to_uint64, shl64,
      Nat.shiftRight_eq_div_pow, Nat.shiftLeft_eq]; omega
  have c4 : w.a0 + FStar_Int_Cast_Full_uint64_to_uint128
      (add64 (shl64 (FStar_Int_Cast_Full_uint128_to_uint64
          (FStar_UInt128_shift_right w.a2 42)) 2)
        (FStar_Int_Cast_Full_uint128_to_uint64 (FStar_UInt128_shift_right w.a2 42)))
      < 2 ^ 128 := by
    simp only [FStar_UInt128_shift_right, FStar_Int_Cast_Full_uint128_to_uint64, shl64, add64,
      FStar_Int_Cast_Full_uint64_to_uint128, Nat.shiftRight_eq_div_pow, Nat.shiftLeft_eq]
    generalize hk : w.a2 / 2 ^ 42 = k
    have hkb : k < 2 ^ 56 := by omega
    have e1 : k % 2 ^ 64 = k := Nat.mod_eq_of_lt (by omega)
    rw [e1]
    have e2 : (k * 2 ^ 2 % 2 ^ 64 + k) % 2 ^ 64 = 5 * k := by omega
    rw [e2]
    omega
  simp only [Hacl_Bignum_Modulo_carry_top_wide_checked, Option.bind_eq_bind,
    checked_uint128_to_uint64_eq c1, Option.some_bind, checked_shl64_eq c2,
    checked_add64_eq c3, checked_add128_eq c4, Option.pure_def]
  rfl

theorem copy_from_wide_checked_eq (t : Arr3) (h0 : t.a0 < 2 ^ 64) (h1 : t.a1 < 2 ^ 64)
    (h2 : t.a2 < 2 ^ 64) :
    Hacl_Bignum_Fproduct_copy_from_wide_checked t
      = some (Hacl_Bignum_Fproduct_copy_from_wide_ t) := by
  simp only [Hacl_Bignum_Fproduct_copy_from_wide_checked, Option.bind_eq_bind,
    checked_uint128_to_uint64_eq h0, checked_uint128_to_uint64_eq h1,
    checked_uint128_to_uint64_eq h2, Option.some_bind, Option.pure_def]
  rfl

theorem copy_from_wide_val (t : Arr3) (h0 : t.a0 < 2 ^ 64) (h1 : t.a1 < 2 ^ 64)
    (h2 : t.a2 < 2 ^ 64) :
    Hacl_Bignum_Fproduct_copy_from_wide_ t = t := by
  obtain ⟨t0, t1, t2⟩ := t
  simp only at h0 h1 h2
  simp only [Hacl_Bignum_Fproduct_copy_from_wide_, FStar_Int_Cast_Full_uint128_to_uint64,
    Nat.mod_eq_of_lt h0, Nat.mod_eq_of_lt h1, Nat.mod_eq_of_lt h2]

theorem fmul_checked_eq (x r : Arr3)
    (hx0 : x.a0 < 2 ^ 46) (hx1 : x.a1 < 2 ^ 46) (hx2 : x.a2 < 2 ^ 46)
    (hr0 : r.a0 < 2 ^ 44) (hr1 : r.a1 < 2 ^ 44) (hr2 : r.a2 < 2 ^ 44) :
    Hacl_Bignum_Fmul_fmul_checked x r = some (Hacl_Bignum_Fmul_fmul_ x r) := by
  have hT := mul_shift_reduce_eq x r hx0 hx1 hx2 hr0 hr1 hr2
  obtain ⟨b0, b1, b2⟩ := mulT_bound x r hx0 hx1 hx2 hr0 hr1 hr2
  have hW := carry_wide_val (mulT x r) b0 b1 b2
  generalize mulT x r = T at hT b0 b1 b2 hW
  obtain ⟨t0, t1, t2⟩ := T
  simp only at b0 b1 b2 hW
  have w0 : t0 % 2 ^ 44 < 2 ^ 64 := by omega
  have w2 : t2 + (t1 + t0 / 2 ^ 44) / 2 ^ 44 < 2 ^ 98 := by omega
  have hC := carry_top_wide_val
    (Arr3.mk (t0 % 2 ^ 44) ((t1 + t0 / 2 ^ 44) % 2 ^ 44) (t2 + (t1 + t0 / 2 ^ 44) / 2 ^ 44))
    w0 w2
  simp only at hC
  have k0 : t0 % 2 ^ 44 + 5 * ((t2 + (t1 + t0 / 2 ^ 44) / 2 ^ 44) / 2 ^ 42) < 2 ^ 64 := by omega
  have k1 : (t1 + t0 / 2 ^ 44) % 2 ^ 44 < 2 ^ 64 := by omega
  have k2 : (t2 + (t1 + t0 / 2 ^ 44) / 2 ^ 44) % 2 ^ 42 < 2 ^ 64 := by omega
  have hP := copy_from_wide_val
    (Arr3.mk (t0 % 2 ^ 44 + 5 * ((t2 + (t1 + t0 / 2 ^ 44) / 2 ^ 44) / 2 ^ 42))
      ((t1 + t0 / 2 ^ 44) % 2 ^ 44) ((t2 + (t1 + t0 / 2 ^ 44) / 2 ^ 44) % 2 ^ 42)) k0 k1 k2
  have hlast : (t1 + t0 / 2 ^ 44) % 2 ^ 44
      + (t0 % 2 ^ 44 + 5 * ((t2 + (t1 + t0 / 2 ^ 44) / 2 ^ 44) / 2 ^ 42)) >>> 44 < 2 ^ 64 := by
    rw [Nat.shiftRight_eq_div_pow]; omega
  rw [Hacl_Bignum_Fmul_fmul_checked, Hacl_Bignum_Fmul_fmul_]
  simp only [Option.bind_eq_bind, FStar_Int_Cast_Full_uint64_to_uint128]
  rw [mul_shift_reduce_checked_eq x r hx0 hx1 hx2 hr0 hr1 hr2, Option.some_bind, hT,
    carry_wide_checked_eq _ b0 b1 b2, Option.some_bind, hW,
    carry_top_wide_checked_eq _ w0 w2, Option.some_bind, hC,
    copy_from_wide_checked_eq _ k0 k1 k2, Option.some_bind, hP, checked_mask44_eq,
    Option.some_bind]
  simp only [checked_add64_eq hlast, Option.some_bind, Option.pure_def]

/-- C27: no overflow in the field step.  For every accumulator with `a0, a1 < 2^45` and
`a2 < 2^43`, every block with limbs `b0, b1 < 2^44` and `b2 < 2^41`, and every clamped
multiplier (`r0, r1 < 2^44`, `r2 < 2^42`), the overflow-checked copy of
`Hacl_Bignum_AddAndMultiply_add_and_multiply`, in which every 64-bit addition and shift,
every 128-bit addition and product and every unmasked 128-to-64-bit conversion fails when
the exact integer result does not fit, succeeds and returns the limbs that the code
returns. -/
theorem add_and_multiply_no_overflow (acc block r : Arr3)
    (ha : acc.a0 < 2 ^ 45 ∧ acc.a1 < 2 ^ 45 ∧ acc.a2 < 2 ^ 43)
    (hb : block.a0 < 2 ^ 44 ∧ block.a1 < 2 ^ 44 ∧ block.a2 < 2 ^ 41)
    (hr : r.a0 < 2 ^ 44 ∧ r.a1 < 2 ^ 44 ∧ r.a2 < 2 ^ 42) :
    Hacl_Bignum_AddAndMultiply_add_and_multiply_checked acc block r
      = some (Hacl_Bignum_AddAndMultiply_add_and_multiply acc block r) := by
  obtain ⟨ha0, ha1, ha2⟩ := ha
  obtain ⟨hb0, hb1, hb2⟩ := hb
  obtain ⟨hr0, hr1, hr2⟩ := hr
  have s0 : acc.a0 + block.a0 < 2 ^ 64 := by omega
  have s1 : acc.a1 + block.a1 < 2 ^ 64 := by omega
  have s2 : acc.a2 + block.a2 < 2 ^ 64 := by omega
  have e0 : add64 acc.a0 block.a0 < 2 ^ 46 := by rw [add64, Nat.mod_eq_of_lt s0]; omega
  have e1 : add64 acc.a1 block.a1 < 2 ^ 46 := by rw [add64, Nat.mod_eq_of_lt s1]; omega
  have e2 : add64 acc.a2 block.a2 < 2 ^ 46 := by rw [add64, Nat.mod_eq_of_lt s2]; omega
  simp only [Hacl_Bignum_AddAndMultiply_add_and_multiply_checked, Option.bind_eq_bind,
    checked_add64_eq s0, checked_add64_eq s1, checked_add64_eq s2, Option.some_bind]
  rw [fmul_checked_eq _ r e0 e1 e2 hr0 hr1 (by omega)]
  rfl

set_option maxRecDepth 100000 in
theorem add_and_multiply_no_overflow_witness :
    ((2 ^ 45 - 1 < 2 ^ 45 ∧ 2 ^ 45 - 1 < 2 ^ 45 ∧ 2 ^ 43 - 1 < 2 ^ 43) ∧
      (2 ^ 44 - 1 < 2 ^ 44 ∧ 2 ^ 44 - 1 < 2 ^ 44 ∧ 2 ^ 41 - 1 < 2 ^ 41) ∧
      (2 ^ 44 - 1 < 2 ^ 44 ∧ 2 ^ 44 - 1 < 2 ^ 44 ∧ 2 ^ 42 - 1 < 2 ^ 42)) ∧
      Hacl_Bignum_AddAndMultiply_add_and_multiply_checked
          (Arr3.mk (2 ^ 45 - 1) (2 ^ 45 - 1) (2 ^ 43 - 1))
          (Arr3.mk (2 ^ 44 - 1) (2 ^ 44 - 1) (2 ^ 41 - 1))
          (Arr3.mk (2 ^ 44 - 1) (2 ^ 44 - 1) (2 ^ 42 - 1))
        = some (Hacl_Bignum_AddAndMultiply_add_and_multiply
          (Arr3.mk (2 ^ 45 - 1) (2 ^ 45 - 1) (2 ^ 43 - 1))
          (Arr3.mk (2 ^ 44 - 1) (2 ^ 44 - 1) (2 ^ 41 - 1))
          (Arr3.mk (2 ^ 44 - 1) (2 ^ 44 - 1) (2 ^ 42 - 1))) :=
  ⟨by decide,
    add_and_multiply_no_overflow _ _ _ (by decide) (by decide) (by decide)⟩

/-- The checks are not vacuous: the overflow-checked field step fails on limbs that make
the first 64-bit addition wrap. -/
theorem add_and_multiply_checked_can_fail :
    Hacl_Bignum_AddAndMultiply_add_and_multiply_checked (Arr3.mk (2 ^ 64 - 1) 0 0)
      (Arr3.mk 1 0 0) (Arr3.mk 1 0 0) = none := by
  decide

end Poly1305_64
namespace aes_bslice8

theorem mix_col01_bit (col n r : Nat) (hn : n < 16) (hr : r < 4) :
    (mix_col01 col).testBit (4 * n + r)
      = (col.testBit (4 * n + r) ^^ col.testBit (4 * n + (r + 1) % 4)) := by
  interval_cases n <;> interval_cases r <;>
    simp (disch := decide) only [mix_col01, shl64, Nat.testBit_or, Nat.testBit_xor,
      testBit_and_of_true, testBit_and_of_false, Nat.testBit_shiftRight,
      Nat.testBit_shiftLeft, Nat.testBit_mod_two_pow, Bool.or_false, Bool.false_or,
      Bool.and_true, Bool.true_and, Bool.and_false, Bool.false_and, Nat.reduceAdd,
      Nat.reduceMul, Nat.reduceMod, Nat.reduceSub, Nat.reduceLeDiff, Nat.reduceLT, ge_iff_le,
      decide_True, decide_False, Nat.add_zero, Nat.zero_add]

theorem mix_col0123_bit (col01 n r : Nat) (hn : n < 16) (hr : r < 4) :
    (mix_col0123 col01).testBit (4 * n + r)
      = (col01.testBit (4 * n + r) ^^ col01.testBit (4 * n + (r + 2) % 4)) := by
  interval_cases n <;> interval_cases r <;>
    simp (disch := decide) only [mix_col0123, shl64, Nat.testBit_or, Nat.testBit_xor,
      testBit_and_of_true, testBit_and_of_false, Nat.testBit_shiftRight,
      Nat.testBit_shiftLeft, Nat.testBit_mod_two_pow, Bool.or_false, Bool.false_or,
      Bool.and_true, Bool.true_and, Bool.and_false, Bool.false_and, Nat.reduceAdd,
      Nat.reduceMul, Nat.reduceMod, Nat.reduceSub, Nat.reduceLeDiff, Nat.reduceLT, ge_iff_le,
      decide_True, decide_False, Nat.add_zero, Nat.zero_add]

theorem mixColumns_words (st : List Nat) :
    mixColumns st
      = [(st.getD 0 0 ^^^ (mix_col0123 (mix_col01 (st.getD 0 0)) ^^^ 0))
            ^^^ mix_col01 (st.getD 7 0),
          (st.getD 1 0 ^^^ (mix_col0123 (mix_col01 (st.getD 1 0)) ^^^ mix_col01 (st.getD 0 0)))
            ^^^ mix_col01 (st.getD 7 0),
          st.getD 2 0 ^^^ (mix_col0123 (mix_col01 (st.getD 2 0)) ^^^ mix_col01 (st.getD 1 0)),
          (st.getD 3 0 ^^^ (mix_col0123 (mix_col01 (st.getD 3 0)) ^^^ mix_col01 (st.getD 2 0)))
            ^^^ mix_col01 (st.getD 7 0),
          (st.getD 4 0 ^^^ (mix_col0123 (mix_col01 (st.getD 4 0)) ^^^ mix_col01 (st.getD 3 0)))
            ^^^ mix_col01 (st.getD 7 0),
          st.getD 5 0 ^^^ (mix_col0123 (mix_col01 (st.getD 5 0)) ^^^ mix_col01 (st.getD 4 0)),
          st.getD 6 0 ^^^ (mix_col0123 (mix_col01 (st.getD 6 0)) ^^^ mix_col01 (st.getD 5 0)),
          st.getD 7 0 ^^^ (mix_col0123 (mix_col01 (st.getD 7 0)) ^^^ mix_col01 (st.getD 6 0))] :=
  rfl

set_option maxRecDepth 1000000 in
theorem xtime_bit : ∀ a, a < 256 → ∀ i, i < 8 →
    (fips197.xtime a).testBit i
      = ((decide (0 < i) && a.testBit (i - 1))
          ^^ ((decide (i = 0) || decide (i = 1) || decide (i = 3) || decide (i = 4))
            && a.testBit 7)) := by
  decide

theorem bxor_cancel_left (a b : Bool) : (a ^^ (a ^^ b)) = b := by
  cases a <;> cases b <;> rfl

theorem nat_eq_of_bits8 {x y : Nat} (hx : x < 256) (hy : y < 256)
    (h : ∀ i, i < 8 → x.testBit i = y.testBit i) : x = y := by
  apply Nat.eq_of_testBit_eq
  intro i
  by_cases hi : i < 8
  · exact h i hi
  · have h8 : 2 ^ 8 ≤ 2 ^ i := Nat.pow_le_pow_right (by decide) (by omega)
    rw [Nat.testBit_lt_two_pow (by omega), Nat.testBit_lt_two_pow (by omega)]

set_option maxRecDepth 1000000 in
theorem xtime_lt : ∀ a, a < 256 → fips197.xtime a < 256 := by
  decide

theorem mix_formula_lt {a0 a1 a2 a3 : Nat} (h0 : a0 < 256) (h1 : a1 < 256) (h2 : a2 < 256)
    (h3 : a3 < 256) :
    fips197.xtime a0 ^^^ (fips197.xtime a1 ^^^ a1) ^^^ a2 ^^^ a3 < 256 := by
  have x0 := xtime_lt a0 h0
  have x1 := xtime_lt a1 h1
  exact Nat.xor_lt_two_pow (n := 8)
    (Nat.xor_lt_two_pow (n := 8)
      (Nat.xor_lt_two_pow (n := 8) x0 (Nat.xor_lt_two_pow (n := 8) x1 h1)) h2) h3

theorem mix_col0123_col01_bit (w n r : Nat) (hn : n < 16) (hr : r < 4) :
    (mix_col0123 (mix_col01 w)).testBit (4 * n + r)
      = ((w.testBit (4 * n + r) ^^ w.testBit (4 * n + (r + 1) % 4))
          ^^ (w.testBit (4 * n + (r + 2) % 4) ^^ w.testBit (4 * n + (r + 3) % 4))) := by
  have e : ((r + 2) % 4 + 1) % 4 = (r + 3) % 4 := by omega
  rw [mix_col0123_bit _ n r hn hr, mix_col01_bit _ n r hn hr,
    mix_col01_bit _ n ((r + 2) % 4) hn (Nat.mod_lt _ (by decide)), e]

theorem mix_bool_first : ∀ a0 a1 a2 a3 q0 q1 : Bool,
    (((a0 ^^ ((a0 ^^ a1) ^^ (a2 ^^ a3))) ^^ (q0 ^^ q1)) : Bool)
      = ((((q0 ^^ (q1 ^^ a1)) ^^ a2) ^^ a3) : Bool) := by
  decide

theorem mix_bool_both : ∀ a0 a1 a2 a3 p0 p1 q0 q1 : Bool,
    (((a0 ^^ (((a0 ^^ a1) ^^ (a2 ^^ a3)) ^^ (p0 ^^ p1))) ^^ (q0 ^^ q1)) : Bool)
      = (((((p0 ^^ q0) ^^ ((p1 ^^ q1) ^^ a1)) ^^ a2) ^^ a3) : Bool) := by
  decide

theorem mix_bool_prev : ∀ a0 a1 a2 a3 p0 p1 : Bool,
    ((a0 ^^ (((a0 ^^ a1) ^^ (a2 ^^ a3)) ^^ (p0 ^^ p1))) : Bool)
      = ((((p0 ^^ (p1 ^^ a1)) ^^ a2) ^^ a3) : Bool) := by
  decide

theorem mix_word_first (w w7 n r : Nat) (hn : n < 16) (hr : r < 4) :
    ((w ^^^ (mix_col0123 (mix_col01 w) ^^^ 0)) ^^^ mix_col01 w7).testBit (4 * n + r)
      = (((w7.testBit (4 * n + r) ^^ (w7.testBit (4 * n + (r + 1) % 4)
          ^^ w.testBit (4 * n + (r + 1) % 4)))
          ^^ w.testBit (4 * n + (r + 2) % 4)) ^^ w.testBit (4 * n + (r + 3) % 4)) := by
  simp only [Nat.testBit_xor, Nat.zero_testBit, Bool.xor_false,
    mix_col0123_col01_bit _ n r hn hr, mix_col01_bit _ n r hn hr]
  exact mix_bool_first _ _ _ _ _ _

theorem mix_word_both (w wp w7 n r : Nat) (hn : n < 16) (hr : r < 4) :
    ((w ^^^ (mix_col0123 (mix_col01 w) ^^^ mix_col01 wp)) ^^^ mix_col01 w7).testBit (4 * n + r)
      = ((((wp.testBit (4 * n + r) ^^ w7.testBit (4 * n + r))
          ^^ ((wp.testBit (4 * n + (r + 1) % 4) ^^ w7.testBit (4 * n + (r + 1) % 4))
            ^^ w.testBit (4 * n + (r + 1) % 4)))
          ^^ w.testBit (4 * n + (r + 2) % 4)) ^^ w.testBit (4 * n + (r + 3) % 4)) := by
  simp only [Nat.testBit_xor, mix_col0123_col01_bit _ n r hn hr, mix_col01_bit _ n r hn hr]
  exact mix_bool_both _ _ _ _ _ _ _ _

theorem mix_word_prev (w wp n r : Nat) (hn : n < 16) (hr : r < 4) :
    (w ^^^ (mix_col0123 (mix_col01 w) ^^^ mix_col01 wp)).testBit (4 * n + r)
      = (((wp.testBit (4 * n + r)
          ^^ (wp.testBit (4 * n + (r + 1) % 4) ^^ w.testBit (4 * n + (r + 1) % 4)))
          ^^ w.testBit (4 * n + (r + 2) % 4)) ^^ w.testBit (4 * n + (r + 3) % 4)) := by
  simp only [Nat.testBit_xor, mix_col0123_col01_bit _ n r hn hr, mix_col01_bit _ n r hn hr]
  exact mix_bool_prev _ _ _ _ _ _

theorem byte_at_mixColumns (st : List Nat) (n r : Nat) (hn : n < 16) (hr : r < 4) :
    byte_at (mixColumns st) (4 * n + r)
      = fips197.xtime (byte_at st (4 * n + r))
        ^^^ (fips197.xtime (byte_at st (4 * n + (r + 1) % 4))
          ^^^ byte_at st (4 * n + (r + 1) % 4))
        ^^^ byte_at st (4 * n + (r + 2) % 4) ^^^ byte_at st (4 * n + (r + 3) % 4) := by
  apply nat_eq_of_bits8 (byte_at_lt _ _)
    (mix_formula_lt (byte_at_lt _ _) (byte_at_lt _ _) (byte_at_lt _ _) (byte_at_lt _ _))
  intro i hi
  rw [testBit_byte_at _ _ _ hi, mixColumns_words]
  simp only [Nat.testBit_xor, xtime_bit _ (byte_at_lt _ _) i hi,
    testBit_byte_at _ _ _ hi, testBit_byte_at _ _ _ (by decide : 7 < 8),
    testBit_byte_at _ _ _ (by omega : i - 1 < 8)]
  interval_cases i <;>
    simp only [List.getD_cons_succ, List.getD_cons_zero, Nat.reduceSub, Nat.reduceLT,
      Nat.reduceEqDiff, Nat.lt_irrefl, decide_True, decide_False, Bool.true_and,
      Bool.false_and, Bool.or_false, Bool.false_or, Bool.or_true, Bool.true_or,
      Bool.xor_false, Bool.false_xor, OfNat.ofNat_ne_zero]
  · exact mix_word_first _ _ n r hn hr
  · exact mix_word_both _ _ _ n r hn hr
  · exact mix_word_prev _ _ n r hn hr
  · exact mix_word_both _ _ _ n r hn hr
  · exact mix_word_both _ _ _ n r hn hr
  · exact mix_word_prev _ _ n r hn hr
  · exact mix_word_prev _ _ n r hn hr
  · exact mix_word_prev _ _ n r hn hr

/-- C21: `mixColumns` is the AES MixColumns matrix multiply on every column: for every
state `st`, nibble position `n < 16` and row `r < 4`, with `a_k` the byte whose bit `i` is
bit `4n + k` of `st[i]`, the byte read at bit position `4n + r` of `mixColumns st` is
`2*a_r XOR 3*a_((r+1) mod 4) XOR a_((r+2) mod 4) XOR a_((r+3) mod 4)` in GF(2^8) modulo
`x^8 + x^4 + x^3 + x + 1` (`2*a = xtime a`, `3*a = xtime a XOR a`). -/
theorem mixColumns_is_matrix_multiply (st : List Nat) (n r : Nat) (hn : n < 16)
    (hr : r < 4) :
    byte_at (mixColumns st) (4 * n + r)
      = fips197.xtime (byte_at st (4 * n + r))
        ^^^ (fips197.xtime (byte_at st (4 * n + (r + 1) % 4))
          ^^^ byte_at st (4 * n + (r + 1) % 4))
        ^^^ byte_at st (4 * n + (r + 2) % 4) ^^^ byte_at st (4 * n + (r + 3) % 4) :=
  byte_at_mixColumns st n r hn hr

theorem mixColumns_is_matrix_multiply_witness :
    (9 < 16 ∧ 3 < 4) ∧
      byte_at (mixColumns (lane_slice [fips_block, fips_key, fips_cipher, fips_block_alt]))
          (4 * 9 + 3)
        = fips197.xtime
            (byte_at (lane_slice [fips_block, fips_key, fips_cipher, fips_block_alt])
              (4 * 9 + 3))
          ^^^ (fips197.xtime
              (byte_at (lane_slice [fips_block, fips_key, fips_cipher, fips_block_alt])
                (4 * 9 + (3 + 1) % 4))
            ^^^ byte_at (lane_slice [fips_block, fips_key, fips_cipher, fips_block_alt])
              (4 * 9 + (3 + 1) % 4))
          ^^^ byte_at (lane_slice [fips_block, fips_key, fips_cipher, fips_block_alt])
            (4 * 9 + (3 + 2) % 4)
          ^^^ byte_at (lane_slice [fips_block, fips_key, fips_cipher, fips_block_alt])
            (4 * 9 + (3 + 3) % 4) :=
  ⟨by decide, mixColumns_is_matrix_multiply _ 9 3 (by decide) (by decide)⟩

theorem getD_map_range16 (f : Nat → Nat) (k : Nat) (hk : k < 16) :
    ((List.range 16).map f).getD k 0 = f k := by
  interval_cases k <;> rfl

theorem decode_lane_subBytes (st : List Nat) (g : Nat) (hg : g < 4) :
    decode_lane (subBytes st) g = fips197.sub_bytes (decode_lane st g) := by
  unfold decode_lane fips197.sub_bytes
  rw [List.map_map]
  apply List.map_congr_left
  intro k hk
  have hk16 := List.mem_range.mp hk
  exact byte_at_subBytes st _ (by omega)

theorem byte_at_congr_bits {a b : List Nat} {j j' : Nat}
    (h : ∀ i, i < 8 → (a.getD i 0).testBit j = (b.getD i 0).testBit j') :
    byte_at a j = byte_at b j' := by
  apply nat_eq_of_bits8 (byte_at_lt _ _) (byte_at_lt _ _)
  intro i hi
  rw [testBit_byte_at _ _ _ hi, testBit_byte_at _ _ _ hi, h i hi]

theorem byte_at_shiftRows (st : List Nat) (g c r : Nat) (hg : g < 4) (hc : c < 4)
    (hr : r < 4) :
    byte_at (shiftRows st) (16 * g + 4 * c + r)
      = byte_at st (16 * g + 4 * ((c + r) % 4) + r) := by
  apply byte_at_congr_bits
  intro i hi
  rw [shiftRows, getD_map_range8 _ i hi, shiftRows_word_bit _ g c r hg hc hr]

theorem shift_rows_length (s : List Nat) : (fips197.shift_rows s).length = 16 := by
  simp [fips197.shift_rows]

theorem mix_columns_length (s : List Nat) : (fips197.mix_columns s).length = 16 := by
  simp [fips197.mix_columns]

theorem add_round_key_length (s k : List Nat) : (fips197.add_round_key s k).length = 16 := by
  simp [fips197.add_round_key]

theorem decode_lane_shiftRows (st : List Nat) (g : Nat) (hg : g < 4) :
    decode_lane (shiftRows st) g = fips197.shift_rows (decode_lane st g) := by
  apply list16_ext (decode_lane_length _ _) (shift_rows_length _)
  intro k hk
  have hc : k / 4 < 4 := by omega
  have hr : k % 4 < 4 := Nat.mod_lt _ (by decide)
  have hm : (k / 4 + k % 4) % 4 < 4 := Nat.mod_lt _ (by decide)
  rw [decode_lane_getD _ _ _ hk, fips197.shift_rows, getD_map_range16 _ k hk,
    decode_lane_getD _ _ _ (by omega),
    show 16 * g + k = 16 * g + 4 * (k / 4) + k % 4 by omega,
    byte_at_shiftRows st g (k / 4) (k % 4) hg hc hr]
  congr 1
  omega

theorem decode_lane_mixColumns (st : List Nat) (g : Nat) (hg : g < 4) :
    decode_lane (mixColumns st) g = fips197.mix_columns (decode_lane st g) := by
  apply list16_ext (decode_lane_length _ _) (mix_columns_length _)
  intro k hk
  have hc : k / 4 < 4 := by omega
  have hr : k % 4 < 4 := Nat.mod_lt _ (by decide)
  have h1 : (k % 4 + 1) % 4 < 4 := Nat.mod_lt _ (by decide)
  have h2 : (k % 4 + 2) % 4 < 4 := Nat.mod_lt _ (by decide)
  have h3 : (k % 4 + 3) % 4 < 4 := Nat.mod_lt _ (by decide)
  rw [decode_lane_getD _ _ _ hk, fips197.mix_columns, getD_map_range16 _ k hk,
    show 16 * g + k = 4 * (4 * g + k / 4) + k % 4 by omega,
    byte_at_mixColumns st (4 * g + k / 4) (k % 4) (by omega) hr]
  simp only [fips197.mix_byte]
  rw [decode_lane_getD _ _ _ (by omega), decode_lane_getD _ _ _ (by omega),
    decode_lane_getD _ _ _ (by omega), decode_lane_getD _ _ _ (by omega),
    show 16 * g + (4 * (k / 4) + k % 4) = 4 * (4 * g + k / 4) + k % 4 by omega,
    show 16 * g + (4 * (k / 4) + (k % 4 + 1) % 4) = 4 * (4 * g + k / 4) + (k % 4 + 1) % 4
      by omega,
    show 16 * g + (4 * (k / 4) + (k % 4 + 2) % 4) = 4 * (4 * g + k / 4) + (k % 4 + 2) % 4
      by omega,
    show 16 * g + (4 * (k / 4) + (k % 4 + 3) % 4) = 4 * (4 * g + k / 4) + (k % 4 + 3) % 4
      by omega]

theorem byte_at_addRoundKey (st k : List Nat) (j : Nat) :
    byte_at (addRoundKey st k) j = byte_at st j ^^^ byte_at k j := by
  apply nat_eq_of_bits8 (byte_at_lt _ _)
    (Nat.xor_lt_two_pow (n := 8) (byte_at_lt _ _) (byte_at_lt _ _))
  intro i hi
  rw [testBit_byte_at _ _ _ hi, Nat.testBit_xor, testBit_byte_at _ _ _ hi,
    testBit_byte_at _ _ _ hi, addRoundKey, getD_map_range8 _ i hi, Nat.testBit_xor]

theorem decode_lane_addRoundKey (st k : List Nat) (g : Nat) :
    decode_lane (addRoundKey st k) g
      = fips197.add_round_key (decode_lane st g) (decode_lane k g) := by
  apply list16_ext (decode_lane_length _ _) (add_round_key_length _ _)
  intro j hj
  rw [decode_lane_getD _ _ _ hj, fips197.add_round_key, getD_map_range16 _ j hj,
    decode_lane_getD _ _ _ hj, decode_lane_getD _ _ _ hj, byte_at_addRoundKey]

theorem decode_lane_aes_enc (st k : List Nat) (g : Nat) (hg : g < 4) :
    decode_lane (aes_enc st k) g
      = fips197.add_round_key
          (fips197.mix_columns (fips197.shift_rows (fips197.sub_bytes (decode_lane st g))))
          (decode_lane k g) := by
  rw [aes_enc, decode_lane_addRoundKey, decode_lane_mixColumns _ _ hg,
    decode_lane_shiftRows _ _ hg, decode_lane_subBytes _ _ hg]

theorem decode_lane_aes_enc_last (st k : List Nat) (g : Nat) (hg : g < 4) :
    decode_lane (aes_enc_last st k) g
      = fips197.add_round_key (fips197.shift_rows (fips197.sub_bytes (decode_lane st g)))
          (decode_lane k g) := by
  rw [aes_enc_last, decode_lane_addRoundKey, decode_lane_shiftRows _ _ hg,
    decode_lane_subBytes _ _ hg]

theorem decode_lane_rounds (ks : List Nat) (g : Nat) (hg : g < 4) (st : List Nat) :
    ∀ n : Nat,
    decode_lane
        ((List.range n).foldl (fun s i => aes_enc s (as_transpose ((ks.drop 8).drop (8 * i))))
          st) g
      = fips197.rounds_with (fun i => decode_lane (as_transpose (ks.drop (8 * i))) g) n
          (decode_lane st g)
  | 0 => rfl
  | n + 1 => by
    rw [List.range_succ, List.foldl_append, List.foldl_cons, List.foldl_nil,
      decode_lane_aes_enc _ _ _ hg, decode_lane_rounds ks g hg st n, fips197.rounds_with,
      List.drop_drop, show 8 + 8 * n = 8 * (n + 1) by omega]

theorem decode_lane_block_cipher (t st ks : List Nat) (g : Nat) (hg : g < 4) :
    decode_lane (block_cipher t st ks).st g
      = fips197.cipher_with (fun i => decode_lane (as_transpose (ks.drop (8 * i))) g)
          (decode_lane st g) := by
  rw [block_cipher, fips197.cipher_with]
  simp only
  rw [decode_lane_aes_enc_last _ _ _ hg, rounds, decode_lane_rounds ks g hg,
    decode_lane_addRoundKey]
  rfl

theorem as_transpose_getD (w : List Nat) (j : Nat) (hj : j < 8) :
    (as_transpose w).getD j 0 = w.getD (2 * j) 0 := by
  rw [as_transpose, getD_map_range8 _ j hj]

set_option maxRecDepth 1000000 in
/-- C22 (evaluation of the code at the failing input): the state that `block_cipher` leaves
in `st` and hands to `from_transpose` decodes, in every lane `g < 4`, to AddRoundKey, then
nine times (SubBytes, ShiftRows, MixColumns, AddRoundKey), then (SubBytes, ShiftRows,
AddRoundKey) applied to the 16 bytes decoded from lane `g` of `st`; but round key `i` is
decoded from the eight 16-byte elements at `ks + 8i`, which are the words
`ks[8i], ks[8i+2], .., ks[8i+14]` (`transpose_t` is `uint128_t*`, while `key + 8*i` counts
`uint64_t`), not from `ks[8i .. 8i+8)`.  For the zero state and the key schedule whose only
non-zero word is `ks[1] = 1`, lane 0 of the result is sixteen bytes `36`, the cipher under
eleven zero round keys, while with round key `i` decoded from `ks[8i .. 8i+8)` the cipher
gives `d579495d ..`. -/
theorem block_cipher_round_keys_misplaced :
    (∀ (t st ks : List Nat) (g : Nat), g < 4 →
        decode_lane (block_cipher t st ks).st g
          = fips197.cipher_with (fun i => decode_lane (as_transpose (ks.drop (8 * i))) g)
              (decode_lane st g)) ∧
      (∀ (ks : List Nat) (i j : Nat), j < 8 →
        (as_transpose (ks.drop (8 * i))).getD j 0 = ks.getD (8 * i + 2 * j) 0) ∧
      decode_lane (block_cipher [] (List.replicate 8 0) (0 :: 1 :: List.replicate 86 0)).st 0
        = List.replicate 16 0x36 ∧
      fips197.cipher_with (fun i => decode_lane ((0 :: 1 :: List.replicate 86 0).drop (8 * i)) 0)
          (decode_lane (List.replicate 8 0) 0)
        = [0xd5, 0x79, 0x49, 0x5d, 0x53, 0x53, 0x67, 0x26,
            0x6f, 0x94, 0xde, 0x77, 0xd8, 0x6e, 0xf2, 0xb2] ∧
      decode_lane (block_cipher [] (List.replicate 8 0) (0 :: 1 :: List.replicate 86 0)).st 0
        ≠ fips197.cipher_with
            (fun i => decode_lane ((0 :: 1 :: List.replicate 86 0).drop (8 * i)) 0)
            (decode_lane (List.replicate 8 0) 0) := by
  have h1 : decode_lane
      (block_cipher [] (List.replicate 8 0) (0 :: 1 :: List.replicate 86 0)).st 0
        = List.replicate 16 0x36 := by
    rw [decode_lane_block_cipher _ _ _ _ (by decide)]
    decide
  have h2 : fips197.cipher_with
      (fun i => decode_lane ((0 :: 1 :: List.replicate 86 0).drop (8 * i)) 0)
      (decode_lane (List.replicate 8 0) 0)
        = [0xd5, 0x79, 0x49, 0x5d, 0x53, 0x53, 0x67, 0x26,
            0x6f, 0x94, 0xde, 0x77, 0xd8, 0x6e, 0xf2, 0xb2] := by
    decide
  refine ⟨decode_lane_block_cipher, ?_, h1, h2, ?_⟩
  · intro ks i j hj
    rw [as_transpose_getD _ _ hj, getD_drop_nat]
  · rw [h1, h2]
    decide

theorem cipher_eq_cipher_with (key block : List Nat) :
    fips197.cipher key block = fips197.cipher_with (fips197.round_key key) block := by
  have h : ∀ n s, fips197.full_rounds key n s
      = fips197.rounds_with (fips197.round_key key) n s := by
    intro n s
    induction n with
    | zero => rfl
    | succ n ih => rw [fips197.full_rounds, fips197.rounds_with, ih]
  rw [fips197.cipher, fips197.cipher_with]
  simp only [h]

theorem lane_agree_iff (a b : List Nat) (g : Nat) :
    lane_agree a b g ↔ decode_lane a g = decode_lane b g := by
  constructor
  · intro h
    apply list16_ext (decode_lane_length _ _) (decode_lane_length _ _)
    intro k hk
    rw [decode_lane_getD _ _ _ hk, decode_lane_getD _ _ _ hk]
    exact byte_at_congr_bits fun i hi => h i hi k hk
  · intro h i hi k hk
    have e : (decode_lane a g).getD k 0 = (decode_lane b g).getD k 0 := by rw [h]
    rw [decode_lane_getD _ _ _ hk, decode_lane_getD _ _ _ hk] at e
    rw [← testBit_byte_at a _ i hi, ← testBit_byte_at b _ i hi, e]

theorem getD_set_nat (m : List Nat) (p i v : Nat) (hi : i < m.length) :
    (m.set p v).getD i 0 = if p = i then v else m.getD i 0 := by
  rw [List.getD_eq_getElem?_getD, List.getD_eq_getElem?_getD, List.getElem?_set']
  by_cases h : p = i
  · rw [if_pos h, if_pos h, List.getElem?_eq_getElem hi]
    rfl
  · rw [if_neg h, if_neg h]

theorem getD_nat_of_le (l : List Nat) (k : Nat) (h : l.length ≤ k) : l.getD k 0 = 0 := by
  rw [List.getD_eq_getElem?_getD, List.getElem?_eq_none h]
  rfl

theorem mem_agree_getD {a b : List Nat} {g : Nat} (h : mem_agree a b g) (p k : Nat)
    (hk : k < 16) :
    (a.getD p 0).testBit (16 * g + k) = (b.getD p 0).testBit (16 * g + k) := by
  by_cases hp : p < a.length
  · exact h.2 p hp k hk
  · rw [getD_nat_of_le a p (by omega), getD_nat_of_le b p (by rw [← h.1]; omega)]

theorem mem_agree_set {a b : List Nat} {g : Nat} (h : mem_agree a b g) (p : Nat) {v w : Nat}
    (hv : ∀ k, k < 16 → v.testBit (16 * g + k) = w.testBit (16 * g + k)) :
    mem_agree (a.set p v) (b.set p w) g := by
  refine ⟨by rw [List.length_set, List.length_set, h.1], ?_⟩
  intro i hi k hk
  rw [List.length_set] at hi
  rw [getD_set_nat a p i v hi, getD_set_nat b p i w (by rw [← h.1]; exact hi)]
  by_cases e : p = i
  · rw [if_pos e, if_pos e]
    exact hv k hk
  · rw [if_neg e, if_neg e]
    exact h.2 i hi k hk

theorem mem_agree_set_elem {a b : List Nat} {g : Nat} (h : mem_agree a b g)
    (p j : Nat) {v w : Nat}
    (hv : ∀ k, k < 16 → v.testBit (16 * g + k) = w.testBit (16 * g + k)) :
    mem_agree (set_elem a p j v) (set_elem b p j w) g := by
  unfold set_elem
  apply mem_agree_set
  · apply mem_agree_set h
    intro k hk
    rw [Nat.testBit_mod_two_pow, Nat.testBit_mod_two_pow, hv k hk]
  · intro k _
    rfl

theorem foldl_mem_agree {g : Nat} (f f' : List Nat → Nat → List Nat)
    (hf : ∀ m m' i, mem_agree m m' g → mem_agree (f m i) (f' m' i) g) :
    ∀ (l : List Nat) (m m' : List Nat), mem_agree m m' g →
      mem_agree (l.foldl f m) (l.foldl f' m') g
  | [], _, _, h => h
  | i :: l, m, m', h => foldl_mem_agree f f' hf l _ _ (hf m m' i h)

theorem prefix_xor_bit_congr (pv pv' g r : Nat) (hr : r < 4)
    (h : ∀ k, k < 16 → pv.testBit (16 * g + k) = pv'.testBit (16 * g + k)) :
    ∀ c, c < 4 → prefix_xor_bit pv g r c = prefix_xor_bit pv' g r c
  | 0, _ => by
    rw [prefix_xor_bit, prefix_xor_bit, Nat.add_assoc, h (4 * 0 + r) (by omega)]
  | c + 1, hc => by
    rw [prefix_xor_bit, prefix_xor_bit, prefix_xor_bit_congr pv pv' g r hr h c (by omega),
      Nat.add_assoc, h (4 * (c + 1) + r) (by omega)]

theorem key_expansion_word_agree (nx nx' pv pv' rc i g : Nat) (hg : g < 4)
    (hn : ∀ k, k < 16 → nx.testBit (16 * g + k) = nx'.testBit (16 * g + k))
    (hp : ∀ k, k < 16 → pv.testBit (16 * g + k) = pv'.testBit (16 * g + k)) :
    ∀ k, k < 16 →
      (key_expansion_word nx pv rc i).testBit (16 * g + k)
        = (key_expansion_word nx' pv' rc i).testBit (16 * g + k) := by
  intro k hk
  have hc : k / 4 < 4 := by omega
  have hr : k % 4 < 4 := Nat.mod_lt _ (by decide)
  have hk' : 16 * g + k = 16 * g + 4 * (k / 4) + k % 4 := by omega
  rw [hk', key_expansion_word_bit _ _ _ _ g (k / 4) (k % 4) hg hc hr,
    key_expansion_word_bit _ _ _ _ g (k / 4) (k % 4) hg hc hr,
    prefix_xor_bit_congr pv pv' g _ hr hp _ hc, Nat.add_assoc (16 * g),
    hn (12 + (k % 4 + 1) % 4) (by omega)]

theorem subBytes_lane_agree (a b : List Nat) (g : Nat) (hg : g < 4) (h : lane_agree a b g) :
    lane_agree (subBytes a) (subBytes b) g := by
  rw [lane_agree_iff] at h
  rw [lane_agree_iff, decode_lane_subBytes _ _ hg, decode_lane_subBytes _ _ hg, h]

theorem subBytes_getD_agree (a b : List Nat) (g : Nat) (hg : g < 4) (h : lane_agree a b g)
    (j k : Nat) (hk : k < 16) :
    ((subBytes a).getD j 0).testBit (16 * g + k)
      = ((subBytes b).getD j 0).testBit (16 * g + k) := by
  by_cases hj : j < 8
  · exact subBytes_lane_agree a b g hg h j hj k hk
  · rw [getD_nat_of_le _ j (by rw [subBytes_length]; omega),
      getD_nat_of_le _ j (by rw [subBytes_length]; omega)]

theorem key_expansion_step_mem_agree (m m' : List Nat) (next prev rc g : Nat) (hg : g < 4)
    (h : mem_agree m m' g) :
    mem_agree (key_expansion_step m next prev rc) (key_expansion_step m' next prev rc) g := by
  have h1 : mem_agree
      ((List.range 8).foldl (fun a k => a.set (next + k) (m.getD (prev + k) 0)) m)
      ((List.range 8).foldl (fun a k => a.set (next + k) (m'.getD (prev + k) 0)) m') g := by
    refine foldl_mem_agree _ _ ?_ _ _ _ h
    intro a b k hab
    exact mem_agree_set hab _ (mem_agree_getD h _)
  have hs : lane_agree
      (as_transpose
        (((List.range 8).foldl (fun a k => a.set (next + k) (m.getD (prev + k) 0)) m).drop next))
      (as_transpose
        (((List.range 8).foldl (fun a k => a.set (next + k) (m'.getD (prev + k) 0)) m').drop
          next)) g := by
    intro i hi k hk
    rw [as_transpose_getD _ _ hi, as_transpose_getD _ _ hi, getD_drop_nat, getD_drop_nat]
    exact mem_agree_getD h1 _ k hk
  unfold key_expansion_step
  simp only
  refine foldl_mem_agree _ _ ?_ _ _ _ (foldl_mem_agree _ _ ?_ _ _ _ h1)
  · intro a b i hab
    exact mem_agree_set_elem hab _ _
      (key_expansion_word_agree _ _ _ _ _ _ g hg (mem_agree_getD hab _) (mem_agree_getD hab _))
  · intro a b j hab
    exact mem_agree_set_elem hab _ _ (subBytes_getD_agree _ _ g hg hs j)

/-- C29: lane independence of the AES round functions: for every lane `g < 4`, if two
states (and two round keys) agree on the bit positions `16g .. 16g + 15` of all eight
words, then the outputs of `subBytes`, `shiftRows`, `mixColumns` and `addRoundKey` agree on
the bit positions `16g .. 16g + 15` of all eight words; and if two arrays agree on these bit
positions of all their words (the elements of `prev`, and the elements of `next`, of which
`memcpy` replaces only four before `subBytes` reads all eight), then for every `rcon` and
all word offsets `next`, `prev` the arrays that `key_expansion_step` leaves agree on these
bit positions of all their words, in particular of the eight elements of `next`. -/
theorem lane_independence (a b ka kb : List Nat) (g : Nat) (hg : g < 4)
    (h : lane_agree a b g) (hk : lane_agree ka kb g) :
    lane_agree (subBytes a) (subBytes b) g ∧
      lane_agree (shiftRows a) (shiftRows b) g ∧
      lane_agree (mixColumns a) (mixColumns b) g ∧
      lane_agree (addRoundKey a ka) (addRoundKey b kb) g ∧
      ∀ (m m' : List Nat) (next prev rc : Nat), mem_agree m m' g →
        mem_agree (key_expansion_step m next prev rc) (key_expansion_step m' next prev rc) g ∧
          lane_agree (as_transpose ((key_expansion_step m next prev rc).drop next))
            (as_transpose ((key_expansion_step m' next prev rc).drop next)) g := by
  have h' := h
  rw [lane_agree_iff] at h hk
  refine ⟨subBytes_lane_agree a b g hg h', ?_, ?_, ?_, ?_⟩
  · rw [lane_agree_iff, decode_lane_shiftRows _ _ hg, decode_lane_shiftRows _ _ hg, h]
  · rw [lane_agree_iff, decode_lane_mixColumns _ _ hg, decode_lane_mixColumns _ _ hg, h]
  · rw [lane_agree_iff, decode_lane_addRoundKey, decode_lane_addRoundKey, h, hk]
  · intro m m' next prev rc hm
    have e := key_expansion_step_mem_agree m m' next prev rc g hg hm
    refine ⟨e, ?_⟩
    intro i hi k hk'
    rw [as_transpose_getD _ _ hi, as_transpose_getD _ _ hi, getD_drop_nat, getD_drop_nat]
    exact mem_agree_getD e _ k hk'

set_option maxRecDepth 1000000 in
theorem lane_independence_witness :
    (1 < 4 ∧
      lane_agree (lane_slice [fips_block, fips_key, fips_cipher, fips_block_alt])
        (lane_slice [fips_cipher, fips_key, fips_block, fips_key_alt]) 1 ∧
      lane_agree (lane_slice [fips_key, fips_cipher, fips_block, fips_block_alt])
        (lane_slice [fips_block, fips_cipher, fips_key, fips_key_alt]) 1 ∧
      mem_agree ((List.replicate 32 0xffff0000).set 24 0xffff1000) (List.replicate 32 0xffff3210)
        1) ∧
      mem_agree
        (key_expansion_step ((List.replicate 32 0xffff0000).set 24 0xffff1000) 16 0 1)
        (key_expansion_step (List.replicate 32 0xffff3210) 16 0 1) 1 :=
  ⟨by decide,
    ((lane_independence (lane_slice [fips_block, fips_key, fips_cipher, fips_block_alt])
      (lane_slice [fips_cipher, fips_key, fips_block, fips_key_alt])
      (lane_slice [fips_key, fips_cipher, fips_block, fips_block_alt])
      (lane_slice [fips_block, fips_cipher, fips_key, fips_key_alt]) 1 (by decide) (by decide)
      (by decide)).2.2.2.2 ((List.replicate 32 0xffff0000).set 24 0xffff1000)
        (List.replicate 32 0xffff3210) 16 0 1 (by decide)).1⟩

theorem broadcast_zero : broadcast 0 :=
  ⟨by decide, fun _ _ _ _ => by rw [Nat.zero_testBit, Nat.zero_testBit]⟩

theorem prefix_xor_bit_broadcast (pv g r : Nat) (hg : g < 4) (hr : r < 4)
    (h : broadcast pv) : ∀ c, c < 4 → prefix_xor_bit pv g r c = prefix_xor_bit pv 0 r c
  | 0, _ => by
    rw [prefix_xor_bit, prefix_xor_bit, Nat.add_assoc, h.2 g hg (4 * 0 + r) (by omega),
      Nat.mul_zero, Nat.zero_add]
  | c + 1, hc => by
    rw [prefix_xor_bit, prefix_xor_bit, prefix_xor_bit_broadcast pv g r hg hr h c (by omega),
      Nat.add_assoc, h.2 g hg (4 * (c + 1) + r) (by omega)]
    simp only [Nat.mul_zero, Nat.zero_add]

theorem subBytes_bit_broadcast (st : List Nat) (h : ∀ i, i < 8 → broadcast (st.getD i 0))
    (g m i : Nat) (hg : g < 4) (hm : m < 16) (hi : i < 8) :
    ((subBytes st).getD i 0).testBit (16 * g + m) = ((subBytes st).getD i 0).testBit m := by
  have e1 := subBytes_bit st (16 * g + m) (by omega)
  have e2 := subBytes_bit st m (by omega)
  rw [(h 0 (by decide)).2 g hg m hm, (h 1 (by decide)).2 g hg m hm,
    (h 2 (by decide)).2 g hg m hm, (h 3 (by decide)).2 g hg m hm,
    (h 4 (by decide)).2 g hg m hm, (h 5 (by decide)).2 g hg m hm,
    (h 6 (by decide)).2 g hg m hm, (h 7 (by decide)).2 g hg m hm, ← e2] at e1
  have e3 := congrArg (fun l => l.getD i false) e1
  simp only at e3
  rw [getD_map_testBit _ _ _ (by rw [subBytes_length]; exact hi),
    getD_map_testBit _ _ _ (by rw [subBytes_length]; exact hi)] at e3
  exact e3

theorem all_broadcast_getD {a : List Nat} (h : all_broadcast a) (p : Nat) :
    broadcast (a.getD p 0) := by
  by_cases hp : p < a.length
  · exact h p hp
  · rw [getD_nat_of_le a p (by omega)]
    exact broadcast_zero

theorem all_broadcast_set {a : List Nat} (h : all_broadcast a) (p : Nat) {v : Nat}
    (hv : broadcast v) : all_broadcast (a.set p v) := by
  intro i hi
  rw [List.length_set] at hi
  rw [getD_set_nat a p i v hi]
  by_cases e : p = i
  · rw [if_pos e]
    exact hv
  · rw [if_neg e]
    exact h i hi

theorem broadcast_mod {v : Nat}
    (hv : ∀ g, g < 4 → ∀ k, k < 16 → v.testBit (16 * g + k) = v.testBit k) :
    broadcast (v % 2 ^ 64) := by
  refine ⟨Nat.mod_lt _ (by decide), ?_⟩
  intro g hg k hk
  rw [Nat.testBit_mod_two_pow, Nat.testBit_mod_two_pow, hv g hg k hk,
    decide_eq_true (by omega : 16 * g + k < 64), decide_eq_true (by omega : k < 64)]

theorem all_broadcast_set_elem {a : List Nat} (h : all_broadcast a) (p j : Nat) {v : Nat}
    (hv : ∀ g, g < 4 → ∀ k, k < 16 → v.testBit (16 * g + k) = v.testBit k) :
    all_broadcast (set_elem a p j v) := by
  unfold set_elem
  exact all_broadcast_set (all_broadcast_set h _ (broadcast_mod hv)) _ broadcast_zero

theorem foldl_all_broadcast (f : List Nat → Nat → List Nat)
    (hf : ∀ m i, all_broadcast m → all_broadcast (f m i)) :
    ∀ (l : List Nat) (m : List Nat), all_broadcast m → all_broadcast (l.foldl f m)
  | [], _, h => h
  | i :: l, m, h => foldl_all_broadcast f hf l _ (hf m i h)

theorem key_expansion_word_broadcast (nx pv rc i : Nat)
    (hn : ∀ g, g < 4 → ∀ k, k < 16 → nx.testBit (16 * g + k) = nx.testBit k)
    (hp : broadcast pv) :
    ∀ g, g < 4 → ∀ k, k < 16 →
      (key_expansion_word nx pv rc i).testBit (16 * g + k)
        = (key_expansion_word nx pv rc i).testBit k := by
  intro g hg k hk
  have hc : k / 4 < 4 := by omega
  have hr : k % 4 < 4 := Nat.mod_lt _ (by decide)
  have hk' : 16 * g + k = 16 * g + 4 * (k / 4) + k % 4 := by omega
  have hk0 : k = 16 * 0 + 4 * (k / 4) + k % 4 := by omega
  rw [hk', key_expansion_word_bit _ _ _ _ g (k / 4) (k % 4) hg hc hr]
  conv => rhs; rw [hk0, key_expansion_word_bit _ _ _ _ 0 (k / 4) (k % 4) (by decide) hc hr]
  rw [prefix_xor_bit_broadcast _ g _ hg hr hp _ hc, Nat.add_assoc (16 * g),
    hn g hg (12 + (k % 4 + 1) % 4) (by omega), Nat.mul_zero, Nat.zero_add]

theorem subBytes_getD_broadcast (st : List Nat) (h : ∀ i, i < 8 → broadcast (st.getD i 0))
    (j : Nat) :
    ∀ g, g < 4 → ∀ k, k < 16 →
      ((subBytes st).getD j 0).testBit (16 * g + k) = ((subBytes st).getD j 0).testBit k := by
  intro g hg k hk
  by_cases hj : j < 8
  · exact subBytes_bit_broadcast st h g k j hg hk hj
  · rw [getD_nat_of_le _ j (by rw [subBytes_length]; omega), Nat.zero_testBit,
      Nat.zero_testBit]

theorem key_expansion_step_all_broadcast (m : List Nat) (next prev rc : Nat)
    (h : all_broadcast m) : all_broadcast (key_expansion_step m next prev rc) := by
  have h1 : all_broadcast
      ((List.range 8).foldl (fun a k => a.set (next + k) (m.getD (prev + k) 0)) m) := by
    refine foldl_all_broadcast _ ?_ _ _ h
    intro a k ha
    exact all_broadcast_set ha _ (all_broadcast_getD h _)
  have hs : ∀ i, i < 8 → broadcast
      ((as_transpose
        (((List.range 8).foldl (fun a k => a.set (next + k) (m.getD (prev + k) 0)) m).drop
          next)).getD i 0) := by
    intro i hi
    rw [as_transpose_getD _ _ hi, getD_drop_nat]
    exact all_broadcast_getD h1 _
  unfold key_expansion_step
  simp only
  refine foldl_all_broadcast _ ?_ _ _ (foldl_all_broadcast _ ?_ _ _ h1)
  · intro a i ha
    exact all_broadcast_set_elem ha _ _
      (key_expansion_word_broadcast _ _ _ _ (all_broadcast_getD ha _).2 (all_broadcast_getD ha _))
  · intro a j ha
    exact all_broadcast_set_elem ha _ _ (subBytes_getD_broadcast _ hs j)

theorem copy_elem_bit (x i g k : Nat) (hg : g < 8) (hk : k < 16) :
    (copy_elem x i).testBit (16 * g + k) = (x >>> (16 * i)).testBit k := by
  unfold copy_elem
  simp only
  generalize x >>> (16 * i) = y
  interval_cases g <;> interval_cases k <;>
    simp (disch := decide) only [shl128, Nat.testBit_xor, testBit_and_of_true,
      testBit_and_of_false, Nat.testBit_shiftLeft, Nat.testBit_mod_two_pow, Bool.and_true,
      Bool.true_and, Bool.and_false, Bool.false_and, Bool.xor_false, Bool.false_xor,
      Nat.reduceAdd, Nat.reduceMul, Nat.reduceSub, Nat.reduceLeDiff, Nat.reduceLT, ge_iff_le,
      decide_True, decide_False, Nat.add_zero, Nat.zero_add]

theorem copy_elem_low_broadcast (x i : Nat) : broadcast (copy_elem x i % 2 ^ 64) := by
  apply broadcast_mod
  intro g hg k hk
  rw [copy_elem_bit x i g k (by omega) hk]
  have h0 := copy_elem_bit x i 0 k (by decide) hk
  rw [Nat.mul_zero, Nat.zero_add] at h0
  rw [h0]

theorem copy_elem_high_broadcast (x i : Nat) : broadcast (copy_elem x i / 2 ^ 64 % 2 ^ 64) := by
  have hb : ∀ j, (copy_elem x i / 2 ^ 64).testBit j = (copy_elem x i).testBit (64 + j) := by
    intro j
    rw [← Nat.shiftRight_eq_div_pow, Nat.testBit_shiftRight]
  apply broadcast_mod
  intro g hg k hk
  rw [hb, hb, show 64 + (16 * g + k) = 16 * (4 + g) + k by omega,
    show 64 + k = 16 * 4 + k by omega, copy_elem_bit x i (4 + g) k (by omega) hk,
    copy_elem_bit x i 4 k (by decide) hk]

theorem to_transpose_block_copy_broadcast (inp : List Byte) (i : Nat) (hi : i < 8) :
    broadcast ((to_transpose_block_copy inp).getD i 0) := by
  rw [to_transpose_block_copy, getD_map_range8 _ i hi]
  exact copy_elem_low_broadcast _ _

theorem key_expansion_all_broadcast (out : List Nat) (K : List Byte) (h : all_broadcast out) :
    all_broadcast (key_expansion out K) := by
  unfold key_expansion
  simp only
  refine foldl_all_broadcast _ ?_ _ _ (foldl_all_broadcast _ ?_ _ _ h)
  · intro a j ha
    exact key_expansion_step_all_broadcast a _ _ _ ha
  · intro a i ha
    unfold set_elem128
    exact all_broadcast_set (all_broadcast_set ha _ (copy_elem_low_broadcast _ _)) _
      (copy_elem_high_broadcast _ _)

theorem all_broadcast_replicate_zero (n : Nat) : all_broadcast (List.replicate n 0) := by
  intro i hi
  rw [List.length_replicate] at hi
  rw [List.getD_eq_getElem?_getD, List.getElem?_replicate, if_pos hi]
  exact broadcast_zero

theorem transpose128_eq (x : Nat) :
    transpose128 x
      = ((x &&& 0x80402010080402018040201008040201) |||
          ((x &&& 0x40201008040201004020100804020100) >>> 7) |||
          ((x &&& 0x20100804020100002010080402010000) >>> 14) |||
          ((x &&& 0x10080402010000001008040201000000) >>> 21) |||
          ((x &&& 0x08040201000000000804020100000000) >>> 28) |||
          ((x &&& 0x04020100000000000402010000000000) >>> 35) |||
          ((x &&& 0x02010000000000000201000000000000) >>> 42) |||
          ((x &&& 0x01000000000000000100000000000000) >>> 49) |||
          (shl128 x 7 &&& 0x40201008040201004020100804020100) |||
          (shl128 x 14 &&& 0x20100804020100002010080402010000) |||
          (shl128 x 21 &&& 0x10080402010000001008040201000000) |||
          (shl128 x 28 &&& 0x08040201000000000804020100000000) |||
          (shl128 x 35 &&& 0x04020100000000000402010000000000) |||
          (shl128 x 42 &&& 0x02010000000000000201000000000000) |||
          (shl128 x 49 &&& 0x01000000000000000100000000000000)) % 2 ^ 64 :=
  rfl

theorem transpose128_bit (x r c : Nat) (hr : r < 8) (hc : c < 8) :
    (transpose128 x).testBit (8 * c + r) = x.testBit (8 * r + c) := by
  rw [transpose128_eq]
  interval_cases c <;> interval_cases r <;>
    simp (disch := decide) only [shl128, Nat.testBit_or, testBit_and_of_true,
      testBit_and_of_false, Nat.testBit_shiftRight, Nat.testBit_shiftLeft,
      Nat.testBit_mod_two_pow, Bool.or_false, Bool.false_or, Bool.and_true, Bool.true_and,
      Bool.and_false, Bool.false_and, Nat.reduceAdd, Nat.reduceMul, Nat.reduceSub,
      Nat.reduceLeDiff, Nat.reduceLT, ge_iff_le, decide_True, decide_False, Nat.add_zero,
      Nat.zero_add]

theorem transpose128_wide_eq (x : Nat) :
    transpose128_wide x
      = (x &&& 0x80402010080402018040201008040201) |||
          ((x &&& 0x40201008040201004020100804020100) >>> 7) |||
          ((x &&& 0x20100804020100002010080402010000) >>> 14) |||
          ((x &&& 0x10080402010000001008040201000000) >>> 21) |||
          ((x &&& 0x08040201000000000804020100000000) >>> 28) |||
          ((x &&& 0x04020100000000000402010000000000) >>> 35) |||
          ((x &&& 0x02010000000000000201000000000000) >>> 42) |||
          ((x &&& 0x01000000000000000100000000000000) >>> 49) |||
          (shl128 x 7 &&& 0x40201008040201004020100804020100) |||
          (shl128 x 14 &&& 0x20100804020100002010080402010000) |||
          (shl128 x 21 &&& 0x10080402010000001008040201000000) |||
          (shl128 x 28 &&& 0x08040201000000000804020100000000) |||
          (shl128 x 35 &&& 0x04020100000000000402010000000000) |||
          (shl128 x 42 &&& 0x02010000000000000201000000000000) |||
          (shl128 x 49 &&& 0x01000000000000000100000000000000) :=
  rfl

theorem transpose128_wide_bit (x h r c : Nat) (hh : h < 2) (hr : r < 8) (hc : c < 8) :
    (transpose128_wide x).testBit (64 * h + 8 * c + r) = x.testBit (64 * h + 8 * r + c) := by
  rw [transpose128_wide_eq]
  interval_cases h <;> interval_cases c <;> interval_cases r <;>
    simp (disch := decide) only [shl128, Nat.testBit_or, testBit_and_of_true,
      testBit_and_of_false, Nat.testBit_shiftRight, Nat.testBit_shiftLeft,
      Nat.testBit_mod_two_pow, Bool.or_false, Bool.false_or, Bool.and_true, Bool.true_and,
      Bool.and_false, Bool.false_and, Nat.reduceAdd, Nat.reduceMul, Nat.reduceSub,
      Nat.reduceLeDiff, Nat.reduceLT, ge_iff_le, decide_True, decide_False, Nat.add_zero,
      Nat.zero_add]

theorem transpose128_lt (x : Nat) : transpose128 x < 2 ^ 64 := by
  rw [transpose128_eq]
  exact Nat.mod_lt _ (by decide)

theorem transpose128_involutive_64 (x : Nat) (hx : x < 2 ^ 64) :
    transpose128 (transpose128 x) = x := by
  apply Nat.eq_of_testBit_eq
  intro j
  by_cases hj : j < 64
  · have e : j = 8 * (j / 8) + j % 8 := by omega
    have hr : j % 8 < 8 := Nat.mod_lt _ (by decide)
    have hc : j / 8 < 8 := by omega
    rw [e, transpose128_bit _ _ _ hr hc, transpose128_bit _ _ _ hc hr]
  · have h64 : 2 ^ 64 ≤ 2 ^ j := Nat.pow_le_pow_right (by decide) (by omega)
    have h1 := transpose128_lt (transpose128 x)
    rw [Nat.testBit_lt_two_pow (by omega), Nat.testBit_lt_two_pow (by omega)]

/-- C23 (evaluation of the code at the failing input): `transpose128` is declared with
return type `uint64_t`, so its result is below `2^64` for every input and the upper half of
the transpose is lost: for `x = 2^64` (bit 64 set, `h = 1`, `r = c = 0`) the result is 0,
bit 64 of the result differs from bit 64 of `x`, and `transpose128 (transpose128 x)` is not
`x`.  The 128-bit value computed before the `return` is the 8x8 bit-matrix transpose of
both halves, the returned value is the transpose of the lower half, and `transpose128` is
an involution on values below `2^64`. -/
theorem transpose128_drops_upper_half :
    (∀ x, transpose128 x < 2 ^ 64) ∧
      transpose128 (2 ^ 64) = 0 ∧
      (transpose128 (2 ^ 64)).testBit (64 * 1 + 8 * 0 + 0)
        ≠ (2 ^ 64).testBit (64 * 1 + 8 * 0 + 0) ∧
      transpose128 (transpose128 (2 ^ 64)) ≠ 2 ^ 64 ∧
      (∀ x, transpose128 x = transpose128_wide x % 2 ^ 64) ∧
      (∀ x h r c, h < 2 → r < 8 → c < 8 →
        (transpose128_wide x).testBit (64 * h + 8 * c + r) = x.testBit (64 * h + 8 * r + c)) ∧
      (∀ x r c, r < 8 → c < 8 →
        (transpose128 x).testBit (8 * c + r) = x.testBit (8 * r + c)) ∧
      (∀ x, x < 2 ^ 64 → transpose128 (transpose128 x) = x) :=
  ⟨transpose128_lt, by decide, by decide, by decide, fun _ => rfl,
    fun x h r c hh hr hc => transpose128_wide_bit x h r c hh hr hc,
    fun x r c hr hc => transpose128_bit x r c hr hc, transpose128_involutive_64⟩

/-- C24: structure of the CTR driver.  The driver is `aes128_ctr_with blk`, the body of
`aes128_ctr` with the function that it calls for a keystream group as a parameter, and
`aes128_ctr` is `aes128_ctr_with aes128_block`.  For every block function, every `in_len`
and every `i < in_len` (with an output buffer of at least `in_len` bytes), the driver sets
`out[i] = in[i] XOR KB_(i / 64)[i mod 64]`, where `KB_j` is the 64-byte output of call
number `j`, `blk (kex, nt, (c + 4j) mod 2^32)`, with `kex = key_expansion k` on a zero
array and `nt` the encoding by `to_transpose_block_copy` of the block `nonce || 00000000`;
call `j` starts from the values of `t0 .. t7` that call `j - 1` left (`call_state`), and
the driver returns the values left by the last of its `ceil(in_len / 64)` calls. -/
theorem ctr_driver_structure
    (blk : List Nat → List Nat → List Nat → Nat → List Byte × List Nat)
    (t : List Nat) (out inp : List Byte) (in_len : Nat)
    (k n : List Byte) (c i : Nat) (hi : i < in_len) (hout : in_len ≤ out.length) :
    (aes128_ctr_with blk t out inp in_len k n c).1[i]?
        = some ((inp.getD i 0).xor
            ((blk
                (call_state blk t (key_expansion (List.replicate (8 * 11) 0) k)
                  (to_transpose_block_copy (n.take 12 ++ List.replicate 4 (0 : Byte))) c
                  (i / 64))
                (key_expansion (List.replicate (8 * 11) 0) k)
                (to_transpose_block_copy (n.take 12 ++ List.replicate 4 (0 : Byte)))
                ((c + 4 * (i / 64)) % 2 ^ 32)).1.getD (i % 64) 0)) ∧
      (aes128_ctr_with blk t out inp in_len k n c).2
        = call_state blk t (key_expansion (List.replicate (8 * 11) 0) k)
            (to_transpose_block_copy (n.take 12 ++ List.replicate 4 (0 : Byte))) c
            ((in_len + 63) / 64) ∧
      (∀ j : Nat,
        call_state blk t (key_expansion (List.replicate (8 * 11) 0) k)
            (to_transpose_block_copy (n.take 12 ++ List.replicate 4 (0 : Byte))) c (j + 1)
          = (blk
              (call_state blk t (key_expansion (List.replicate (8 * 11) 0) k)
                (to_transpose_block_copy (n.take 12 ++ List.replicate 4 (0 : Byte))) c j)
              (key_expansion (List.replicate (8 * 11) 0) k)
              (to_transpose_block_copy (n.take 12 ++ List.replicate 4 (0 : Byte)))
              ((c + 4 * j) % 2 ^ 32)).2) ∧
      call_state blk t (key_expansion (List.replicate (8 * 11) 0) k)
          (to_transpose_block_copy (n.take 12 ++ List.replicate 4 (0 : Byte))) c 0 = t ∧
      aes128_ctr t out inp in_len k n c
        = aes128_ctr_with aes128_block t out inp in_len k n c := by
  refine ⟨?_, aes128_ctr_with_state blk t out inp in_len k n c, fun _ => rfl, rfl, rfl⟩
  rw [aes128_ctr_with_get, if_pos hi, some_getD (by omega : i < out.length), Option.map_some']
  rfl

set_option maxRecDepth 1000000 in
theorem ctr_driver_structure_witness :
    (65 < 70 ∧ 70 ≤ (List.replicate 80 (0 : Byte)).length) ∧
      (aes128_ctr_with aes128_block (List.replicate 8 3) (List.replicate 80 0)
          (List.replicate 70 7) 70 fips_key zero_nonce 0xfffffffe).1[65]?
        = some (((List.replicate 70 (7 : Byte)).getD 65 0).xor
            ((aes128_block
                (call_state aes128_block (List.replicate 8 3)
                  (key_expansion (List.replicate (8 * 11) 0) fips_key)
                  (to_transpose_block_copy (zero_nonce.take 12 ++ List.replicate 4 (0 : Byte)))
                  0xfffffffe (65 / 64))
                (key_expansion (List.replicate (8 * 11) 0) fips_key)
                (to_transpose_block_copy (zero_nonce.take 12 ++ List.replicate 4 (0 : Byte)))
                ((0xfffffffe + 4 * (65 / 64)) % 2 ^ 32)).1.getD (65 % 64) 0)) :=
  ⟨by decide,
    (ctr_driver_structure aes128_block (List.replicate 8 3) (List.replicate 80 0)
      (List.replicate 70 7) 70 fips_key zero_nonce 0xfffffffe 65 (by decide) (by decide)).1⟩

theorem counter_state_low_bit (st nt : List Nat) (i j k : Nat) (hi : i < 8) (hj : j < 4)
    (hk : k < 12) :
    ((counter_state st nt).getD i 0).testBit (16 * j + k) = (nt.getD i 0).testBit (16 * j + k) := by
  rw [counter_state, getD_map_range8 _ i hi]
  interval_cases j <;> interval_cases k <;>
    simp (disch := decide) only [Nat.testBit_xor, testBit_and_of_false, Bool.false_xor,
      Nat.reduceAdd, Nat.reduceMul]

set_option maxRecDepth 1000000 in
/-- C25 (evaluation of the code at the failing input): the state that `aes128_block` hands
to `block_cipher` is `counter_state (to_transpose_block ctr) nt`; it keeps the bytes
`0 .. 11` of every lane of `nt`, but with `c = 0` and a zero nonce state the bytes
`12 .. 15` of lane 2 are `00 00 00 00`, not `BE32(2) = 00 00 00 02` (lane 3 likewise):
`to_transpose_block` encodes only the first eight bytes of `ctr`, in a layout that is not
the lane layout.  With the counter block lane-sliced, the same loop gives
`00 00 00 02`. -/
theorem counter_placement_fails :
    (∀ (t kex nt : List Nat) (c : Nat),
        aes128_block t kex nt c
          = ((block_cipher t (counter_state (to_transpose_block (counter_block c)) nt) kex).out,
              (block_cipher t (counter_state (to_transpose_block (counter_block c)) nt)
                kex).t)) ∧
      (∀ (st nt : List Nat) (j k : Nat), j < 4 → k < 12 →
        byte_at (counter_state st nt) (16 * j + k) = byte_at nt (16 * j + k)) ∧
      store32_be ((0 + 2) % 2 ^ 32) = [0, 0, 0, 2] ∧
      (decode_lane (counter_state (to_transpose_block (counter_block 0)) (List.replicate 8 0))
          2).drop 12 = [0, 0, 0, 0] ∧
      (decode_lane (counter_state (to_transpose_block (counter_block 0)) (List.replicate 8 0))
          3).drop 12 = [0, 0, 0, 0] ∧
      (decode_lane (counter_state (lane_slice [counter_block 0]) (List.replicate 8 0))
          2).drop 12 = [0, 0, 0, 2] :=
  ⟨fun _ _ _ _ => rfl,
    fun st nt j k hj hk =>
      byte_at_congr_bits fun i hi => counter_state_low_bit st nt i j k hi hj hk,
    by decide, by decide, by decide, by decide⟩

theorem getD_take_byte (l : List Byte) (m i : Nat) (h : i < m) :
    (l.take m).getD i 0 = l.getD i 0 := by
  rw [List.getD_eq_getElem?_getD, List.getD_eq_getElem?_getD, List.getElem?_take_of_lt h]

theorem take_ext_byte {a b : List Byte} (n : Nat) (h : ∀ i, i < n → a[i]? = b[i]?) :
    a.take n = b.take n := by
  apply List.ext_getElem?
  intro i
  by_cases hi : i < n
  · rw [List.getElem?_take_of_lt hi, List.getElem?_take_of_lt hi, h i hi]
  · rw [List.getElem?_take_eq_none (by omega), List.getElem?_take_eq_none (by omega)]

theorem ctr_get_some (t : List Nat) (out inp : List Byte) (in_len : Nat) (k n : List Byte)
    (c i : Nat) (hi : i < in_len) (ho : in_len ≤ out.length) :
    (aes128_ctr t out inp in_len k n c).1[i]?
      = some ((inp.getD i 0).xor
          ((keystream_group aes128_block t (key_expansion (List.replicate (8 * 11) 0) k)
            (to_transpose_block_copy (n.take 12 ++ List.replicate 4 (0 : Byte))) c
            (i / 64)).getD (i % 64) 0)) := by
  unfold aes128_ctr
  rw [aes128_ctr_with_get, if_pos hi, some_getD (by omega : i < out.length), Option.map_some']

/-- C31 (evaluation of the code at the failing input): with `t0 .. t7 = 3` on entry, the
FIPS-197 key, the zero nonce and counter `0xfffffffe`, the call on 70 bytes `07` writes
`06 06 06 06 07 07` at the offsets `64 .. 69` (second call of `aes128_block`, which starts
from the values that the first call left in `t0 .. t7`), while the call on the last 6 bytes
with counter `(c + 4) mod 2^32` writes `08 08 07 07 07 07` when it starts from
`t0 .. t7 = 3`, and `04 07 07 07 07 07` when it starts from the values that the call on 70
bytes left.  The other half of the claim holds: for every `m <= |M|` the first `m` output
bytes are those of the call on `M[0..m)` that starts from the same `t0 .. t7`. -/
theorem ctr_seek_fails :
    ((aes128_ctr (List.replicate 8 3) (List.replicate 80 0) (List.replicate 70 7) 70 fips_key
          zero_nonce 0xfffffffe).1.drop (64 * 1)).take 6 = [6, 6, 6, 6, 7, 7] ∧
      (aes128_ctr (List.replicate 8 3) (List.replicate 6 0) ((List.replicate 70 7).drop (64 * 1))
          6 fips_key zero_nonce ((0xfffffffe + 4 * 1) % 2 ^ 32)).1 = [8, 8, 7, 7, 7, 7] ∧
      (aes128_ctr
          (aes128_ctr (List.replicate 8 3) (List.replicate 80 0) (List.replicate 70 7) 70
            fips_key zero_nonce 0xfffffffe).2
          (List.replicate 6 0) ((List.replicate 70 7).drop (64 * 1))
          6 fips_key zero_nonce ((0xfffffffe + 4 * 1) % 2 ^ 32)).1 = [4, 7, 7, 7, 7, 7] ∧
      (∀ (t : List Nat) (out out3 M K N : List Byte) (c m : Nat),
        m ≤ M.length → M.length ≤ out.length → m ≤ out3.length →
        (aes128_ctr t out M M.length K N c).1.take m
          = (aes128_ctr t out3 (M.take m) m K N c).1.take m) := by
  refine ⟨?_, ?_, ?_, ?_⟩
  · simp only [aes128_ctr, aes128_ctr_with, aes128_block_const]
    decide
  · simp only [aes128_ctr, aes128_ctr_with, aes128_block_const]
    decide
  · simp only [aes128_ctr, aes128_ctr_with, aes128_block_const]
    decide
  · intro t out out3 M K N c m hm ho ho3
    apply take_ext_byte
    intro i hi
    rw [ctr_get_some _ _ _ _ _ _ _ _ (by omega) ho, ctr_get_some _ _ _ _ _ _ _ _ hi ho3,
      getD_take_byte _ _ _ hi]

end aes_bslice8

namespace Poly1305_64

theorem shift_reduce_mod (a : Arr3) :
    Hacl_Bignum_Fmul_shift_reduce a = Arr3.mk (20 * a.a2 % 2 ^ 64) a.a0 a.a1 := by
  simp only [Hacl_Bignum_Fmul_shift_reduce, Hacl_Bignum_Modulo_reduce,
    Hacl_Bignum_Fproduct_shift, add64, shl64, Nat.shiftLeft_eq, Arr3.mk.injEq, and_true]
  omega

/-- C32 (counterexample): `Hacl_Bignum_Fmul_shift_reduce` maps the limbs `(0, 0, 1)` to
`(20, 0, 0)`, not to `(5, 0, 0)`. -/
theorem shift_reduce_is_not_times_five :
    Hacl_Bignum_Fmul_shift_reduce (Arr3.mk 0 0 1) = Arr3.mk 20 0 0 ∧
      Hacl_Bignum_Fmul_shift_reduce (Arr3.mk 0 0 1) ≠ Arr3.mk (5 * 1) 0 0 := by
  decide

/-- C32 (as amended): the shift-and-reduce step of the field multiply,
`Hacl_Bignum_Fproduct_shift` followed by `Hacl_Bignum_Modulo_reduce`, maps the limbs
`(a0, a1, a2)` to `(20*a2 mod 2^64, a0, a1)`: the ejected top limb is multiplied by
`(b0 << 4) + (b0 << 2) = 20*b0` in 64-bit arithmetic when it wraps into limb 0, which is
`20*a2` exactly for `a2 < 2^59`; `20 = 2^132 mod (2^130 - 5)`. -/
theorem shift_reduce_is_times_twenty (a : Arr3) :
    Hacl_Bignum_Fmul_shift_reduce a
        = Hacl_Bignum_Modulo_reduce (Hacl_Bignum_Fproduct_shift a) ∧
      Hacl_Bignum_Fproduct_shift a = Arr3.mk a.a2 a.a0 a.a1 ∧
      Hacl_Bignum_Fmul_shift_reduce a = Arr3.mk (20 * a.a2 % 2 ^ 64) a.a0 a.a1 ∧
      (a.a2 < 2 ^ 59 → Hacl_Bignum_Fmul_shift_reduce a = Arr3.mk (20 * a.a2) a.a0 a.a1) ∧
      2 ^ 132 % prime = 20 :=
  ⟨rfl, rfl, shift_reduce_mod a, fun h => shift_reduce_eq a h, by decide⟩

/-- C33: `Hacl_Bignum_Fmul_shift_reduce` multiplies the represented value by `2^44` modulo
`p = 2^130 - 5`: for every limb triple with `a2 < 2^59`,
`val (shift_reduce a) = 2^44 * val a (mod p)`, with `val (x0, x1, x2) = x0 + x1*2^44 +
x2*2^88`. -/
theorem shift_reduce_times_two_pow_44 (a : Arr3) (h : a.a2 < 2 ^ 59) :
    val (Hacl_Bignum_Fmul_shift_reduce a) % prime = (2 ^ 44 * val a) % prime := by
  rw [shift_reduce_eq a h]
  have e : 2 ^ 44 * val a = val (Arr3.mk (20 * a.a2) a.a0 a.a1) + (4 * a.a2) * prime := by
    simp only [val, prime]
    omega
  rw [e, Nat.add_mul_mod_self_right]

theorem shift_reduce_times_two_pow_44_witness :
    (2 ^ 59 - 1 < 2 ^ 59) ∧
      val (Hacl_Bignum_Fmul_shift_reduce (Arr3.mk 3 (2 ^ 64 - 1) (2 ^ 59 - 1))) % prime
        = (2 ^ 44 * val (Arr3.mk 3 (2 ^ 64 - 1) (2 ^ 59 - 1))) % prime :=
  ⟨by decide,
    shift_reduce_times_two_pow_44 (Arr3.mk 3 (2 ^ 64 - 1) (2 ^ 59 - 1)) (by decide)⟩

theorem carry_top_mod (b : Arr3) (h2 : b.a2 < 2 ^ 64) :
    Hacl_Bignum_Modulo_carry_top b
      = Arr3.mk ((b.a0 + 5 * (b.a2 / 2 ^ 42)) % 2 ^ 64) b.a1 (b.a2 % 2 ^ 42) := by
  obtain ⟨b0, b1, b2⟩ := b
  simp only at h2
  simp only [Hacl_Bignum_Modulo_carry_top, and_mask42, add64, shl64, Nat.shiftLeft_eq,
    Nat.shiftRight_eq_div_pow, Arr3.mk.injEq, and_true, true_and]
  generalize hk : b2 / 2 ^ 42 = k
  have hkb : k < 2 ^ 22 := by omega
  have e1 : (k * 2 ^ 2 % 2 ^ 64 + k) % 2 ^ 64 = 5 * k := by omega
  rw [e1]
  omega

theorem carry_top_wide_mod (b : Arr3) (h2 : 5 * (b.a2 / 2 ^ 42) < 2 ^ 64) :
    Hacl_Bignum_Modulo_carry_top_wide b
      = Arr3.mk ((b.a0 + 5 * (b.a2 / 2 ^ 42)) % 2 ^ 128) b.a1 (b.a2 % 2 ^ 42) := by
  obtain ⟨b0, b1, b2⟩ := b
  simp only at h2
  simp only [Hacl_Bignum_Modulo_carry_top_wide, and_mask42, FStar_UInt128_add,
    FStar_UInt128_logand, FStar_UInt128_shift_right, FStar_Int_Cast_Full_uint64_to_uint128,
    FStar_Int_Cast_Full_uint128_to_uint64, add64, shl64, Nat.shiftLeft_eq,
    Nat.shiftRight_eq_div_pow, Arr3.mk.injEq, and_true, true_and]
  generalize hk : b2 / 2 ^ 42 = k at h2
  have e0 : k % 2 ^ 64 = k := Nat.mod_eq_of_lt (by omega)
  rw [e0]
  have e1 : (k * 2 ^ 2 % 2 ^ 64 + k) % 2 ^ 64 = 5 * k := by omega
  rw [e1]

theorem carry_top_value (b0 b1 b2 : Nat) :
    val (Arr3.mk (b0 + 5 * (b2 / 2 ^ 42)) b1 (b2 % 2 ^ 42)) % prime
      = val (Arr3.mk b0 b1 b2) % prime := by
  have e : val (Arr3.mk b0 b1 b2)
      = val (Arr3.mk (b0 + 5 * (b2 / 2 ^ 42)) b1 (b2 % 2 ^ 42)) + (b2 / 2 ^ 42) * prime := by
    simp only [val, prime]
    omega
  rw [e, Nat.add_mul_mod_self_right]

set_option maxRecDepth 100000 in
/-- C34 (counterexample): on the 128-bit limbs `(0, 0, 2^106)` the sum `b0 + 5*(b2 >> 42)`
is `5 * 2^64` and fits the 128-bit limb, but `Hacl_Bignum_Modulo_carry_top_wide` cuts
`b2 >> 42` to 64 bits and returns `(0, 0, 0)`: limb 0 is not `b0 + 5*(b2 >> 42)` and the
value modulo `2^130 - 5` changes. -/
theorem carry_top_wide_truncates :
    0 + 5 * (2 ^ 106 >>> 42) < 2 ^ 128 ∧
      Hacl_Bignum_Modulo_carry_top_wide (Arr3.mk 0 0 (2 ^ 106)) = Arr3.mk 0 0 0 ∧
      (Hacl_Bignum_Modulo_carry_top_wide (Arr3.mk 0 0 (2 ^ 106))).a0
        ≠ 0 + 5 * (2 ^ 106 >>> 42) ∧
      val (Hacl_Bignum_Modulo_carry_top_wide (Arr3.mk 0 0 (2 ^ 106))) % prime
        ≠ val (Arr3.mk 0 0 (2 ^ 106)) % prime := by
  decide

/-- C34 (as amended): `carry_top` folds the bits of limb 2 above bit 42 into limb 0 with
multiplier 5.  For every triple of 64-bit limbs `Hacl_Bignum_Modulo_carry_top` sets
`b2' = b2 mod 2^42`, `b0' = (b0 + 5*(b2 >> 42)) mod 2^64` and leaves `b1`; for every triple
of 128-bit limbs with `5*(b2 >> 42) < 2^64` (the carry and its product by 5 are computed
in 64 bits) `Hacl_Bignum_Modulo_carry_top_wide` sets `b2' = b2 mod 2^42`,
`b0' = (b0 + 5*(b2 >> 42)) mod 2^128` and leaves `b1`; when moreover `b0 + 5*(b2 >> 42)`
does not overflow the limb width, `b0' = b0 + 5*(b2 >> 42)` and the value
`b0 + b1*2^44 + b2*2^88` modulo `2^130 - 5` is preserved. -/
theorem carry_top_folds_times_five (b : Arr3) :
    (b.a2 < 2 ^ 64 →
        Hacl_Bignum_Modulo_carry_top b
          = Arr3.mk ((b.a0 + 5 * (b.a2 >>> 42)) % 2 ^ 64) b.a1 (b.a2 % 2 ^ 42)) ∧
      (b.a2 < 2 ^ 64 → b.a0 + 5 * (b.a2 >>> 42) < 2 ^ 64 →
        Hacl_Bignum_Modulo_carry_top b
            = Arr3.mk (b.a0 + 5 * (b.a2 >>> 42)) b.a1 (b.a2 % 2 ^ 42) ∧
          val (Hacl_Bignum_Modulo_carry_top b) % prime = val b % prime) ∧
      (5 * (b.a2 >>> 42) < 2 ^ 64 →
        Hacl_Bignum_Modulo_carry_top_wide b
          = Arr3.mk ((b.a0 + 5 * (b.a2 >>> 42)) % 2 ^ 128) b.a1 (b.a2 % 2 ^ 42)) ∧
      (5 * (b.a2 >>> 42) < 2 ^ 64 → b.a0 + 5 * (b.a2 >>> 42) < 2 ^ 128 →
        Hacl_Bignum_Modulo_carry_top_wide b
            = Arr3.mk (b.a0 + 5 * (b.a2 >>> 42)) b.a1 (b.a2 % 2 ^ 42) ∧
          val (Hacl_Bignum_Modulo_carry_top_wide b) % prime = val b % prime) := by
  simp only [Nat.shiftRight_eq_div_pow]
  refine ⟨carry_top_mod b, ?_, carry_top_wide_mod b, ?_⟩
  · intro h2 h0
    rw [carry_top_mod b h2, Nat.mod_eq_of_lt h0]
    exact ⟨rfl, carry_top_value _ _ _⟩
  · intro h2 h0
    rw [carry_top_wide_mod b h2, Nat.mod_eq_of_lt h0]
    exact ⟨rfl, carry_top_value _ _ _⟩

end Poly1305_64
